import Mathlib

/-!
# Gearman broker event loop (`src/server/gmserver.go`)

A shallow embedding of the single-threaded broker of `gmserver.go`: the tables of
`Server`, the handlers reached from `handleProtoEvt`, and the sweep `clearTimeoutJob`.

Conventions of the embedding.
* A Go `map[K]V` is a function `K → Option V`; `m[k] = v` is `GoMap.set`, `delete(m, k)`
  is `GoMap.del`.  Where the source ranges over a map and the visiting order can be
  observed, the order chosen by the runtime is an explicit input (`Env`).
* `*Worker` values are addresses into `Server.heap`; the worker table and the rosters hold
  addresses, so a mutation through one alias is seen through the others, as in Go.
* `*Job` values are held by exactly one container at a time (a queue, then `workJobs`), so
  jobs are embedded by value.
* `c.Send(p)` and `w.Send(p)` are recorded in the output as `(SessionId, p)`; a send on
  `e.result` is recorded in `Out.replies`.
* A handler returns `none` where the Go code stops with a runtime fault (nil dereference,
  failed type assertion, index out of range).
-/

namespace Gearman

/-! ## Go maps -/

/-- A Go map as a partial function. -/
abbrev GoMap (K V : Type) := K → Option V

/-- The empty map, `make(map[K]V)`. -/
def GoMap.empty {K V : Type} : GoMap K V := fun _ => none

/-- The assignment `m[k] = v`. -/
def GoMap.set {K V : Type} [DecidableEq K] (m : GoMap K V) (k : K) (v : V) : GoMap K V :=
  fun x => if x = k then some v else m x

/-- The statement `delete(m, k)`. -/
def GoMap.del {K V : Type} [DecidableEq K] (m : GoMap K V) (k : K) : GoMap K V :=
  fun x => if x = k then none else m x

/-- A write through the pointer `p`: the object at `p` becomes `w`. -/
def heapSet {α : Type} (heap : Nat → α) (p : Nat) (w : α) : Nat → α :=
  fun q => if q = p then w else heap q

/-- A list `order` is a visiting order of `range m`: every key once, no other key. -/
def RangeOf {K V : Type} (m : GoMap K V) (order : List K) : Prop :=
  order.Nodup ∧ ∀ k, k ∈ order ↔ (m k).isSome = true

/-! ## Data model -/

/-- Modelled from the spec: the command codes of package `common` (the recognised codes
of §6), a code `OTHER` for any further protocol code below the control cutoff, and the
control band of package `server` (`ctrlCloseSession` and any larger tag). -/
inductive Cmd
  | CAN_DO | CANT_DO | RESET_ABILITIES | PRE_SLEEP | NOOP
  | SUBMIT_JOB | SUBMIT_JOB_BG | SUBMIT_JOB_HIGH | SUBMIT_JOB_HIGH_BG
  | SUBMIT_JOB_LOW | SUBMIT_JOB_LOW_BG | JOB_CREATED
  | GRAB_JOB | NO_JOB | JOB_ASSIGN
  | WORK_STATUS | WORK_COMPLETE | WORK_FAIL | WORK_EXCEPTION | WORK_DATA | WORK_WARNING
  | SET_CLIENT_ID | CAN_DO_TIMEOUT | GRAB_JOB_UNIQ | JOB_ASSIGN_UNIQ
  | OTHER
  | ctrlCloseSession | ctrlOther
  deriving DecidableEq, Repr

/-- The test `e.tp >= ctrlCloseSession` of `handleProtoEvt`. -/
def Cmd.isCtrl : Cmd → Bool
  | .ctrlCloseSession => true
  | .ctrlOther => true
  | _ => false

/-- Modelled from the spec: the worker status constants (`wsRunning`,
`wsPrepareForSleep`, `wsSleep` in the source, `Connected` for a fresh worker). -/
inductive WorkerStatus
  | wsConnected | wsRunning | wsPrepareForSleep | wsSleep
  deriving DecidableEq, Repr

/-- Modelled from the spec: the `Worker` struct (§3): session id, human id, status and
the `canDo` map. Its declaration is not in `gmserver.go`. -/
structure Worker where
  SessionId : Int
  workerId : String
  status : WorkerStatus
  canDo : GoMap String Bool

/-- Modelled from the spec: the `Client` struct (§3), identified by its session id. -/
structure Client where
  SessionId : Int
  deriving DecidableEq, Repr

/-- Modelled from the spec: the priority classes of package `common`. -/
inductive Priority
  | PRIORITY_LOW | PRIORITY_NORMAL | PRIORITY_HIGH
  deriving DecidableEq, Repr

/-- Rank of a priority class, `High > Normal > Low`. -/
def Priority.rank : Priority → Nat
  | .PRIORITY_LOW => 0
  | .PRIORITY_NORMAL => 1
  | .PRIORITY_HIGH => 2

/-- Modelled from the spec: the `Job` struct (§3). Times are Unix seconds. -/
structure Job where
  Handle : String
  Id : String
  FuncName : String
  Data : String
  Priority : Priority
  IsBackGround : Bool
  CreateAt : Int
  CreateBy : Int
  ProcessAt : Int
  ProcessBy : Int
  TimeoutSec : Int
  Percent : Int
  Denominator : Int
  deriving DecidableEq, Repr

/-- Modelled from the spec: a response packet as built by `constructReply`, a command
code with its argument fields (the byte framing belongs to the wire codec). -/
structure Packet where
  tp : Cmd
  data : List String
  deriving DecidableEq, Repr

/-- Modelled from the spec: `constructReply(tp, args)`. -/
def constructReply (tp : Cmd) (data : List String) : Packet := ⟨tp, data⟩

/-- The pre-built packet `wakeupReply`. -/
def wakeupReply : Packet := constructReply .NOOP []

/-- The pre-built packet `nojobReply`. -/
def nojobReply : Packet := constructReply .NO_JOB []

/-- The pre-built packet `timeoutReply`. -/
def timeoutReply : Packet := constructReply .WORK_FAIL ["job timeout"]

/-- A value stored in a slot of `Tuple` (`interface{}` in the source). -/
inductive Arg
  | nil
  | worker (p : Nat)
  | client (c : Client)
  | str (s : String)
  | bytes (b : String)
  | slice (xs : List String)
  deriving DecidableEq, Repr

/-- The argument tuple of an event. -/
structure Tuple where
  t0 : Arg := .nil
  t1 : Arg := .nil
  t2 : Arg := .nil
  t3 : Arg := .nil
  t4 : Arg := .nil
  t5 : Arg := .nil
  deriving DecidableEq, Repr

/-- The struct `Event`; the reply channel `result` is the output `Out.replies`. -/
structure Event where
  tp : Cmd
  args : Tuple := {}
  fromSessionId : Int := 0
  deriving DecidableEq, Repr

/-- A value sent on an event's reply channel. -/
inductive Reply
  | nil
  | handle (h : String)
  | job (j : Job)
  | bool (b : Bool)
  deriving DecidableEq, Repr

/-- What a handler emits: packets pushed to sessions and values sent on `e.result`. -/
structure Out where
  sends : List (Int × Packet) := []
  replies : List Reply := []
  deriving DecidableEq, Repr

/-- The struct `Server` (without the inbound channel and the session counter), together
with the memory holding the `Worker` objects the tables point to. -/
structure Server where
  tryTimes : Int
  funcWorker : GoMap String (List Nat)
  worker : GoMap Int Nat
  client : GoMap Int Client
  workJobs : GoMap String Job
  funcTimeout : GoMap String Int
  jobStores : GoMap String (List Job)
  heap : Nat → Worker

/-- What the environment supplies to one handler run: the wall clock, the handle returned
by `allocJobId()`, and the order in which `range` visits the sender's `canDo` map. -/
structure Env where
  now : Int := 0
  handle : String := ""
  order : List String := []

/-- The constructor `NewServer(tryTimes)`: all tables empty. -/
def NewServer (tryTimes : Int) (heap : Nat → Worker) : Server :=
  { tryTimes := tryTimes
    funcWorker := GoMap.empty
    worker := GoMap.empty
    client := GoMap.empty
    workJobs := GoMap.empty
    funcTimeout := GoMap.empty
    jobStores := GoMap.empty
    heap := heap }

/-! ## Library behaviour used by the handlers -/

/-- Wrap-around of a sum of two `int64` values. -/
def wrap64 (x : Int) : Int := (x + 2 ^ 63) % 2 ^ 64 - 2 ^ 63

/-- The digit loop of `strconv.ParseUint(s, 10, 64)` with the value `n` read so far:
`none` at a character that is not a decimal digit (a syntax error), and the value
`2 ^ 64 - 1` with the flag set as soon as the value leaves the `uint64` range, whatever
follows. -/
def parseDigits : List Char → Nat → Option (Nat × Bool)
  | [], n => some (n, false)
  | c :: cs, n =>
    if !c.isDigit then none
    else if n ≥ 2 ^ 64 / 10 + 1 then some (2 ^ 64 - 1, true)
    else if n * 10 + (c.toNat - 48) > 2 ^ 64 - 1 then some (2 ^ 64 - 1, true)
    else parseDigits cs (n * 10 + (c.toNat - 48))

/-- The call `strconv.Atoi(s)`: the parsed value and whether `err == nil`. A syntax error
yields `0`, a range error the nearest `int64` bound. -/
def atoi (s : String) : Int × Bool :=
  let cs := s.toList
  let neg := cs.head? = some '-'
  let ds := if cs.head? = some '-' ∨ cs.head? = some '+' then cs.tail else cs
  if ds = [] then (0, false)
  else
    match parseDigits ds 0 with
    | none => (0, false)
    | some (un, _) =>
      if neg then
        if (un : Int) > 2 ^ 63 then (-(2 ^ 63), false) else (-(un : Int), true)
      else
        if (un : Int) ≥ 2 ^ 63 then (2 ^ 63 - 1, false) else ((un : Int), true)

/-- Modelled from the spec: `JobQueue.PushJob` (§4.3), FIFO inside a priority class and
higher classes ahead of lower ones. -/
def PushJob (q : List Job) (j : Job) : List Job :=
  q.takeWhile (fun x => decide (j.Priority.rank ≤ x.Priority.rank)) ++
    j :: q.dropWhile (fun x => decide (j.Priority.rank ≤ x.Priority.rank))

/-- Modelled from the spec: `JobQueue.PopJob` (§4.3), the head job or `nil`. -/
def PopJob : List Job → Option Job × List Job
  | [] => (none, [])
  | j :: q => (some j, q)

/-- Modelled from the spec: `isBackGround(tp)`, true for the `_BG` submit variants. -/
def isBackGround : Cmd → Bool
  | .SUBMIT_JOB_BG => true
  | .SUBMIT_JOB_HIGH_BG => true
  | .SUBMIT_JOB_LOW_BG => true
  | _ => false

/-- Modelled from the spec: `cmd2Priority(tp)`, the priority of a submit variant. -/
def cmd2Priority : Cmd → Priority
  | .SUBMIT_JOB_HIGH => .PRIORITY_HIGH
  | .SUBMIT_JOB_HIGH_BG => .PRIORITY_HIGH
  | .SUBMIT_JOB_LOW => .PRIORITY_LOW
  | .SUBMIT_JOB_LOW_BG => .PRIORITY_LOW
  | _ => .PRIORITY_NORMAL

/-! ## Handlers of `gmserver.go` -/

/-- One iteration of the loop of `clearTimeoutJob` at key `k`. -/
def clearTimeoutStep (now : Int) (acc : Server × List (Int × Packet)) (k : String) :
    Server × List (Int × Packet) :=
  match acc.1.workJobs k with
  | none => acc
  | some j =>
    if j.TimeoutSec > 0 then
      if wrap64 (j.CreateAt + j.TimeoutSec) > now then
        let sends := match acc.1.client j.CreateBy with
          | some c => acc.2 ++ [(c.SessionId, timeoutReply)]
          | none => acc.2
        ({ acc.1 with workJobs := acc.1.workJobs.del k }, sends)
      else acc
    else acc

/-- The method `clearTimeoutJob`; `now` is `time.Now().Unix()` and `order` the order in
which `range server.workJobs` visits the keys. -/
def clearTimeoutJob (s : Server) (now : Int) (order : List String) :
    Server × List (Int × Packet) :=
  order.foldl (clearTimeoutStep now) (s, [])

/-- The method `addWorker`: append `w` unless an entry has its session id. -/
def addWorker (heap : Nat → Worker) : List Nat → Nat → List Nat
  | [], w => [w]
  | p :: l, w =>
    if (heap p).SessionId = (heap w).SessionId then p :: l else p :: addWorker heap l w

/-- The method `getJobWorkPair`: the roster of `funcName`, created empty if absent. -/
def getJobWorkPair (s : Server) (funcName : String) : Server × List Nat :=
  match s.funcWorker funcName with
  | some jw => (s, jw)
  | none => ({ s with funcWorker := s.funcWorker.set funcName [] }, [])

/-- The method `handleCanDo`. -/
def handleCanDo (s : Server) (funcName : String) (w : Nat) (timeout : Int) : Server :=
  let s1 := (getJobWorkPair s funcName).1
  let jw := (getJobWorkPair s funcName).2
  let s2 := { s1 with funcWorker := s1.funcWorker.set funcName (addWorker s1.heap jw w) }
  let s3 := { s2 with worker := s2.worker.set (s2.heap w).SessionId w }
  let s4 := { s3 with funcTimeout := s3.funcTimeout.set funcName timeout }
  { s4 with
    heap := heapSet s4.heap w { s4.heap w with canDo := (s4.heap w).canDo.set funcName true } }

/-- The method `addFuncJobStore`: the queue of `funcName`, created empty if absent. -/
def addFuncJobStore (s : Server) (funcName : String) : Server × List Job :=
  match s.jobStores funcName with
  | some k => (s, k)
  | none => ({ s with jobStores := s.jobStores.set funcName [] }, [])

/-- The method `removeWorker`: unlink the first entry whose session id is `sessionId`. -/
def removeWorker (heap : Nat → Worker) : List Nat → Int → List Nat
  | [], _ => []
  | p :: l, sessionId =>
    if (heap p).SessionId = sessionId then l else p :: removeWorker heap l sessionId

/-- The method `removeCanDo`; `none` is the nil dereference of `server.worker[sessionId]`
when the session is not in the worker table. -/
def removeCanDo (s : Server) (funcName : String) (sessionId : Int) : Option Server :=
  let s1 := match s.funcWorker funcName with
    | some jw => { s with funcWorker := s.funcWorker.set funcName (removeWorker s.heap jw sessionId) }
    | none => s
  match s1.worker sessionId with
  | none => none
  | some w =>
    some { s1 with
      heap := heapSet s1.heap w { s1.heap w with canDo := (s1.heap w).canDo.del funcName } }

/-- The method `removeWorkerBySessionId`: `removeWorker` on every roster (the result does
not depend on the order of the range), then `delete(server.worker, sessionId)`. -/
def removeWorkerBySessionId (s : Server) (sessionId : Int) : Server :=
  { s with
    funcWorker := fun f => (s.funcWorker f).map (fun jw => removeWorker s.heap jw sessionId)
    worker := s.worker.del sessionId }

/-- The loop of `popJob` over the functions in the order the range visits them. -/
def popJobLoop (s : Server) (canDo : GoMap String Bool) : List String → Server × Option Job
  | [] => (s, none)
  | funcName :: rest =>
    match canDo funcName with
    | none => popJobLoop s canDo rest
    | some cando =>
      if !cando then popJobLoop s canDo rest
      else
        match s.jobStores funcName with
        | none => popJobLoop s canDo rest
        | some queue =>
          if queue.length = 0 then popJobLoop s canDo rest
          else
            match PopJob queue with
            | (some jb, queue1) =>
              ({ s with jobStores := s.jobStores.set funcName queue1 }, some jb)
            | (none, queue1) =>
              popJobLoop { s with jobStores := s.jobStores.set funcName queue1 } canDo rest

/-- The method `popJob`; `none` is the nil dereference for a session missing from the
worker table, `order` the order of `range server.worker[sessionId].canDo`. -/
def popJob (s : Server) (sessionId : Int) (order : List String) :
    Option (Server × Option Job) :=
  match s.worker sessionId with
  | none => none
  | some w => some (popJobLoop s (s.heap w).canDo order)

/-- The method `wakeupWorker`: whether a wakeup was sent, and the packet sent. -/
def wakeupWorker (s : Server) (funcName : String) (w : Nat) : Bool × List (Int × Packet) :=
  match s.jobStores funcName with
  | none => (false, [])
  | some jq =>
    if jq.length = 0 then (false, [])
    else (true, [((s.heap w).SessionId, wakeupReply)])

/-- The wakeup loop of `doAddJob`; `i` counts the workers visited so far. -/
def wakeLoop (s : Server) (funcName : String) : List Nat → Int → List (Int × Packet)
  | [], _ => []
  | w :: rest, i =>
    let sent := (wakeupWorker s funcName w).2
    if s.tryTimes > 0 ∧ i + 1 ≥ s.tryTimes then sent
    else sent ++ wakeLoop s funcName rest (i + 1)

/-- The method `doAddJob`. -/
def doAddJob (s : Server) (j : Job) : Server × List (Int × Packet) :=
  let s1 := (addFuncJobStore s j.FuncName).1
  let queue := (addFuncJobStore s j.FuncName).2
  let j1 := { j with ProcessBy := 0 }
  let s2 := { s1 with jobStores := s1.jobStores.set j.FuncName (PushJob queue j1) }
  match s2.funcWorker j.FuncName with
  | some workers => (s2, wakeLoop s2 j.FuncName workers 0)
  | none => (s2, [])

/-- The method `handleSubmitJob`; `env.handle` is the value of `allocJobId()` and
`env.now` of `time.Now()`. -/
def handleSubmitJob (s : Server) (e : Event) (env : Env) : Option (Server × Out) :=
  match e.args.t0, e.args.t1, e.args.t2, e.args.t3 with
  | .client c, .str funcName, .str id, .bytes data =>
    let s1 := { s with client := s.client.set c.SessionId c }
    let timeout : Int := match s1.funcTimeout funcName with
      | some v => v
      | none => 0
    let j : Job :=
      { Handle := env.handle, Id := id, FuncName := funcName, Data := data,
        Priority := cmd2Priority e.tp, IsBackGround := isBackGround e.tp,
        CreateAt := env.now, CreateBy := c.SessionId, ProcessAt := 0, ProcessBy := 0,
        TimeoutSec := timeout, Percent := 0, Denominator := 0 }
    let r := doAddJob s1 j
    some (r.1, { sends := r.2, replies := [Reply.handle j.Handle] })
  | _, _, _, _ => none

/-- The method `removeJob`. -/
def removeJob (s : Server) (j : Job) : Server :=
  { s with workJobs := s.workJobs.del j.Handle }

/-- The method `checkAndRemoveJob`. -/
def checkAndRemoveJob (s : Server) (tp : Cmd) (j : Job) : Server :=
  match tp with
  | .WORK_COMPLETE => removeJob s j
  | .WORK_EXCEPTION => removeJob s j
  | .WORK_FAIL => removeJob s j
  | _ => s

/-- The method `handleWorkReport`. -/
def handleWorkReport (s : Server) (e : Event) : Option (Server × Out) :=
  match e.args.t0 with
  | .slice slice =>
    match slice with
    | [] => none
    | jobhandle :: _ =>
      match s.workJobs jobhandle with
      | none => some (s, {})
      | some j =>
        let s1 :=
          if e.tp ≠ .WORK_DATA ∧ e.tp ≠ .WORK_STATUS then
            { s with workJobs := s.workJobs.del jobhandle }
          else s
        let upd : Option (Server × Job) :=
          if e.tp = .WORK_STATUS then
            match slice with
            | _ :: a :: b :: _ =>
              let j1 := { j with Percent := (atoi a).1, Denominator := (atoi b).1 }
              some ({ s1 with workJobs := s1.workJobs.set jobhandle j1 }, j1)
            | _ => none
          else some (s1, j)
        match upd with
        | none => none
        | some (s2, j2) =>
          if j2.IsBackGround then some (s2, {})
          else
            match s2.client j2.CreateBy with
            | none => some (s2, {})
            | some c => some (s2, { sends := [(c.SessionId, constructReply e.tp slice)] })
  | _ => none

/-- The method `handleCloseSession`. -/
def handleCloseSession (s : Server) (e : Event) : Server × Out :=
  let sessionId := e.fromSessionId
  let s1 := match s.worker sessionId with
    | some w => removeWorkerBySessionId s (s.heap w).SessionId
    | none =>
      match s.client sessionId with
      | some c => { s with client := s.client.del c.SessionId }
      | none => s
  (s1, { replies := [Reply.bool true] })

/-- The method `setClientId`. -/
def setClientId (s : Server) (clientId : String) (w : Nat) : Server :=
  { s with heap := heapSet s.heap w { s.heap w with workerId := clientId } }

/-- The method `handleCtrlEvt`. -/
def handleCtrlEvt (s : Server) (e : Event) : Server × Out :=
  match e.tp with
  | .ctrlCloseSession => handleCloseSession s e
  | _ => (s, {})

/-- The scan of `PRE_SLEEP` over the worker's `canDo` map, in the order the range visits
the functions; it stops at the first wakeup sent. -/
def preSleepLoop (s : Server) (w : Nat) (canDo : GoMap String Bool) :
    List String → List (Int × Packet)
  | [] => []
  | k :: rest =>
    match canDo k with
    | none => preSleepLoop s w canDo rest
    | some v =>
      if v ∧ (wakeupWorker s k w).1 then (wakeupWorker s k w).2
      else preSleepLoop s w canDo rest

/-- The assignment `w.status = st` through the pointer `w`. -/
def setStatus (s : Server) (w : Nat) (st : WorkerStatus) : Server :=
  { s with heap := heapSet s.heap w { s.heap w with status := st } }

/-- The `GRAB_JOB` / `GRAB_JOB_UNIQ` case of `handleProtoEvt`. -/
def handleGrabJob (s : Server) (e : Event) (env : Env) : Option (Server × Out) :=
  let sessionId := e.fromSessionId
  match s.worker sessionId with
  | none => some (s, { replies := [Reply.nil] })
  | some w =>
    let s1 := setStatus s w .wsRunning
    match popJob s1 sessionId env.order with
    | none => none
    | some (s2, some j) =>
      let j1 := { j with ProcessAt := env.now, ProcessBy := sessionId }
      some ({ s2 with workJobs := s2.workJobs.set j1.Handle j1 }, { replies := [Reply.job j1] })
    | some (s2, none) =>
      some (setStatus s2 w .wsPrepareForSleep, { replies := [Reply.nil] })

/-- The `PRE_SLEEP` case of `handleProtoEvt`. -/
def handlePreSleep (s : Server) (e : Event) (env : Env) : Option (Server × Out) :=
  let sessionId := e.fromSessionId
  match s.worker sessionId with
  | none =>
    match e.args.t0 with
    | .worker w => some ({ s with worker := s.worker.set (s.heap w).SessionId w }, {})
    | _ => none
  | some w =>
    let s1 := setStatus s w .wsSleep
    some (s1, { sends := preSleepLoop s1 w (s1.heap w).canDo env.order })

/-- The method `handleProtoEvt`. -/
def handleProtoEvt (s : Server) (e : Event) (env : Env) : Option (Server × Out) :=
  if e.tp.isCtrl then some (handleCtrlEvt s e)
  else
    match e.tp with
    | .CAN_DO =>
      match e.args.t0, e.args.t1 with
      | .worker w, .str funcName =>
        some ((addFuncJobStore (handleCanDo s funcName w 0) funcName).1, {})
      | _, _ => none
    | .CAN_DO_TIMEOUT =>
      match e.args.t0, e.args.t1, e.args.t2 with
      | .worker w, .str funcName, .str t =>
        let timeout := if (atoi t).2 then (atoi t).1 else 0
        some ((addFuncJobStore (handleCanDo s funcName w timeout) funcName).1, {})
      | _, _, _ => none
    | .CANT_DO =>
      match e.args.t0 with
      | .str funcName => (removeCanDo s funcName e.fromSessionId).map (fun s1 => (s1, {}))
      | _ => none
    | .SET_CLIENT_ID =>
      match e.args.t1, e.args.t0 with
      | .str id, .worker w => some (setClientId s id w, {})
      | _, _ => none
    | .GRAB_JOB => handleGrabJob s e env
    | .GRAB_JOB_UNIQ => handleGrabJob s e env
    | .PRE_SLEEP => handlePreSleep s e env
    | .SUBMIT_JOB => handleSubmitJob s e env
    | .SUBMIT_JOB_LOW_BG => handleSubmitJob s e env
    | .SUBMIT_JOB_LOW => handleSubmitJob s e env
    | .WORK_DATA => handleWorkReport s e
    | .WORK_WARNING => handleWorkReport s e
    | .WORK_STATUS => handleWorkReport s e
    | .WORK_COMPLETE => handleWorkReport s e
    | .WORK_FAIL => handleWorkReport s e
    | .WORK_EXCEPTION => handleWorkReport s e
    | .RESET_ABILITIES => some (s, {})
    | _ => some (s, {})

/-! ## The broker as a transition system -/

/-- The commands whose handler ranges over the sender's `canDo` map. -/
def usesOrder : Cmd → Bool
  | .GRAB_JOB => true
  | .GRAB_JOB_UNIQ => true
  | .PRE_SLEEP => true
  | _ => false

/-- The order offered to a handler that ranges over the sender's `canDo` map is a visiting
order of that map. -/
def EnvOk (s : Server) (e : Event) (env : Env) : Prop :=
  usesOrder e.tp = true →
    ∀ w, s.worker e.fromSessionId = some w → RangeOf (s.heap w).canDo env.order

/-- States of the event loop `EvtLoop`, with the handles `allocJobId()` has offered so
far. A run starts from `NewServer`, handles one event at a time with a handle never
offered before, and sweeps timeouts on a tick; a run that faults has no successor. -/
inductive Reachable : List String → Server → Prop
  | init (tryTimes : Int) (heap : Nat → Worker) : Reachable [] (NewServer tryTimes heap)
  | proto {issued : List String} {s : Server} (e : Event) (env : Env) (s1 : Server)
      (out : Out) (hr : Reachable issued s) (henv : EnvOk s e env)
      (hfresh : env.handle ∉ issued) (hstep : handleProtoEvt s e env = some (s1, out)) :
      Reachable (env.handle :: issued) s1
  | tick {issued : List String} {s : Server} (now : Int) (order : List String)
      (hr : Reachable issued s) (hord : RangeOf s.workJobs order) :
      Reachable issued (clearTimeoutJob s now order).1

/-- The packet a wakeup of worker object `w` pushes. -/
def noopTo (s : Server) (w : Nat) : Int × Packet := ((s.heap w).SessionId, wakeupReply)

/-! ## Concrete inputs -/

/-- A memory in which the worker object at address `p` belongs to session `p`, is freshly
connected and has an empty `canDo` map. -/
def heap0 : Nat → Worker :=
  fun p => { SessionId := p, workerId := "", status := .wsConnected, canDo := GoMap.empty }

/-- A job for function `f` with handle `h`, created by session `by` at time `at`. -/
def mkJob (h f : String) (createBy createAt timeoutSec : Int) (bg : Bool) : Job :=
  { Handle := h, Id := "u", FuncName := f, Data := "", Priority := .PRIORITY_NORMAL,
    IsBackGround := bg, CreateAt := createAt, CreateBy := createBy, ProcessAt := 0,
    ProcessBy := 0, TimeoutSec := timeoutSec, Percent := 0, Denominator := 0 }

/-- A broker with `tryTimes = 2` and three workers on the roster of `"f"`. -/
def srvThreeWorkers : Server :=
  { NewServer 2 heap0 with funcWorker := (GoMap.empty : GoMap String (List Nat)).set "f" [1, 2, 3] }

/-- A broker whose `workJobs` holds one job `"H:1"`, created at time 100 by client 7 with
a timeout of 10 seconds; client 7 is connected. -/
def srvOneWorking : Server :=
  { NewServer 0 heap0 with
    workJobs := (GoMap.empty : GoMap String Job).set "H:1" (mkJob "H:1" "f" 7 100 10 false)
    client := (GoMap.empty : GoMap Int Client).set 7 ⟨7⟩ }

/-- The six work-report commands dispatched to `handleWorkReport`. -/
def isWorkReport : Cmd → Bool
  | .WORK_DATA => true
  | .WORK_WARNING => true
  | .WORK_STATUS => true
  | .WORK_COMPLETE => true
  | .WORK_FAIL => true
  | .WORK_EXCEPTION => true
  | _ => false

/-- A work-report event as the session layer frames it: the argument list starts with the
job handle, and a `WORK_STATUS` report carries numerator and denominator after it. -/
def ReportShape (e : Event) (jobhandle : String) (rest : List String) : Prop :=
  isWorkReport e.tp = true ∧ e.args.t0 = .slice (jobhandle :: rest) ∧
    (e.tp = .WORK_STATUS → 2 ≤ rest.length)

/-- A `WORK_WARNING` report on handle `"H:1"` from session 3. -/
def evWarning : Event :=
  { tp := .WORK_WARNING, args := { t0 := .slice ["H:1", "careful"] }, fromSessionId := 3 }

/-- A `WORK_COMPLETE` report on handle `"H:1"` from session 3. -/
def evComplete : Event :=
  { tp := .WORK_COMPLETE, args := { t0 := .slice ["H:1", "olleh"] }, fromSessionId := 3 }

/-- A broker whose `workJobs` holds one background job `"H:1"` of the connected client 7. -/
def srvOneBackground : Server :=
  { NewServer 0 heap0 with
    workJobs := (GoMap.empty : GoMap String Job).set "H:1" (mkJob "H:1" "f" 7 100 0 true)
    client := (GoMap.empty : GoMap Int Client).set 7 ⟨7⟩ }

/-- Some function the worker object `w` declared with flag `true` has a non-empty queue. -/
def Servable (s : Server) (w : Nat) : Prop :=
  ∃ f q, (s.heap w).canDo f = some true ∧ s.jobStores f = some q ∧ q ≠ []

/-- A `GRAB_JOB` event from session 1. -/
def evGrab : Event := { tp := .GRAB_JOB, fromSessionId := 1 }

/-- A broker in which worker 1 declared `"f"` and the queue of `"f"` holds one job. -/
def srvOneQueued : Server :=
  { NewServer 0 (heapSet heap0 1 { heap0 1 with canDo := (GoMap.empty : GoMap String Bool).set "f" true }) with
    worker := (GoMap.empty : GoMap Int Nat).set 1 1
    jobStores := (GoMap.empty : GoMap String (List Job)).set "f" [mkJob "H:1" "f" 7 100 0 false] }

/-! ## Invariants of the tables -/

/-- Invariant of the worker-side tables: table keys agree with the session ids of the
objects stored under them, a roster holds at most one entry per session, every roster
entry's session is a key of `worker`, and every roster entry of `f` has `canDo[f]`. -/
structure WInv (s : Server) : Prop where
  workerKey : ∀ k p, s.worker k = some p → (s.heap p).SessionId = k
  clientKey : ∀ k c, s.client k = some c → c.SessionId = k
  rosterNodup : ∀ f l, s.funcWorker f = some l →
    (l.map (fun p => (s.heap p).SessionId)).Nodup
  rosterReg : ∀ f l p, s.funcWorker f = some l → p ∈ l →
    ∃ q, s.worker (s.heap p).SessionId = some q
  rosterCanDo : ∀ f l p, s.funcWorker f = some l → p ∈ l → (s.heap p).canDo f = some true

/-- Invariant of the job-side tables, relative to the handles offered so far. -/
structure JInv (issued : List String) (s : Server) : Prop where
  queueFunc : ∀ f q j, s.jobStores f = some q → j ∈ q → j.FuncName = f
  queueNodup : ∀ f q, s.jobStores f = some q → (q.map Job.Handle).Nodup
  queueIssued : ∀ f q j, s.jobStores f = some q → j ∈ q → j.Handle ∈ issued
  queueCross : ∀ f g qf qg j1 j2, s.jobStores f = some qf → s.jobStores g = some qg →
    j1 ∈ qf → j2 ∈ qg → j1.Handle = j2.Handle → f = g
  workKey : ∀ k j, s.workJobs k = some j → j.Handle = k
  workIssued : ∀ k j, s.workJobs k = some j → k ∈ issued
  queueWork : ∀ f q j, s.jobStores f = some q → j ∈ q → s.workJobs j.Handle = none

/-- The job `handleSubmitJob` builds for client `c`, before `doAddJob` queues it. -/
def submittedJob (s : Server) (tp : Cmd) (env : Env) (c : Client)
    (funcName id data : String) : Job :=
  { Handle := env.handle, Id := id, FuncName := funcName, Data := data,
    Priority := cmd2Priority tp, IsBackGround := isBackGround tp,
    CreateAt := env.now, CreateBy := c.SessionId, ProcessAt := 0, ProcessBy := 0,
    TimeoutSec := (s.funcTimeout funcName).getD 0, Percent := 0, Denominator := 0 }

/-- The state after a handler run that does not fault. -/
def runEvt (s : Server) (e : Event) (env : Env) : Server :=
  match handleProtoEvt s e env with
  | some r => r.1
  | none => s

/-- `CAN_DO "f"` carrying the worker object at address 1 (session 1). -/
def evCanDo : Event :=
  { tp := .CAN_DO, args := { t0 := .worker 1, t1 := .str "f" }, fromSessionId := 1 }

/-- `SUBMIT_JOB "f"` from the client of session 1. -/
def evSubmit : Event :=
  { tp := .SUBMIT_JOB,
    args := { t0 := .client ⟨1⟩, t1 := .str "f", t2 := .str "u1", t3 := .bytes "hello" },
    fromSessionId := 1 }

/-- `CloseSession` from session 1. -/
def evClose : Event := { tp := .ctrlCloseSession, fromSessionId := 1 }

/-- The broker after `CAN_DO "f"` from session 1. -/
def srvCanDo : Server := runEvt (NewServer 0 heap0) evCanDo { handle := "H:1" }

/-- The broker after `CAN_DO "f"` and `SUBMIT_JOB "f"`, both from session 1: the session
is recorded as a worker and as a client. -/
def srvBoth : Server := runEvt srvCanDo evSubmit { handle := "H:2", now := 100 }

/-- A `GRAB_JOB` run of session 1 at time 101 on `srvBoth`: the job `"H:2"` moves from
the queue of `"f"` into `workJobs`. -/
def srvGrabbed : Server := runEvt srvBoth evGrab { handle := "H:3", now := 101, order := ["f"] }

/-- A second `SUBMIT_JOB "f"` on `srvGrabbed`: one job is working, one is queued. -/
def srvTwoJobs : Server := runEvt srvGrabbed evSubmit { handle := "H:4", now := 102 }

/-- The output of a handler run that does not fault. -/
def outEvt (s : Server) (e : Event) (env : Env) : Out :=
  match handleProtoEvt s e env with
  | some r => r.2
  | none => {}

/-- Runs of the event loop from an arbitrary start state `s0`, with the handles offered
since the start; the steps are those of `Reachable`. -/
inductive ReachableFrom (s0 : Server) : List String → Server → Prop
  | start : ReachableFrom s0 [] s0
  | proto {issued : List String} {s : Server} (e : Event) (env : Env) (s1 : Server)
      (out : Out) (hr : ReachableFrom s0 issued s) (henv : EnvOk s e env)
      (hfresh : env.handle ∉ issued) (hstep : handleProtoEvt s e env = some (s1, out)) :
      ReachableFrom s0 (env.handle :: issued) s1
  | tick {issued : List String} {s : Server} (now : Int) (order : List String)
      (hr : ReachableFrom s0 issued s) (hord : RangeOf s.workJobs order) :
      ReachableFrom s0 issued (clearTimeoutJob s now order).1

/-- The keys of `funcWorker` are the keys of `funcTimeout`, and a function some worker
object has with flag `true` in its `canDo` map is a key of `funcWorker`. -/
structure KInv (s : Server) : Prop where
  keyTimeout : ∀ F, (s.funcWorker F).isSome = (s.funcTimeout F).isSome
  canDoKey : ∀ p F, (s.heap p).canDo F = some true → (s.funcWorker F).isSome = true

/-- `CANT_DO "f"` from session 1. -/
def evCantDo : Event :=
  { tp := .CANT_DO, args := { t0 := .str "f" }, fromSessionId := 1 }

/-- The broker after `CAN_DO "f"` and `CANT_DO "f"` from session 1. -/
def srvCantDo : Server := runEvt srvCanDo evCantDo { handle := "H:2" }

/-- The broker after a single `SUBMIT_JOB "f"`; no worker ever declared `"f"`. -/
def srvSubmitOnly : Server := runEvt (NewServer 0 heap0) evSubmit { handle := "H:1", now := 100 }

/-- `RESET_ABILITIES` from session 1. -/
def evReset : Event := { tp := .RESET_ABILITIES, fromSessionId := 1 }

/-- `CAN_DO_TIMEOUT "f" "1"` carrying the worker object at address 1 (session 1). -/
def evCanDoTimeout : Event :=
  { tp := .CAN_DO_TIMEOUT, args := { t0 := .worker 1, t1 := .str "f", t2 := .str "1" },
    fromSessionId := 1 }

/-- `PRE_SLEEP` from session 1, carrying its worker object. -/
def evPreSleep : Event :=
  { tp := .PRE_SLEEP, args := { t0 := .worker 1 }, fromSessionId := 1 }

/-- The three submit commands `handleProtoEvt` dispatches to `handleSubmitJob`. -/
def isHandledSubmit : Cmd → Bool
  | .SUBMIT_JOB => true
  | .SUBMIT_JOB_LOW => true
  | .SUBMIT_JOB_LOW_BG => true
  | _ => false

/-- The three submit commands `handleProtoEvt` has no case for. -/
def isUnhandledSubmit : Cmd → Bool
  | .SUBMIT_JOB_BG => true
  | .SUBMIT_JOB_HIGH => true
  | .SUBMIT_JOB_HIGH_BG => true
  | _ => false

/-- `SUBMIT_JOB_HIGH "f"` from the client of session 1. -/
def evSubmitHigh : Event :=
  { tp := .SUBMIT_JOB_HIGH,
    args := { t0 := .client ⟨1⟩, t1 := .str "f", t2 := .str "u1", t3 := .bytes "hello" },
    fromSessionId := 1 }

/-- The broker after `CAN_DO_TIMEOUT "f" "1"` from worker 1 and a `SUBMIT_JOB "f"` at time
100 from client 1: the job waits in the queue of `"f"` with a timeout of one second. -/
def srvSlow : Server :=
  runEvt (runEvt (NewServer 0 heap0) evCanDoTimeout { handle := "H:1" }) evSubmit
    { handle := "H:2", now := 100 }

/-- A broker whose `workJobs` holds job `"H:1"` without timeout and job `"H:2"` created
at time 100 with a timeout of 10 seconds, both of the connected client 7. -/
def srvTwoWorking : Server :=
  { NewServer 0 heap0 with
    workJobs := ((GoMap.empty : GoMap String Job).set "H:1" (mkJob "H:1" "f" 7 100 0 false)).set
      "H:2" (mkJob "H:2" "f" 7 100 10 false)
    client := (GoMap.empty : GoMap Int Client).set 7 ⟨7⟩ }

/-- `CAN_DO f` carrying the worker object `w`. -/
def evCanDoFor (w : Nat) (f : String) : Event :=
  { tp := .CAN_DO, args := { t0 := .worker w, t1 := .str f } }

/-- `SUBMIT_JOB f` from client `c`. -/
def evSubmitFor (c : Client) (f : String) : Event :=
  { tp := .SUBMIT_JOB,
    args := { t0 := .client c, t1 := .str f, t2 := .str "u", t3 := .bytes "" },
    fromSessionId := c.SessionId }

/-- `GRAB_JOB` from session `sessionId`. -/
def evGrabFrom (sessionId : Int) : Event := { tp := .GRAB_JOB, fromSessionId := sessionId }

/-- The two-function scenario: from the empty broker, worker object `w` sends
`CAN_DO "a"` and `CAN_DO "b"`, then one job is submitted for `"a"` and one for `"b"`. -/
def scenarioAB (tryTimes : Int) (heap : Nat → Worker) (w : Nat) (c1 c2 : Client)
    (envA envB : Env) : Server :=
  runEvt (runEvt (runEvt (runEvt (NewServer tryTimes heap) (evCanDoFor w "a") {})
    (evCanDoFor w "b") {}) (evSubmitFor c1 "a") envA) (evSubmitFor c2 "b") envB

/-- The stamps `GRAB_JOB` puts on a popped job. -/
def stampJob (j : Job) (now sessionId : Int) : Job :=
  { j with ProcessAt := now, ProcessBy := sessionId }

/-- A broker in which session `sid` is the worker object `w`, which declared `"a"` and
`"b"`, and the only queues are those of `"a"` and `"b"`, holding `qa` and `qb`. -/
structure TwoQueues (s : Server) (w : Nat) (sid : Int) (qa qb : List Job) : Prop where
  hworker : s.worker sid = some w
  ha : (s.heap w).canDo "a" = some true
  hb : (s.heap w).canDo "b" = some true
  hqa : s.jobStores "a" = some qa
  hqb : s.jobStores "b" = some qb
  others : ∀ g, g ≠ "a" → g ≠ "b" → s.jobStores g = none

/-- The job queued by `evSubmitFor c f` when `funcTimeout[f] = 0`. -/
def scenarioJob (env : Env) (c : Client) (f : String) : Job :=
  { Handle := env.handle, Id := "u", FuncName := f, Data := "",
    Priority := .PRIORITY_NORMAL, IsBackGround := false,
    CreateAt := env.now, CreateBy := c.SessionId, ProcessAt := 0, ProcessBy := 0,
    TimeoutSec := 0, Percent := 0, Denominator := 0 }

/-- The `GRAB_JOB` / `GRAB_JOB_UNIQ` case of `handleProtoEvt` in `server.go`, the older
copy of the broker: the unregistered branch breaks without a send on `e.result`, and
the registered branch sends the popped job or nil after the `if`. -/
def handleGrabJobOld (s : Server) (e : Event) (env : Env) : Option (Server × Out) :=
  let sessionId := e.fromSessionId
  match s.worker sessionId with
  | none => some (s, {})
  | some w =>
    let s1 := setStatus s w .wsRunning
    match popJob s1 sessionId env.order with
    | none => none
    | some (s2, some j) =>
      let j1 := { j with ProcessAt := env.now, ProcessBy := sessionId }
      some ({ s2 with workJobs := s2.workJobs.set j1.Handle j1 }, { replies := [Reply.job j1] })
    | some (s2, none) =>
      some (setStatus s2 w .wsPrepareForSleep, { replies := [Reply.nil] })

/-- A `WORK_STATUS` report on handle `"H:1"` that carries the handle only. -/
def evStatusShort : Event :=
  { tp := .WORK_STATUS, args := { t0 := .slice ["H:1"] }, fromSessionId := 3 }

/-- The broker `srvOneWorking` after the terminal report `evComplete`. -/
def srvReported : Server := runEvt srvOneWorking evComplete {}

/-- The event is a `CAN_DO` or `CAN_DO_TIMEOUT` whose function-name slot holds `F`. -/
def declares (e : Event) (F : String) : Bool :=
  (decide (e.tp = .CAN_DO) || decide (e.tp = .CAN_DO_TIMEOUT)) && decide (e.args.t1 = .str F)

/-- Runs of the event loop from `s0` together with their log: the events handled so far
(newest first) and the handles offered so far; the steps are those of `Reachable`. -/
inductive RunLog (s0 : Server) : List Event → List String → Server → Prop
  | start : RunLog s0 [] [] s0
  | proto {log : List Event} {issued : List String} {s : Server} (e : Event) (env : Env)
      (s1 : Server) (out : Out) (hr : RunLog s0 log issued s) (henv : EnvOk s e env)
      (hfresh : env.handle ∉ issued) (hstep : handleProtoEvt s e env = some (s1, out)) :
      RunLog s0 (e :: log) (env.handle :: issued) s1
  | tick {log : List Event} {issued : List String} {s : Server} (now : Int)
      (order : List String) (hr : RunLog s0 log issued s) (hord : RangeOf s.workJobs order) :
      RunLog s0 log issued (clearTimeoutJob s now order).1

/-! # Properties -/

/-! ## Wakeup fan-out -/

theorem wakeupWorker_of_nonempty (s : Server) (f : String) (w : Nat) (q : List Job)
    (hq : s.jobStores f = some q) (hne : q ≠ []) :
    (wakeupWorker s f w).2 = [noopTo s w] := by
  unfold wakeupWorker
  rw [hq]
  have : q.length ≠ 0 := by
    intro h
    exact hne (List.length_eq_zero.mp h)
  simp [this, noopTo]

theorem wakeLoop_all (s : Server) (f : String) (q : List Job)
    (hq : s.jobStores f = some q) (hne : q ≠ []) (ht : s.tryTimes ≤ 0) :
    ∀ (ws : List Nat) (i : Int), wakeLoop s f ws i = ws.map (noopTo s) := by
  intro ws
  induction ws with
  | nil => intro i; rfl
  | cons w rest ih =>
    intro i
    have hnot : ¬ (s.tryTimes > 0 ∧ i + 1 ≥ s.tryTimes) := by
      intro h
      omega
    simp only [wakeLoop, hnot, if_false, wakeupWorker_of_nonempty s f w q hq hne, ih (i + 1)]
    rfl

theorem wakeLoop_capped (s : Server) (f : String) (q : List Job)
    (hq : s.jobStores f = some q) (hne : q ≠ []) (ht : 0 < s.tryTimes) :
    ∀ (ws : List Nat) (i : Int), 0 ≤ i → i < s.tryTimes →
      wakeLoop s f ws i = (ws.take (s.tryTimes - i).toNat).map (noopTo s) := by
  intro ws
  induction ws with
  | nil => intro i _ _; simp [wakeLoop]
  | cons w rest ih =>
    intro i hi hlt
    obtain ⟨n, hn⟩ : ∃ n : Nat, (s.tryTimes - i).toNat = n + 1 :=
      ⟨(s.tryTimes - i).toNat - 1, by omega⟩
    by_cases hstop : i + 1 ≥ s.tryTimes
    · have hn0 : n = 0 := by omega
      simp [wakeLoop, ht, hstop, wakeupWorker_of_nonempty s f w q hq hne, hn, hn0]
    · have hnot : ¬ (s.tryTimes > 0 ∧ i + 1 ≥ s.tryTimes) := fun h => hstop h.2
      have hn1 : (s.tryTimes - (i + 1)).toNat = n := by omega
      simp only [wakeLoop, hnot, if_false, wakeupWorker_of_nonempty s f w q hq hne,
        ih (i + 1) (by omega) (by omega), hn, hn1, List.take_succ_cons, List.map_cons]
      rfl

theorem PushJob_ne_nil (q : List Job) (j : Job) : PushJob q j ≠ [] := by
  unfold PushJob
  simp

theorem doAddJob_sends (s : Server) (j : Job) (workers : List Nat)
    (hw : s.funcWorker j.FuncName = some workers) :
    ∃ s2 q, (doAddJob s j).1 = s2 ∧ s2.jobStores j.FuncName = some q ∧ q ≠ [] ∧
      s2.tryTimes = s.tryTimes ∧ s2.heap = s.heap ∧
      (doAddJob s j).2 = wakeLoop s2 j.FuncName workers 0 := by
  unfold doAddJob addFuncJobStore
  cases hq : s.jobStores j.FuncName with
  | none =>
    simp only [hw]
    exact ⟨_, PushJob [] { j with ProcessBy := 0 }, rfl, by simp [GoMap.set],
      PushJob_ne_nil _ _, rfl, rfl, rfl⟩
  | some q0 =>
    simp only [hw]
    exact ⟨_, PushJob q0 { j with ProcessBy := 0 }, rfl, by simp [GoMap.set],
      PushJob_ne_nil _ _, rfl, rfl, rfl⟩

/-- C1: when a job is pushed for a function whose roster holds the workers `workers`,
`doAddJob` sends a NOOP to every worker of the roster if `tryTimes = 0`, and if
`tryTimes = k > 0` it sends exactly `min k N` NOOPs, to the first `min k N` workers of
the roster in insertion order; nothing else is sent. -/
theorem C1_wakeup_fanout_cap (s : Server) (j : Job) (workers : List Nat)
    (hw : s.funcWorker j.FuncName = some workers) :
    (s.tryTimes = 0 →
      (doAddJob s j).2 = workers.map (fun w => ((s.heap w).SessionId, wakeupReply))) ∧
    (0 < s.tryTimes →
      (doAddJob s j).2 =
        (workers.take (min s.tryTimes.toNat workers.length)).map
          (fun w => ((s.heap w).SessionId, wakeupReply)) ∧
      (doAddJob s j).2.length = min s.tryTimes.toNat workers.length) := by
  obtain ⟨s2, q, _, hq, hne, htt, hheap, hsend⟩ := doAddJob_sends s j workers hw
  have hfun : noopTo s2 = fun w => ((s.heap w).SessionId, wakeupReply) := by
    funext w
    simp [noopTo, hheap]
  constructor
  · intro h0
    rw [hsend, wakeLoop_all s2 j.FuncName q hq hne (by omega), hfun]
  · intro hpos
    have hmin : List.take (min s.tryTimes.toNat workers.length) workers =
        List.take s.tryTimes.toNat workers := by
      rw [List.take_eq_take]
      simp
    have key : (doAddJob s j).2 = (workers.take (min s.tryTimes.toNat workers.length)).map
          (fun w => ((s.heap w).SessionId, wakeupReply)) := by
      rw [hsend, wakeLoop_capped s2 j.FuncName q hq hne (by omega) workers 0 (by omega)
        (by omega), hfun, hmin, htt]
      simp
    refine ⟨key, ?_⟩
    rw [key]
    simp

/-- C1 at a concrete input: `tryTimes = 2` and three workers, two NOOPs to the first two. -/
theorem C1_wakeup_fanout_cap_witness :
    srvThreeWorkers.funcWorker (mkJob "H:1" "f" 9 0 0 false).FuncName = some [1, 2, 3] ∧
    (doAddJob srvThreeWorkers (mkJob "H:1" "f" 9 0 0 false)).2 =
      [(1, wakeupReply), (2, wakeupReply)] := by
  have h := (C1_wakeup_fanout_cap srvThreeWorkers (mkJob "H:1" "f" 9 0 0 false) [1, 2, 3]
    rfl).2 (by decide)
  refine ⟨rfl, ?_⟩
  rw [h.1]
  rfl

/-! ## Timeout sweep -/

/-- C2 on the code: the sweep compares the wrong way round. For the job created at 100
with a 10 second timeout, a sweep at time 200 (deadline passed) keeps the job and sends
nothing, while a sweep at time 105 (deadline not reached) removes it and sends the
`WORK_FAIL "job timeout"` packet to its client. -/
theorem C2_sweep_fires_before_deadline :
    (clearTimeoutJob srvOneWorking 200 ["H:1"]).1.workJobs "H:1" =
        some (mkJob "H:1" "f" 7 100 10 false) ∧
    (clearTimeoutJob srvOneWorking 200 ["H:1"]).2 = [] ∧
    (clearTimeoutJob srvOneWorking 105 ["H:1"]).1.workJobs "H:1" = none ∧
    (clearTimeoutJob srvOneWorking 105 ["H:1"]).2 = [(7, timeoutReply)] := by
  refine ⟨?_, ?_, ?_, ?_⟩ <;> decide

/-! ## Work reports -/

/-- C4 on the code: a `WORK_WARNING` report on a handle held in `workJobs` removes the
job, because `handleWorkReport` keeps the job only for `WORK_DATA` and `WORK_STATUS`;
the sibling `checkAndRemoveJob` keeps it for `WORK_WARNING`. -/
theorem C4_work_warning_removes_job :
    srvOneWorking.workJobs "H:1" = some (mkJob "H:1" "f" 7 100 10 false) ∧
    (handleWorkReport srvOneWorking evWarning).map (fun r => r.1.workJobs "H:1") =
      some none ∧
    (checkAndRemoveJob srvOneWorking .WORK_WARNING (mkJob "H:1" "f" 7 100 10 false)).workJobs
      "H:1" = some (mkJob "H:1" "f" 7 100 10 false) := by
  refine ⟨?_, ?_, ?_⟩ <;> decide

theorem handleWorkReport_found (s : Server) (e : Event) (h : String) (rest : List String)
    (j : Job) (hshape : ReportShape e h rest) (hj : s.workJobs h = some j) :
    ∃ s1 : Server, s1.client = s.client ∧
      handleWorkReport s e = some (s1,
        if j.IsBackGround then {}
        else match s.client j.CreateBy with
          | none => {}
          | some c => { sends := [(c.SessionId, constructReply e.tp (h :: rest))] }) := by
  obtain ⟨htp, harg, hst⟩ := hshape
  unfold handleWorkReport
  simp only [harg, hj]
  by_cases hs : e.tp = .WORK_STATUS
  · have h2 := hst hs
    match rest, h2 with
    | a :: b :: tl, _ =>
      cases hb : j.IsBackGround <;> cases hc : s.client j.CreateBy <;> simp [hs, hb, hc]
  · by_cases hd : e.tp = .WORK_DATA
    · cases hb : j.IsBackGround <;> cases hc : s.client j.CreateBy <;> simp [hs, hd, hb, hc]
    · cases hb : j.IsBackGround <;> cases hc : s.client j.CreateBy <;> simp [hs, hd, hb, hc]

theorem handleProtoEvt_workReport (s : Server) (e : Event) (env : Env)
    (htp : isWorkReport e.tp = true) : handleProtoEvt s e env = handleWorkReport s e := by
  unfold handleProtoEvt
  cases h : e.tp <;> simp [h, isWorkReport, Cmd.isCtrl] at htp ⊢

/-- C5: a work report (any of the six `WORK_*` commands) on a handle of `workJobs` whose
job is a foreground job sends exactly one packet when the submitting client
`client[job.CreateBy]` is present, to that client, and the packet is
`constructReply` of the report's own command and unchanged argument list; when the
client is absent nothing is sent. Nothing is sent on the reply channel. -/
theorem C5_foreground_routing (s : Server) (e : Event) (env : Env) (h : String)
    (rest : List String) (j : Job) (hshape : ReportShape e h rest)
    (hj : s.workJobs h = some j) (hfg : j.IsBackGround = false) :
    ∃ (s1 : Server) (out : Out), handleProtoEvt s e env = some (s1, out) ∧
      out.replies = [] ∧
      (∀ c, s.client j.CreateBy = some c →
        out.sends = [(c.SessionId, constructReply e.tp (h :: rest))]) ∧
      (s.client j.CreateBy = none → out.sends = []) := by
  obtain ⟨s1, _, hrun⟩ := handleWorkReport_found s e h rest j hshape hj
  rw [handleProtoEvt_workReport s e env hshape.1, hrun]
  refine ⟨s1, _, rfl, ?_, ?_, ?_⟩
  · simp only [hfg]
    cases s.client j.CreateBy <;> rfl
  · intro c hc
    simp [hfg, hc]
  · intro hc
    simp [hfg, hc]

/-- C5 at a concrete input: `WORK_COMPLETE` with payload `"olleh"` on the foreground job
`"H:1"` of client 7 sends that one packet to session 7. -/
theorem C5_foreground_routing_witness :
    (handleProtoEvt srvOneWorking evComplete {}).map (fun r => r.2.sends) =
      some [(7, constructReply .WORK_COMPLETE ["H:1", "olleh"])] := by
  obtain ⟨s1, out, hrun, _, hsend, _⟩ :=
    C5_foreground_routing srvOneWorking evComplete {} "H:1" ["olleh"]
      (mkJob "H:1" "f" 7 100 10 false) ⟨rfl, rfl, by decide⟩ rfl rfl
  rw [hrun]
  simp [hsend ⟨7⟩ rfl, evComplete]

/-- C6: a work report (any of the six `WORK_*` commands) on a handle that `workJobs` maps
to a background job sends no packet to any session, whether or not the submitting
client is in the client table. -/
theorem C6_background_never_reported (s : Server) (e : Event) (env : Env) (h : String)
    (rest : List String) (j : Job) (hshape : ReportShape e h rest)
    (hj : s.workJobs h = some j) (hbg : j.IsBackGround = true) :
    ∃ (s1 : Server) (out : Out), handleProtoEvt s e env = some (s1, out) ∧
      out.sends = [] ∧ out.replies = [] := by
  obtain ⟨s1, _, hrun⟩ := handleWorkReport_found s e h rest j hshape hj
  rw [handleProtoEvt_workReport s e env hshape.1, hrun]
  exact ⟨s1, _, rfl, by simp [hbg], by simp [hbg]⟩

/-- C6 at a concrete input: `WORK_COMPLETE` on the background job `"H:1"` sends nothing
although client 7 is connected. -/
theorem C6_background_never_reported_witness :
    srvOneBackground.client 7 = some ⟨7⟩ ∧
    (handleProtoEvt srvOneBackground evComplete {}).map (fun r => r.2.sends) = some [] := by
  obtain ⟨s1, out, hrun, hsend, _⟩ :=
    C6_background_never_reported srvOneBackground evComplete {} "H:1" ["olleh"]
      (mkJob "H:1" "f" 7 100 0 true) ⟨rfl, rfl, by decide⟩ rfl rfl
  refine ⟨rfl, ?_⟩
  rw [hrun]
  simp [hsend]

/-! ## Grabbing a job -/

theorem popJobLoop_none (s : Server) (canDo : GoMap String Bool) :
    ∀ order : List String,
      (∀ f ∈ order, canDo f = some true → ∀ q, s.jobStores f = some q → q = []) →
      popJobLoop s canDo order = (s, none) := by
  intro order
  induction order with
  | nil => intro _; rfl
  | cons f rest ih =>
    intro hall
    have ihr := ih (fun g hg => hall g (List.mem_cons_of_mem f hg))
    unfold popJobLoop
    cases hc : canDo f with
    | none => simpa using ihr
    | some b =>
      cases b with
      | false => simpa using ihr
      | true =>
        cases hq : s.jobStores f with
        | none => simpa using ihr
        | some q =>
          have hnil : q = [] := hall f (List.mem_cons_self f rest) hc q hq
          subst hnil
          simpa using ihr

theorem popJobLoop_some (s : Server) (canDo : GoMap String Bool) :
    ∀ order : List String,
      (∃ f ∈ order, canDo f = some true ∧ ∃ q, s.jobStores f = some q ∧ q ≠ []) →
      ∃ f j0 q, canDo f = some true ∧ s.jobStores f = some (j0 :: q) ∧
        popJobLoop s canDo order = ({ s with jobStores := s.jobStores.set f q }, some j0) := by
  intro order
  induction order with
  | nil =>
    rintro ⟨f, hf, _⟩
    cases hf
  | cons f rest ih =>
    intro hex
    have hrest : (¬ (canDo f = some true ∧ ∃ q, s.jobStores f = some q ∧ q ≠ [])) →
        ∃ g ∈ rest, canDo g = some true ∧ ∃ q, s.jobStores g = some q ∧ q ≠ [] := by
      intro hno
      obtain ⟨g, hg, hgc⟩ := hex
      rcases List.mem_cons.mp hg with rfl | hg1
      · exact absurd hgc hno
      · exact ⟨g, hg1, hgc⟩
    unfold popJobLoop
    cases hc : canDo f with
    | none =>
      simpa using ih (hrest (by simp [hc]))
    | some b =>
      cases b with
      | false => simpa using ih (hrest (by simp [hc]))
      | true =>
        cases hq : s.jobStores f with
        | none => simpa using ih (hrest (by simp [hq]))
        | some q =>
          cases q with
          | nil => simpa using ih (hrest (by simp [hq]))
          | cons j0 q1 =>
            exact ⟨f, j0, q1, hc, hq, by simp [PopJob]⟩

theorem handleGrabJob_eq (s : Server) (e : Event) (env : Env) (w : Nat)
    (hw : s.worker e.fromSessionId = some w) :
    handleGrabJob s e env =
      match popJobLoop (setStatus s w .wsRunning) (s.heap w).canDo env.order with
      | (s2, some j) =>
        some ({ s2 with workJobs := (s2.workJobs.set j.Handle
                  { j with ProcessAt := env.now, ProcessBy := e.fromSessionId }) },
              { replies := [Reply.job { j with ProcessAt := env.now, ProcessBy := e.fromSessionId }] })
      | (s2, none) =>
        some (setStatus s2 w .wsPrepareForSleep, { replies := [Reply.nil] }) := by
  unfold handleGrabJob popJob
  simp only [hw, setStatus, heapSet, if_true]
  split <;> rename_i heq
  · cases heq
  · simp only [Option.some.injEq] at heq
    rw [heq]
  · simp only [Option.some.injEq] at heq
    rw [heq]

/-- C7: `GRAB_JOB` / `GRAB_JOB_UNIQ` from a session registered in `worker`, for any order
in which the range visits the worker's `canDo` map. Exactly one value is replied and no
packet is sent. The reply is a job iff some function with `canDo[f] = true` has a
non-empty queue. A replied job `J` is the head of the queue of such a function with
`ProcessAt`, `ProcessBy` stamped; that queue lost its head and no other queue changed,
`J.ProcessBy` is the caller, `workJobs[J.Handle] = J` and the worker's status is
`Running`. Otherwise the reply is nil, the status is `PrepareForSleep`, and `workJobs`
and all queues are unchanged. -/
theorem C7_grab_job (s : Server) (e : Event) (env : Env) (w : Nat)
    (htp : e.tp = .GRAB_JOB ∨ e.tp = .GRAB_JOB_UNIQ)
    (hw : s.worker e.fromSessionId = some w)
    (hord : RangeOf (s.heap w).canDo env.order) :
    ∃ (s1 : Server) (r : Reply),
      handleProtoEvt s e env = some (s1, { sends := [], replies := [r] }) ∧
      ((∃ J, r = Reply.job J) ↔ Servable s w) ∧
      (∀ J, r = Reply.job J →
        ∃ f j0 q, (s.heap w).canDo f = some true ∧ s.jobStores f = some (j0 :: q) ∧
          J = { j0 with ProcessAt := env.now, ProcessBy := e.fromSessionId } ∧
          s1.jobStores = s.jobStores.set f q ∧
          J.ProcessBy = e.fromSessionId ∧
          s1.workJobs = s.workJobs.set J.Handle J ∧ s1.workJobs J.Handle = some J ∧
          (s1.heap w).status = .wsRunning) ∧
      ((¬ ∃ J, r = Reply.job J) →
        r = Reply.nil ∧ (s1.heap w).status = .wsPrepareForSleep ∧
          s1.workJobs = s.workJobs ∧ s1.jobStores = s.jobStores) := by
  have hdisp : handleProtoEvt s e env = handleGrabJob s e env := by
    unfold handleProtoEvt
    rcases htp with h | h <;> simp [h, Cmd.isCtrl]
  rw [hdisp, handleGrabJob_eq s e env w hw]
  by_cases hserv : Servable s w
  · obtain ⟨f, q, hc, hq, hne⟩ := hserv
    have hmem : f ∈ env.order := (hord.2 f).mpr (by simp [hc])
    obtain ⟨g, j0, q1, hgc, hgq, hpop⟩ :=
      popJobLoop_some (setStatus s w .wsRunning) (s.heap w).canDo env.order ⟨f, hmem, hc, q, hq, hne⟩
    rw [hpop]
    refine ⟨_, Reply.job { j0 with ProcessAt := env.now, ProcessBy := e.fromSessionId }, rfl,
      ?_, ?_, ?_⟩
    · exact ⟨fun _ => ⟨f, q, hc, hq, hne⟩, fun _ => ⟨_, rfl⟩⟩
    · intro J hJ
      cases hJ
      exact ⟨g, j0, q1, hgc, hgq, rfl, rfl, rfl, rfl, by simp [GoMap.set],
        by simp [setStatus, heapSet]⟩
    · intro hno
      exact absurd ⟨_, rfl⟩ hno
  · have hnone := popJobLoop_none (setStatus s w .wsRunning) (s.heap w).canDo env.order (by
        intro f _ hc q hq
        by_contra hne
        exact hserv ⟨f, q, hc, hq, hne⟩)
    rw [hnone]
    refine ⟨_, Reply.nil, rfl, ?_, ?_, ?_⟩
    · constructor
      · rintro ⟨J, hJ⟩
        cases hJ
      · intro h
        exact absurd h hserv
    · intro J hJ
      cases hJ
    · intro _
      exact ⟨rfl, by simp [setStatus, heapSet], rfl, rfl⟩

/-- C7 at a concrete input: worker 1 declared `"f"`, whose queue holds job `"H:1"`; its
`GRAB_JOB` at time 5 is answered with that job, stamped with `ProcessBy = 1`. -/
theorem C7_grab_job_witness :
    ∃ s1, handleProtoEvt srvOneQueued evGrab { now := 5, order := ["f"] } =
        some (s1, { sends := [], replies :=
          [Reply.job { mkJob "H:1" "f" 7 100 0 false with ProcessAt := 5, ProcessBy := 1 }] }) ∧
      s1.jobStores "f" = some [] := by
  have hserv : Servable srvOneQueued 1 :=
    ⟨"f", [mkJob "H:1" "f" 7 100 0 false], by decide, by decide, by decide⟩
  obtain ⟨s1, r, hrun, hiff, hjob, _⟩ :=
    C7_grab_job srvOneQueued evGrab { now := 5, order := ["f"] } 1 (Or.inl rfl) rfl
      ⟨by decide, by
        intro k
        simp only [srvOneQueued, NewServer, heapSet, heap0, GoMap.set, GoMap.empty]
        by_cases hk : k = "f" <;> simp [hk, GoMap.set, GoMap.empty]⟩
  obtain ⟨J, hJ⟩ := hiff.mpr hserv
  obtain ⟨f, j0, q, hc, hq, hJeq, hstore, _⟩ := hjob J hJ
  have hf : f = "f" := by
    by_contra hne
    simp [srvOneQueued, NewServer, GoMap.set, GoMap.empty, hne] at hq
  subst hf
  have hq2 : j0 = mkJob "H:1" "f" 7 100 0 false ∧ q = [] := by
    simpa [srvOneQueued, NewServer, GoMap.set, GoMap.empty, eq_comm] using hq
  refine ⟨s1, ?_, ?_⟩
  · rw [hrun, hJ, hJeq, hq2.1]
    rfl
  · rw [hstore, hq2.2]
    simp [GoMap.set]

/-! ## Rosters -/

theorem removeWorker_sublist (heap : Nat → Worker) (sid : Int) :
    ∀ l : List Nat, (removeWorker heap l sid).Sublist l := by
  intro l
  induction l with
  | nil => exact List.Sublist.refl _
  | cons p l ih =>
    unfold removeWorker
    by_cases h : (heap p).SessionId = sid
    · simp only [h, if_true]
      exact List.sublist_cons_self p l
    · simp only [h, if_false]
      exact ih.cons₂ p

theorem removeWorker_not_mem (heap : Nat → Worker) (sid : Int) :
    ∀ l : List Nat, (l.map (fun p => (heap p).SessionId)).Nodup →
      ∀ p ∈ removeWorker heap l sid, (heap p).SessionId ≠ sid := by
  intro l
  induction l with
  | nil =>
    intro _ p hp
    simp [removeWorker] at hp
  | cons a l ih =>
    intro hnd p hp
    rw [List.map_cons, List.nodup_cons] at hnd
    unfold removeWorker at hp
    by_cases h : (heap a).SessionId = sid
    · simp only [h, if_true] at hp
      intro hps
      apply hnd.1
      rw [h, ← hps]
      exact List.mem_map_of_mem _ hp
    · simp only [h, if_false] at hp
      rcases List.mem_cons.mp hp with rfl | hp1
      · exact h
      · exact ih hnd.2 p hp1

theorem mem_addWorker (heap : Nat → Worker) (w : Nat) :
    ∀ (l : List Nat) (p : Nat), p ∈ addWorker heap l w → p ∈ l ∨ p = w := by
  intro l
  induction l with
  | nil =>
    intro p hp
    simp [addWorker] at hp
    exact Or.inr hp
  | cons a l ih =>
    intro p hp
    unfold addWorker at hp
    by_cases h : (heap a).SessionId = (heap w).SessionId
    · simp only [h, if_true] at hp
      exact Or.inl hp
    · simp only [h, if_false] at hp
      rcases List.mem_cons.mp hp with rfl | hp1
      · exact Or.inl (List.mem_cons_self _ _)
      · rcases ih p hp1 with h1 | h1
        · exact Or.inl (List.mem_cons_of_mem _ h1)
        · exact Or.inr h1

theorem addWorker_nodup (heap : Nat → Worker) (w : Nat) :
    ∀ l : List Nat, (l.map (fun p => (heap p).SessionId)).Nodup →
      ((addWorker heap l w).map (fun p => (heap p).SessionId)).Nodup := by
  intro l
  induction l with
  | nil =>
    intro _
    simp [addWorker]
  | cons a l ih =>
    intro hnd
    unfold addWorker
    by_cases h : (heap a).SessionId = (heap w).SessionId
    · simpa only [h, if_true] using hnd
    · simp only [h, if_false]
      rw [List.map_cons, List.nodup_cons] at hnd ⊢
      refine ⟨?_, ih hnd.2⟩
      intro hmem
      obtain ⟨p, hp, hps⟩ := List.mem_map.mp hmem
      rcases mem_addWorker heap w l p hp with h1 | h1
      · exact hnd.1 (List.mem_map.mpr ⟨p, h1, hps⟩)
      · subst h1
        exact h hps.symm

theorem map_sid_congr (heap heap1 : Nat → Worker)
    (hsid : ∀ p, (heap1 p).SessionId = (heap p).SessionId) (l : List Nat) :
    l.map (fun p => (heap1 p).SessionId) = l.map (fun p => (heap p).SessionId) := by
  apply List.map_congr_left
  intro p _
  exact hsid p

/-- Tables and the session ids and `canDo` maps of the objects are all that `WInv` reads. -/
theorem WInv_frame (s s1 : Server) (hfw : s1.funcWorker = s.funcWorker)
    (hwk : s1.worker = s.worker) (hcl : s1.client = s.client)
    (hsid : ∀ p, (s1.heap p).SessionId = (s.heap p).SessionId)
    (hcd : ∀ p, (s1.heap p).canDo = (s.heap p).canDo) (h : WInv s) : WInv s1 := by
  constructor
  · intro k p hp
    rw [hsid]
    exact h.workerKey k p (by rw [← hwk]; exact hp)
  · intro k c hc
    exact h.clientKey k c (by rw [← hcl]; exact hc)
  · intro f l hl
    rw [map_sid_congr s.heap s1.heap hsid]
    exact h.rosterNodup f l (by rw [← hfw]; exact hl)
  · intro f l p hl hp
    rw [hsid, hwk]
    exact h.rosterReg f l p (by rw [← hfw]; exact hl) hp
  · intro f l p hl hp
    rw [hcd]
    exact h.rosterCanDo f l p (by rw [← hfw]; exact hl) hp

theorem handleCanDo_funcWorker (s : Server) (f : String) (w : Nat) (t : Int) (g : String) :
    (handleCanDo s f w t).funcWorker g =
      if g = f then some (addWorker s.heap ((s.funcWorker f).getD []) w)
      else s.funcWorker g := by
  unfold handleCanDo getJobWorkPair
  cases hf : s.funcWorker f <;> by_cases hg : g = f <;> simp [GoMap.set, hg]

theorem handleCanDo_heap (s : Server) (f : String) (w : Nat) (t : Int) :
    (handleCanDo s f w t).heap =
      heapSet s.heap w { s.heap w with canDo := (s.heap w).canDo.set f true } := by
  unfold handleCanDo getJobWorkPair
  cases hf : s.funcWorker f <;> rfl

theorem handleCanDo_worker (s : Server) (f : String) (w : Nat) (t : Int) :
    (handleCanDo s f w t).worker = s.worker.set (s.heap w).SessionId w := by
  unfold handleCanDo getJobWorkPair
  cases hf : s.funcWorker f <;> rfl

theorem handleCanDo_frame (s : Server) (f : String) (w : Nat) (t : Int) :
    (handleCanDo s f w t).client = s.client ∧
    (handleCanDo s f w t).jobStores = s.jobStores ∧
    (handleCanDo s f w t).workJobs = s.workJobs ∧
    (handleCanDo s f w t).tryTimes = s.tryTimes ∧
    (handleCanDo s f w t).funcTimeout = s.funcTimeout.set f t := by
  unfold handleCanDo getJobWorkPair
  cases hf : s.funcWorker f <;> exact ⟨rfl, rfl, rfl, rfl, rfl⟩

theorem heapSet_sid (heap : Nat → Worker) (w : Nat) (x : Worker)
    (hx : x.SessionId = (heap w).SessionId) (p : Nat) :
    (heapSet heap w x p).SessionId = (heap p).SessionId := by
  unfold heapSet
  by_cases h : p = w
  · simp [h, hx]
  · simp [h]

theorem WInv_handleCanDo (s : Server) (f : String) (w : Nat) (t : Int) (h : WInv s) :
    WInv (handleCanDo s f w t) := by
  have hsid : ∀ p, ((handleCanDo s f w t).heap p).SessionId = (s.heap p).SessionId := by
    intro p
    rw [handleCanDo_heap]
    exact heapSet_sid s.heap w _ (by rfl) p
  have hold : (((s.funcWorker f).getD []).map (fun p => (s.heap p).SessionId)).Nodup := by
    cases hf : s.funcWorker f with
    | none => simp
    | some l => simpa using h.rosterNodup f l hf
  constructor
  · intro k p hp
    rw [hsid]
    rw [handleCanDo_worker] at hp
    unfold GoMap.set at hp
    by_cases hk : k = (s.heap w).SessionId
    · simp only [hk, if_true, Option.some.injEq] at hp
      rw [← hp, hk]
    · simp only [hk, if_false] at hp
      exact h.workerKey k p hp
  · intro k c hc
    rw [(handleCanDo_frame s f w t).1] at hc
    exact h.clientKey k c hc
  · intro g l hl
    rw [map_sid_congr s.heap _ hsid]
    rw [handleCanDo_funcWorker] at hl
    by_cases hg : g = f
    · simp only [hg, if_true, Option.some.injEq] at hl
      rw [← hl]
      exact addWorker_nodup s.heap w _ hold
    · simp only [hg, if_false] at hl
      exact h.rosterNodup g l hl
  · intro g l p hl hp
    rw [hsid, handleCanDo_worker]
    have hp1 : (∃ l0, s.funcWorker g = some l0 ∧ p ∈ l0) ∨ p = w := by
      rw [handleCanDo_funcWorker] at hl
      by_cases hg : g = f
      · simp only [hg, if_true, Option.some.injEq] at hl
        rw [← hl] at hp
        rcases mem_addWorker s.heap w _ p hp with h1 | h1
        · cases hf : s.funcWorker f with
          | none => simp [hf] at h1
          | some l0 =>
            rw [hf] at h1
            exact Or.inl ⟨l0, by rw [hg, hf], h1⟩
        · exact Or.inr h1
      · simp only [hg, if_false] at hl
        exact Or.inl ⟨l, hl, hp⟩
    unfold GoMap.set
    by_cases hk : (s.heap p).SessionId = (s.heap w).SessionId
    · exact ⟨w, by simp [hk]⟩
    · rcases hp1 with ⟨l0, hl0, hp0⟩ | hpw
      · simp only [hk, if_false]
        exact h.rosterReg g l0 p hl0 hp0
      · exact absurd (by rw [hpw]) hk
  · intro g l p hl hp
    rw [handleCanDo_heap]
    rw [handleCanDo_funcWorker] at hl
    unfold heapSet
    by_cases hg : g = f
    · simp only [hg, if_true, Option.some.injEq] at hl
      rw [← hl] at hp
      by_cases hpw : p = w
      · simp [hpw, hg, GoMap.set]
      · simp only [hpw, if_false]
        rcases mem_addWorker s.heap w _ p hp with h1 | h1
        · cases hf : s.funcWorker f with
          | none => simp [hf] at h1
          | some l0 =>
            rw [hf] at h1
            rw [hg]
            exact h.rosterCanDo f l0 p hf h1
        · exact absurd h1 hpw
    · simp only [hg, if_false] at hl
      have hold1 := h.rosterCanDo g l p hl hp
      by_cases hpw : p = w
      · subst hpw
        simp [GoMap.set, hg, hold1]
      · simp [hpw, hold1]

theorem removeCanDo_eq (s s1 : Server) (f : String) (sid : Int)
    (hrun : removeCanDo s f sid = some s1) :
    ∃ w, s.worker sid = some w ∧ s1.worker = s.worker ∧ s1.client = s.client ∧
      s1.jobStores = s.jobStores ∧ s1.workJobs = s.workJobs ∧
      s1.funcTimeout = s.funcTimeout ∧ s1.tryTimes = s.tryTimes ∧
      s1.heap = heapSet s.heap w { s.heap w with canDo := (s.heap w).canDo.del f } ∧
      ∀ g, s1.funcWorker g =
        if g = f then (s.funcWorker f).map (fun l => removeWorker s.heap l sid)
        else s.funcWorker g := by
  unfold removeCanDo at hrun
  cases hf : s.funcWorker f with
  | none =>
    simp only [hf] at hrun
    cases hw : s.worker sid with
    | none => simp [hw] at hrun
    | some w =>
      simp only [hw, Option.some.injEq] at hrun
      subst hrun
      refine ⟨w, rfl, rfl, rfl, rfl, rfl, rfl, rfl, rfl, ?_⟩
      intro g
      by_cases hg : g = f
      · simp [hg, hf]
      · simp [hg]
  | some l =>
    simp only [hf] at hrun
    cases hw : s.worker sid with
    | none => simp [hw] at hrun
    | some w =>
      simp only [hw, Option.some.injEq] at hrun
      subst hrun
      refine ⟨w, rfl, rfl, rfl, rfl, rfl, rfl, rfl, rfl, ?_⟩
      intro g
      by_cases hg : g = f
      · simp [hg, hf, GoMap.set]
      · simp [hg, GoMap.set]

theorem WInv_removeCanDo (s s1 : Server) (f : String) (sid : Int)
    (hrun : removeCanDo s f sid = some s1) (h : WInv s) : WInv s1 := by
  obtain ⟨w, hw, hwk, hcl, _, _, _, _, hheap, hfw⟩ := removeCanDo_eq s s1 f sid hrun
  have hsid : ∀ p, (s1.heap p).SessionId = (s.heap p).SessionId := by
    intro p
    rw [hheap]
    exact heapSet_sid s.heap w _ (by rfl) p
  have hsub : ∀ g l, s1.funcWorker g = some l →
      ∃ l0, s.funcWorker g = some l0 ∧ l.Sublist l0 ∧
        (g = f → ∀ p ∈ l, (s.heap p).SessionId ≠ sid) := by
    intro g l hl
    rw [hfw] at hl
    by_cases hg : g = f
    · simp only [hg, if_true] at hl
      cases hf : s.funcWorker f with
      | none => simp [hf] at hl
      | some l0 =>
        simp only [hf, Option.map_some', Option.some.injEq] at hl
        refine ⟨l0, by rw [hg, hf], ?_, ?_⟩
        · rw [← hl]
          exact removeWorker_sublist s.heap sid l0
        · intro _ p hp
          rw [← hl] at hp
          exact removeWorker_not_mem s.heap sid l0 (h.rosterNodup f l0 hf) p hp
    · simp only [hg, if_false] at hl
      exact ⟨l, hl, List.Sublist.refl l, fun hgf => absurd hgf hg⟩
  constructor
  · intro k p hp
    rw [hsid]
    exact h.workerKey k p (by rw [← hwk]; exact hp)
  · intro k c hc
    exact h.clientKey k c (by rw [← hcl]; exact hc)
  · intro g l hl
    obtain ⟨l0, hl0, hsl, _⟩ := hsub g l hl
    rw [map_sid_congr s.heap _ hsid]
    exact (h.rosterNodup g l0 hl0).sublist (hsl.map _)
  · intro g l p hl hp
    obtain ⟨l0, hl0, hsl, _⟩ := hsub g l hl
    rw [hsid, hwk]
    exact h.rosterReg g l0 p hl0 (hsl.subset hp)
  · intro g l p hl hp
    obtain ⟨l0, hl0, hsl, hne⟩ := hsub g l hl
    have hold := h.rosterCanDo g l0 p hl0 (hsl.subset hp)
    rw [hheap]
    unfold heapSet
    by_cases hpw : p = w
    · have hgf : g ≠ f := by
        intro hgf
        apply hne hgf p hp
        rw [hpw]
        exact h.workerKey sid w hw
      subst hpw
      simp [GoMap.del, hgf, hold]
    · simp [hpw, hold]

theorem WInv_removeWorkerBySessionId (s : Server) (sid : Int) (h : WInv s) :
    WInv (removeWorkerBySessionId s sid) := by
  have hsub : ∀ g l, (removeWorkerBySessionId s sid).funcWorker g = some l →
      ∃ l0, s.funcWorker g = some l0 ∧ l.Sublist l0 ∧
        ∀ p ∈ l, (s.heap p).SessionId ≠ sid := by
    intro g l hl
    unfold removeWorkerBySessionId at hl
    cases hf : s.funcWorker g with
    | none => simp [hf] at hl
    | some l0 =>
      simp only [hf, Option.map_some', Option.some.injEq] at hl
      refine ⟨l0, rfl, ?_, ?_⟩
      · rw [← hl]
        exact removeWorker_sublist s.heap sid l0
      · intro p hp
        rw [← hl] at hp
        exact removeWorker_not_mem s.heap sid l0 (h.rosterNodup g l0 hf) p hp
  constructor
  · intro k p hp
    have hp1 : s.worker k = some p := by
      unfold removeWorkerBySessionId GoMap.del at hp
      by_cases hk : k = sid
      · simp [hk] at hp
      · simpa [hk] using hp
    exact h.workerKey k p hp1
  · intro k c hc
    exact h.clientKey k c hc
  · intro g l hl
    obtain ⟨l0, hl0, hsl, _⟩ := hsub g l hl
    exact (h.rosterNodup g l0 hl0).sublist (hsl.map _)
  · intro g l p hl hp
    obtain ⟨l0, hl0, hsl, hne⟩ := hsub g l hl
    obtain ⟨q, hq⟩ := h.rosterReg g l0 p hl0 (hsl.subset hp)
    refine ⟨q, ?_⟩
    have hk : (s.heap p).SessionId ≠ sid := hne p hp
    show (s.worker.del sid) (s.heap p).SessionId = some q
    simp [GoMap.del, hk, hq]
  · intro g l p hl hp
    obtain ⟨l0, hl0, hsl, _⟩ := hsub g l hl
    exact h.rosterCanDo g l0 p hl0 (hsl.subset hp)

/-! ## Job tables -/

theorem JInv_mono (issued issued1 : List String) (s : Server)
    (hsub : ∀ h, h ∈ issued → h ∈ issued1) (h : JInv issued s) : JInv issued1 s :=
  { queueFunc := h.queueFunc
    queueNodup := h.queueNodup
    queueIssued := fun f q j hq hj => hsub _ (h.queueIssued f q j hq hj)
    queueCross := h.queueCross
    workKey := h.workKey
    workIssued := fun k j hk => hsub _ (h.workIssued k j hk)
    queueWork := h.queueWork }

/-- The queues are kept and every entry of `workJobs` comes from an old entry under the
same key with the same handle. -/
theorem JInv_workJobs_sub (issued : List String) (s s1 : Server)
    (hjs : s1.jobStores = s.jobStores)
    (hwj : ∀ k j, s1.workJobs k = some j → ∃ j0, s.workJobs k = some j0 ∧ j.Handle = j0.Handle)
    (h : JInv issued s) : JInv issued s1 := by
  constructor
  · intro f q j hq hj
    exact h.queueFunc f q j (by rw [← hjs]; exact hq) hj
  · intro f q hq
    exact h.queueNodup f q (by rw [← hjs]; exact hq)
  · intro f q j hq hj
    exact h.queueIssued f q j (by rw [← hjs]; exact hq) hj
  · intro f g qf qg j1 j2 hf hg
    exact h.queueCross f g qf qg j1 j2 (by rw [← hjs]; exact hf) (by rw [← hjs]; exact hg)
  · intro k j hk
    obtain ⟨j0, hj0, hh⟩ := hwj k j hk
    rw [hh]
    exact h.workKey k j0 hj0
  · intro k j hk
    obtain ⟨j0, hj0, _⟩ := hwj k j hk
    exact h.workIssued k j0 hj0
  · intro f q j hq hj
    have hold := h.queueWork f q j (by rw [← hjs]; exact hq) hj
    cases hc : s1.workJobs j.Handle with
    | none => rfl
    | some j1 =>
      obtain ⟨j0, hj0, _⟩ := hwj _ j1 hc
      rw [hold] at hj0
      cases hj0

theorem PushJob_perm (q : List Job) (j : Job) : (PushJob q j).Perm (j :: q) := by
  unfold PushJob
  have h := List.takeWhile_append_dropWhile
    (fun x : Job => decide (j.Priority.rank ≤ x.Priority.rank)) q
  have hp : (List.takeWhile (fun x : Job => decide (j.Priority.rank ≤ x.Priority.rank)) q ++
      j :: List.dropWhile (fun x : Job => decide (j.Priority.rank ≤ x.Priority.rank)) q).Perm
      (j :: (List.takeWhile (fun x : Job => decide (j.Priority.rank ≤ x.Priority.rank)) q ++
        List.dropWhile (fun x : Job => decide (j.Priority.rank ≤ x.Priority.rank)) q)) :=
    List.perm_middle
  rw [h] at hp
  exact hp

theorem mem_PushJob (q : List Job) (j x : Job) : x ∈ PushJob q j ↔ x = j ∨ x ∈ q := by
  rw [(PushJob_perm q j).mem_iff, List.mem_cons]

/-- Pushing a job with a handle never offered before onto the queue of its function. -/
theorem JInv_push (issued : List String) (s : Server) (j : Job)
    (hfresh : j.Handle ∉ issued) (h : JInv issued s) :
    JInv (j.Handle :: issued)
      { s with jobStores :=
          s.jobStores.set j.FuncName (PushJob ((s.jobStores j.FuncName).getD []) j) } := by
  have hold : ∀ x, x ∈ (s.jobStores j.FuncName).getD [] →
      ∃ q, s.jobStores j.FuncName = some q ∧ x ∈ q := by
    intro x hx
    cases hq : s.jobStores j.FuncName with
    | none => simp [hq] at hx
    | some q => exact ⟨q, rfl, by simpa [hq] using hx⟩
  have hmem : ∀ g q x, (s.jobStores.set j.FuncName
      (PushJob ((s.jobStores j.FuncName).getD []) j)) g = some q → x ∈ q →
      (g = j.FuncName ∧ x = j) ∨ ∃ q0, s.jobStores g = some q0 ∧ x ∈ q0 := by
    intro g q x hq hx
    unfold GoMap.set at hq
    by_cases hg : g = j.FuncName
    · simp only [hg, if_true, Option.some.injEq] at hq
      rw [← hq, mem_PushJob] at hx
      rcases hx with hx | hx
      · exact Or.inl ⟨hg, hx⟩
      · obtain ⟨q0, hq0, hx0⟩ := hold x hx
        exact Or.inr ⟨q0, by rw [hg]; exact hq0, hx0⟩
    · simp only [hg, if_false] at hq
      exact Or.inr ⟨q, hq, hx⟩
  constructor
  · intro g q x hq hx
    rcases hmem g q x hq hx with ⟨hg, hxj⟩ | ⟨q0, hq0, hx0⟩
    · rw [hxj, hg]
    · exact h.queueFunc g q0 x hq0 hx0
  · intro g q hq
    show (q.map Job.Handle).Nodup
    have hq1 : (s.jobStores.set j.FuncName
      (PushJob ((s.jobStores j.FuncName).getD []) j)) g = some q := hq
    unfold GoMap.set at hq1
    by_cases hg : g = j.FuncName
    · simp only [hg, if_true, Option.some.injEq] at hq1
      rw [← hq1, ((PushJob_perm _ j).map Job.Handle).nodup_iff, List.map_cons, List.nodup_cons]
      constructor
      · intro hin
        obtain ⟨x, hx, hxh⟩ := List.mem_map.mp hin
        obtain ⟨q0, hq0, hx0⟩ := hold x hx
        apply hfresh
        rw [← hxh]
        exact h.queueIssued _ q0 x hq0 hx0
      · cases hq0 : s.jobStores j.FuncName with
        | none => simp
        | some q0 => simpa using h.queueNodup _ q0 hq0
    · simp only [hg, if_false] at hq1
      exact h.queueNodup g q hq1
  · intro g q x hq hx
    rcases hmem g q x hq hx with ⟨_, hxj⟩ | ⟨q0, hq0, hx0⟩
    · rw [hxj]
      exact List.mem_cons_self _ _
    · exact List.mem_cons_of_mem _ (h.queueIssued g q0 x hq0 hx0)
  · intro f g qf qg j1 j2 hf hg h1 h2 hh
    rcases hmem f qf j1 hf h1 with ⟨hf1, hx1⟩ | ⟨q1, hq1, hx1⟩
    · rcases hmem g qg j2 hg h2 with ⟨hg2, _⟩ | ⟨q2, hq2, hx2⟩
      · rw [hf1, hg2]
      · exfalso
        apply hfresh
        rw [← hx1, hh]
        exact h.queueIssued g q2 j2 hq2 hx2
    · rcases hmem g qg j2 hg h2 with ⟨_, hx2⟩ | ⟨q2, hq2, hx2⟩
      · exfalso
        apply hfresh
        rw [← hx2, ← hh]
        exact h.queueIssued f q1 j1 hq1 hx1
      · exact h.queueCross f g q1 q2 j1 j2 hq1 hq2 hx1 hx2 hh
  · intro k x hk
    exact h.workKey k x hk
  · intro k x hk
    exact List.mem_cons_of_mem _ (h.workIssued k x hk)
  · intro g q x hq hx
    rcases hmem g q x hq hx with ⟨_, hxj⟩ | ⟨q0, hq0, hx0⟩
    · show s.workJobs x.Handle = none
      cases hc : s.workJobs x.Handle with
      | none => rfl
      | some y =>
        exfalso
        apply hfresh
        rw [← hxj]
        exact h.workIssued _ y hc
    · exact h.queueWork g q0 x hq0 hx0

theorem popJobLoop_cases (s : Server) (canDo : GoMap String Bool) (order : List String) :
    popJobLoop s canDo order = (s, none) ∨
    ∃ f j0 q, canDo f = some true ∧ s.jobStores f = some (j0 :: q) ∧
      popJobLoop s canDo order = ({ s with jobStores := s.jobStores.set f q }, some j0) := by
  by_cases hex : ∃ f ∈ order, canDo f = some true ∧ ∃ q, s.jobStores f = some q ∧ q ≠ []
  · exact Or.inr (popJobLoop_some s canDo order hex)
  · left
    apply popJobLoop_none
    intro f hf hc q hq
    by_contra hne
    exact hex ⟨f, hf, hc, q, hq, hne⟩

/-- Moving the head of the queue of `f` into `workJobs` under its handle. -/
theorem JInv_pop (issued : List String) (s s1 : Server) (f : String) (j0 j1 : Job)
    (q : List Job) (hq : s.jobStores f = some (j0 :: q)) (hh : j1.Handle = j0.Handle)
    (hjs : s1.jobStores = s.jobStores.set f q)
    (hwj : s1.workJobs = s.workJobs.set j0.Handle j1) (h : JInv issued s) :
    JInv issued s1 := by
  have hmem : ∀ g q1 x, s1.jobStores g = some q1 → x ∈ q1 →
      ∃ q0, s.jobStores g = some q0 ∧ x ∈ q0 ∧ x.Handle ≠ j0.Handle := by
    intro g q1 x hq1 hx
    rw [hjs] at hq1
    unfold GoMap.set at hq1
    by_cases hg : g = f
    · simp only [hg, if_true, Option.some.injEq] at hq1
      rw [← hq1] at hx
      refine ⟨j0 :: q, by rw [hg]; exact hq, List.mem_cons_of_mem _ hx, ?_⟩
      have hnd := h.queueNodup f (j0 :: q) hq
      rw [List.map_cons, List.nodup_cons] at hnd
      intro hxh
      apply hnd.1
      rw [← hxh]
      exact List.mem_map_of_mem _ hx
    · simp only [hg, if_false] at hq1
      refine ⟨q1, hq1, hx, ?_⟩
      intro hxh
      exact hg (h.queueCross g f q1 (j0 :: q) x j0 hq1 hq hx (List.mem_cons_self _ _) hxh)
  constructor
  · intro g q1 x hq1 hx
    obtain ⟨q0, hq0, hx0, _⟩ := hmem g q1 x hq1 hx
    exact h.queueFunc g q0 x hq0 hx0
  · intro g q1 hq1
    rw [hjs] at hq1
    unfold GoMap.set at hq1
    by_cases hg : g = f
    · simp only [hg, if_true, Option.some.injEq] at hq1
      have hnd := h.queueNodup f (j0 :: q) hq
      rw [List.map_cons, List.nodup_cons] at hnd
      rw [← hq1]
      exact hnd.2
    · simp only [hg, if_false] at hq1
      exact h.queueNodup g q1 hq1
  · intro g q1 x hq1 hx
    obtain ⟨q0, hq0, hx0, _⟩ := hmem g q1 x hq1 hx
    exact h.queueIssued g q0 x hq0 hx0
  · intro g1 g2 q1 q2 x1 x2 hq1 hq2 hx1 hx2 hxx
    obtain ⟨p1, hp1, hy1, _⟩ := hmem g1 q1 x1 hq1 hx1
    obtain ⟨p2, hp2, hy2, _⟩ := hmem g2 q2 x2 hq2 hx2
    exact h.queueCross g1 g2 p1 p2 x1 x2 hp1 hp2 hy1 hy2 hxx
  · intro k x hk
    rw [hwj] at hk
    unfold GoMap.set at hk
    by_cases hkk : k = j0.Handle
    · simp only [hkk, if_true, Option.some.injEq] at hk
      rw [← hk, hh, hkk]
    · simp only [hkk, if_false] at hk
      exact h.workKey k x hk
  · intro k x hk
    rw [hwj] at hk
    unfold GoMap.set at hk
    by_cases hkk : k = j0.Handle
    · rw [hkk]
      exact h.queueIssued f (j0 :: q) j0 hq (List.mem_cons_self _ _)
    · simp only [hkk, if_false] at hk
      exact h.workIssued k x hk
  · intro g q1 x hq1 hx
    obtain ⟨q0, hq0, hx0, hne⟩ := hmem g q1 x hq1 hx
    rw [hwj]
    unfold GoMap.set
    simp only [hne, if_false]
    exact h.queueWork g q0 x hq0 hx0

theorem handleGrabJob_cases (s s1 : Server) (e : Event) (env : Env) (out : Out)
    (hrun : handleGrabJob s e env = some (s1, out)) :
    s1.funcWorker = s.funcWorker ∧ s1.worker = s.worker ∧ s1.client = s.client ∧
    (∀ p, (s1.heap p).SessionId = (s.heap p).SessionId) ∧
    (∀ p, (s1.heap p).canDo = (s.heap p).canDo) ∧
    ((s1.jobStores = s.jobStores ∧ s1.workJobs = s.workJobs) ∨
      ∃ f j0 q j1, s.jobStores f = some (j0 :: q) ∧ j1.Handle = j0.Handle ∧
        s1.jobStores = s.jobStores.set f q ∧ s1.workJobs = s.workJobs.set j0.Handle j1) := by
  cases hw : s.worker e.fromSessionId with
  | none =>
    unfold handleGrabJob at hrun
    simp only [hw, Option.some.injEq, Prod.mk.injEq] at hrun
    rw [← hrun.1]
    exact ⟨rfl, rfl, rfl, fun _ => rfl, fun _ => rfl, Or.inl ⟨rfl, rfl⟩⟩
  | some w =>
    rw [handleGrabJob_eq s e env w hw] at hrun
    have hst : ∀ (t : Server) (st : WorkerStatus) (p : Nat),
        ((setStatus t w st).heap p).SessionId = (t.heap p).SessionId ∧
        ((setStatus t w st).heap p).canDo = (t.heap p).canDo := by
      intro t st p
      unfold setStatus heapSet
      by_cases hp : p = w
      · simp [hp]
      · simp [hp]
    rcases popJobLoop_cases (setStatus s w .wsRunning) (s.heap w).canDo env.order with
      hnone | ⟨f, j0, q, _, hq, hsome⟩
    · rw [hnone] at hrun
      simp only [Option.some.injEq, Prod.mk.injEq] at hrun
      rw [← hrun.1]
      refine ⟨rfl, rfl, rfl, ?_, ?_, Or.inl ⟨rfl, rfl⟩⟩
      · intro p
        rw [(hst _ _ p).1, (hst _ _ p).1]
      · intro p
        rw [(hst _ _ p).2, (hst _ _ p).2]
    · rw [hsome] at hrun
      simp only [Option.some.injEq, Prod.mk.injEq] at hrun
      rw [← hrun.1]
      refine ⟨rfl, rfl, rfl, ?_, ?_, Or.inr ⟨f, j0, q, _, hq, ?_, rfl, rfl⟩⟩
      · intro p
        exact (hst s .wsRunning p).1
      · intro p
        exact (hst s .wsRunning p).2
      · rfl

/-! ## Frames of the handlers -/

theorem WInv_client (s : Server) (cl : GoMap Int Client)
    (hcl : ∀ k c, cl k = some c → c.SessionId = k) (h : WInv s) :
    WInv { s with client := cl } :=
  { workerKey := h.workerKey
    clientKey := hcl
    rosterNodup := h.rosterNodup
    rosterReg := h.rosterReg
    rosterCanDo := h.rosterCanDo }

theorem WInv_workerSet (s : Server) (w : Nat) (h : WInv s) :
    WInv { s with worker := s.worker.set (s.heap w).SessionId w } := by
  constructor
  · intro k p hp
    have hp1 : (s.worker.set (s.heap w).SessionId w) k = some p := hp
    unfold GoMap.set at hp1
    by_cases hk : k = (s.heap w).SessionId
    · simp only [hk, if_true, Option.some.injEq] at hp1
      rw [← hp1, hk]
    · simp only [hk, if_false] at hp1
      exact h.workerKey k p hp1
  · exact h.clientKey
  · exact h.rosterNodup
  · intro f l p hl hp
    obtain ⟨q, hq⟩ := h.rosterReg f l p hl hp
    show ∃ q, (s.worker.set (s.heap w).SessionId w) (s.heap p).SessionId = some q
    unfold GoMap.set
    by_cases hk : (s.heap p).SessionId = (s.heap w).SessionId
    · exact ⟨w, by simp [hk]⟩
    · exact ⟨q, by simp [hk, hq]⟩
  · exact h.rosterCanDo

theorem addFuncJobStore_frame (s : Server) (f : String) :
    (addFuncJobStore s f).1.funcWorker = s.funcWorker ∧
    (addFuncJobStore s f).1.worker = s.worker ∧
    (addFuncJobStore s f).1.client = s.client ∧
    (addFuncJobStore s f).1.heap = s.heap ∧
    (addFuncJobStore s f).1.workJobs = s.workJobs ∧
    (addFuncJobStore s f).1.funcTimeout = s.funcTimeout ∧
    (addFuncJobStore s f).1.tryTimes = s.tryTimes ∧
    (addFuncJobStore s f).1.jobStores f = some ((s.jobStores f).getD []) ∧
    (addFuncJobStore s f).2 = (s.jobStores f).getD [] ∧
    ∀ g, g ≠ f → (addFuncJobStore s f).1.jobStores g = s.jobStores g := by
  unfold addFuncJobStore
  cases hq : s.jobStores f with
  | none =>
    refine ⟨rfl, rfl, rfl, rfl, rfl, rfl, rfl, by simp [GoMap.set], rfl, ?_⟩
    intro g hg
    simp [GoMap.set, hg]
  | some q =>
    exact ⟨rfl, rfl, rfl, rfl, rfl, rfl, rfl, by simp [hq], rfl, fun _ _ => rfl⟩

theorem JInv_addFuncJobStore (issued : List String) (s : Server) (f : String)
    (h : JInv issued s) : JInv issued (addFuncJobStore s f).1 := by
  unfold addFuncJobStore
  cases hq : s.jobStores f with
  | some q => exact h
  | none =>
    have hmem : ∀ g q x, (s.jobStores.set f []) g = some q → x ∈ q →
        s.jobStores g = some q := by
      intro g q x hg hx
      unfold GoMap.set at hg
      by_cases hgf : g = f
      · simp only [hgf, if_true, Option.some.injEq] at hg
        rw [← hg] at hx
        cases hx
      · simpa only [hgf, if_false] using hg
    constructor
    · intro g q x hg hx
      exact h.queueFunc g q x (hmem g q x hg hx) hx
    · intro g q hg
      have hg1 : (s.jobStores.set f []) g = some q := hg
      unfold GoMap.set at hg1
      by_cases hgf : g = f
      · simp only [hgf, if_true, Option.some.injEq] at hg1
        rw [← hg1]
        simp
      · simp only [hgf, if_false] at hg1
        exact h.queueNodup g q hg1
    · intro g q x hg hx
      exact h.queueIssued g q x (hmem g q x hg hx) hx
    · intro g1 g2 q1 q2 x1 x2 hg1 hg2 hx1 hx2
      exact h.queueCross g1 g2 q1 q2 x1 x2 (hmem g1 q1 x1 hg1 hx1) (hmem g2 q2 x2 hg2 hx2)
        hx1 hx2
    · exact h.workKey
    · exact h.workIssued
    · intro g q x hg hx
      exact h.queueWork g q x (hmem g q x hg hx) hx

theorem doAddJob_state (s : Server) (j : Job) :
    (doAddJob s j).1 =
      { s with jobStores := (s.jobStores.set j.FuncName
          (PushJob ((s.jobStores j.FuncName).getD []) { j with ProcessBy := 0 })) } := by
  unfold doAddJob addFuncJobStore
  cases hq : s.jobStores j.FuncName with
  | none =>
    have hset : (s.jobStores.set j.FuncName []).set j.FuncName
        (PushJob [] { j with ProcessBy := 0 }) =
        s.jobStores.set j.FuncName (PushJob [] { j with ProcessBy := 0 }) := by
      funext g
      unfold GoMap.set
      by_cases hg : g = j.FuncName <;> simp [hg]
    simp only [Option.getD_none]
    split <;> simp [hset]
  | some q =>
    simp only [Option.getD_some]
    split <;> rfl

theorem handleWorkReport_frame (s s1 : Server) (e : Event) (out : Out)
    (hrun : handleWorkReport s e = some (s1, out)) :
    s1.funcWorker = s.funcWorker ∧ s1.worker = s.worker ∧ s1.client = s.client ∧
    s1.heap = s.heap ∧ s1.jobStores = s.jobStores ∧ s1.funcTimeout = s.funcTimeout ∧
    s1.tryTimes = s.tryTimes ∧
    ∀ k j, s1.workJobs k = some j → ∃ j0, s.workJobs k = some j0 ∧ j.Handle = j0.Handle := by
  unfold handleWorkReport at hrun
  cases ht : e.args.t0 with
  | slice sl =>
    cases sl with
    | nil => simp [ht] at hrun
    | cons h rest =>
      cases hj : s.workJobs h with
      | none =>
        simp only [ht, hj, Option.some.injEq, Prod.mk.injEq] at hrun
        rw [← hrun.1]
        exact ⟨rfl, rfl, rfl, rfl, rfl, rfl, rfl, fun k j hk => ⟨j, hk, rfl⟩⟩
      | some j =>
        have hdel : ∀ k x, (s.workJobs.del h) k = some x → s.workJobs k = some x := by
          intro k x hk
          unfold GoMap.del at hk
          by_cases hkk : k = h
          · simp [hkk] at hk
          · simpa [hkk] using hk
        by_cases hs : e.tp = .WORK_STATUS
        · cases rest with
          | nil => simp [ht, hj, hs] at hrun
          | cons a r2 =>
            cases r2 with
            | nil => simp [ht, hj, hs] at hrun
            | cons b tl =>
              have hfin : s1 = { s with workJobs := (s.workJobs.set h
                  { j with Percent := (atoi a).1, Denominator := (atoi b).1 }) } := by
                cases hb : j.IsBackGround <;> cases hc : s.client j.CreateBy <;>
                  simp [ht, hj, hs, hb, hc] at hrun <;> exact hrun.1.symm
              rw [hfin]
              refine ⟨rfl, rfl, rfl, rfl, rfl, rfl, rfl, ?_⟩
              intro k x hk
              have hk1 : (s.workJobs.set h
                  { j with Percent := (atoi a).1, Denominator := (atoi b).1 }) k = some x := hk
              unfold GoMap.set at hk1
              by_cases hkk : k = h
              · simp only [hkk, if_true, Option.some.injEq] at hk1
                rw [hkk, ← hk1]
                exact ⟨j, hj, rfl⟩
              · simp only [hkk, if_false] at hk1
                exact ⟨x, hk1, rfl⟩
        · by_cases hd : e.tp = .WORK_DATA
          · have hfin : s1 = s := by
              cases hb : j.IsBackGround <;> cases hc : s.client j.CreateBy <;>
                simp [ht, hj, hs, hd, hb, hc] at hrun <;> exact hrun.1.symm
            rw [hfin]
            exact ⟨rfl, rfl, rfl, rfl, rfl, rfl, rfl, fun k x hk => ⟨x, hk, rfl⟩⟩
          · have hfin : s1 = { s with workJobs := s.workJobs.del h } := by
              cases hb : j.IsBackGround <;> cases hc : s.client j.CreateBy <;>
                simp [ht, hj, hs, hd, hb, hc] at hrun <;> exact hrun.1.symm
            rw [hfin]
            exact ⟨rfl, rfl, rfl, rfl, rfl, rfl, rfl, fun k x hk => ⟨x, hdel k x hk, rfl⟩⟩
  | nil => simp [ht] at hrun
  | worker p => simp [ht] at hrun
  | client c => simp [ht] at hrun
  | str x => simp [ht] at hrun
  | bytes x => simp [ht] at hrun

theorem handleSubmitJob_eq (s : Server) (e : Event) (env : Env) (c : Client)
    (f id data : String) (h0 : e.args.t0 = .client c) (h1 : e.args.t1 = .str f)
    (h2 : e.args.t2 = .str id) (h3 : e.args.t3 = .bytes data) :
    handleSubmitJob s e env =
      some ((doAddJob { s with client := s.client.set c.SessionId c }
              (submittedJob s e.tp env c f id data)).1,
            { sends := (doAddJob { s with client := s.client.set c.SessionId c }
                (submittedJob s e.tp env c f id data)).2,
              replies := [Reply.handle env.handle] }) := by
  unfold handleSubmitJob submittedJob
  simp only [h0, h1, h2, h3]
  cases hto : s.funcTimeout f <;> rfl

theorem handleSubmitJob_args (s s1 : Server) (e : Event) (env : Env) (out : Out)
    (hrun : handleSubmitJob s e env = some (s1, out)) :
    ∃ c f id data, e.args.t0 = .client c ∧ e.args.t1 = .str f ∧ e.args.t2 = .str id ∧
      e.args.t3 = .bytes data := by
  unfold handleSubmitJob at hrun
  split at hrun
  · rename_i c f id data h0 h1 h2 h3
    exact ⟨c, f, id, data, h0, h1, h2, h3⟩
  · cases hrun

theorem clearTimeoutStep_cases (now : Int) (acc : Server × List (Int × Packet)) (k : String) :
    clearTimeoutStep now acc k = acc ∨
    (clearTimeoutStep now acc k).1 = { acc.1 with workJobs := acc.1.workJobs.del k } := by
  unfold clearTimeoutStep
  cases hj : acc.1.workJobs k with
  | none => exact Or.inl rfl
  | some j =>
    by_cases ht : j.TimeoutSec > 0
    · by_cases hd : wrap64 (j.CreateAt + j.TimeoutSec) > now
      · right
        simp [ht, hd]
      · left
        simp [ht, hd]
    · left
      simp [ht]

theorem clearTimeoutStep_frame (now : Int) (acc : Server × List (Int × Packet)) (k : String) :
    (clearTimeoutStep now acc k).1.funcWorker = acc.1.funcWorker ∧
    (clearTimeoutStep now acc k).1.worker = acc.1.worker ∧
    (clearTimeoutStep now acc k).1.client = acc.1.client ∧
    (clearTimeoutStep now acc k).1.heap = acc.1.heap ∧
    (clearTimeoutStep now acc k).1.jobStores = acc.1.jobStores ∧
    (clearTimeoutStep now acc k).1.funcTimeout = acc.1.funcTimeout ∧
    (clearTimeoutStep now acc k).1.tryTimes = acc.1.tryTimes ∧
    ∀ h j, (clearTimeoutStep now acc k).1.workJobs h = some j → acc.1.workJobs h = some j := by
  rcases clearTimeoutStep_cases now acc k with heq | heq
  · rw [heq]
    exact ⟨rfl, rfl, rfl, rfl, rfl, rfl, rfl, fun _ _ hh => hh⟩
  · rw [heq]
    refine ⟨rfl, rfl, rfl, rfl, rfl, rfl, rfl, ?_⟩
    intro h x hh
    have hh1 : (acc.1.workJobs.del k) h = some x := hh
    unfold GoMap.del at hh1
    by_cases hk : h = k
    · simp [hk] at hh1
    · simpa [hk] using hh1

theorem clearTimeoutFold_frame (now : Int) :
    ∀ (order : List String) (acc : Server × List (Int × Packet)),
      (order.foldl (clearTimeoutStep now) acc).1.funcWorker = acc.1.funcWorker ∧
      (order.foldl (clearTimeoutStep now) acc).1.worker = acc.1.worker ∧
      (order.foldl (clearTimeoutStep now) acc).1.client = acc.1.client ∧
      (order.foldl (clearTimeoutStep now) acc).1.heap = acc.1.heap ∧
      (order.foldl (clearTimeoutStep now) acc).1.jobStores = acc.1.jobStores ∧
      (order.foldl (clearTimeoutStep now) acc).1.funcTimeout = acc.1.funcTimeout ∧
      (order.foldl (clearTimeoutStep now) acc).1.tryTimes = acc.1.tryTimes ∧
      ∀ h j, (order.foldl (clearTimeoutStep now) acc).1.workJobs h = some j →
        acc.1.workJobs h = some j := by
  intro order
  induction order with
  | nil =>
    intro acc
    exact ⟨rfl, rfl, rfl, rfl, rfl, rfl, rfl, fun _ _ hh => hh⟩
  | cons k rest ih =>
    intro acc
    obtain ⟨a1, a2, a3, a4, a5, a6, a7, a8⟩ := ih (clearTimeoutStep now acc k)
    obtain ⟨b1, b2, b3, b4, b5, b6, b7, b8⟩ := clearTimeoutStep_frame now acc k
    simp only [List.foldl_cons]
    exact ⟨a1.trans b1, a2.trans b2, a3.trans b3, a4.trans b4, a5.trans b5, a6.trans b6,
      a7.trans b7, fun h j hh => b8 h j (a8 h j hh)⟩

theorem Inv_clearTimeoutJob (issued : List String) (s : Server) (now : Int)
    (order : List String) (hw : WInv s) (hj : JInv issued s) :
    WInv (clearTimeoutJob s now order).1 ∧ JInv issued (clearTimeoutJob s now order).1 := by
  obtain ⟨a1, a2, a3, a4, a5, _, _, a8⟩ := clearTimeoutFold_frame now order (s, [])
  constructor
  · exact WInv_frame s _ a1 a2 a3 (fun p => by unfold clearTimeoutJob; rw [a4])
      (fun p => by unfold clearTimeoutJob; rw [a4]) hw
  · exact JInv_workJobs_sub issued s _ a5 (fun k j hk => ⟨j, a8 k j hk, rfl⟩) hj

/-! ## One step of the event loop -/

/-- What `handleProtoEvt` can have run when it returns. -/
theorem handleProtoEvt_cases (s s1 : Server) (e : Event) (env : Env) (out : Out)
    (hrun : handleProtoEvt s e env = some (s1, out)) :
    (∃ w f t, s1 = (addFuncJobStore (handleCanDo s f w t) f).1) ∨
    (∃ f, removeCanDo s f e.fromSessionId = some s1) ∨
    (∃ id w, s1 = setClientId s id w) ∨
    handleGrabJob s e env = some (s1, out) ∨
    handlePreSleep s e env = some (s1, out) ∨
    handleSubmitJob s e env = some (s1, out) ∨
    handleWorkReport s e = some (s1, out) ∨
    s1 = (handleCloseSession s e).1 ∨
    s1 = s := by
  unfold handleProtoEvt at hrun
  cases htp : e.tp <;> simp only [htp, Cmd.isCtrl, if_true, if_false, Bool.false_eq_true,
    Option.some.injEq, Prod.mk.injEq, handleCtrlEvt] at hrun
  case CAN_DO =>
    left
    split at hrun
    · simp only [Option.some.injEq, Prod.mk.injEq] at hrun
      exact ⟨_, _, _, hrun.1.symm⟩
    · cases hrun
  case CAN_DO_TIMEOUT =>
    left
    split at hrun
    · simp only [Option.some.injEq, Prod.mk.injEq] at hrun
      exact ⟨_, _, _, hrun.1.symm⟩
    · cases hrun
  case CANT_DO =>
    right; left
    split at hrun
    · rename_i f _
      cases hr : removeCanDo s f e.fromSessionId with
      | none => simp [hr] at hrun
      | some s2 =>
        simp only [hr, Option.map_some', Option.some.injEq, Prod.mk.injEq] at hrun
        exact ⟨f, by rw [hr, hrun.1]⟩
    · cases hrun
  case SET_CLIENT_ID =>
    right; right; left
    split at hrun
    · simp only [Option.some.injEq, Prod.mk.injEq] at hrun
      exact ⟨_, _, hrun.1.symm⟩
    · cases hrun
  case GRAB_JOB => exact Or.inr (Or.inr (Or.inr (Or.inl hrun)))
  case GRAB_JOB_UNIQ => exact Or.inr (Or.inr (Or.inr (Or.inl hrun)))
  case PRE_SLEEP => exact Or.inr (Or.inr (Or.inr (Or.inr (Or.inl hrun))))
  case SUBMIT_JOB => exact Or.inr (Or.inr (Or.inr (Or.inr (Or.inr (Or.inl hrun)))))
  case SUBMIT_JOB_LOW => exact Or.inr (Or.inr (Or.inr (Or.inr (Or.inr (Or.inl hrun)))))
  case SUBMIT_JOB_LOW_BG => exact Or.inr (Or.inr (Or.inr (Or.inr (Or.inr (Or.inl hrun)))))
  case WORK_DATA =>
    exact Or.inr (Or.inr (Or.inr (Or.inr (Or.inr (Or.inr (Or.inl hrun))))))
  case WORK_WARNING =>
    exact Or.inr (Or.inr (Or.inr (Or.inr (Or.inr (Or.inr (Or.inl hrun))))))
  case WORK_STATUS =>
    exact Or.inr (Or.inr (Or.inr (Or.inr (Or.inr (Or.inr (Or.inl hrun))))))
  case WORK_COMPLETE =>
    exact Or.inr (Or.inr (Or.inr (Or.inr (Or.inr (Or.inr (Or.inl hrun))))))
  case WORK_FAIL =>
    exact Or.inr (Or.inr (Or.inr (Or.inr (Or.inr (Or.inr (Or.inl hrun))))))
  case WORK_EXCEPTION =>
    exact Or.inr (Or.inr (Or.inr (Or.inr (Or.inr (Or.inr (Or.inl hrun))))))
  case ctrlCloseSession =>
    exact Or.inr (Or.inr (Or.inr (Or.inr (Or.inr (Or.inr (Or.inr (Or.inl (by
      rw [hrun]))))))))
  all_goals
    exact Or.inr (Or.inr (Or.inr (Or.inr (Or.inr (Or.inr (Or.inr (Or.inr hrun.1.symm)))))))

theorem setStatus_frame (s : Server) (w : Nat) (st : WorkerStatus) :
    (∀ p, ((setStatus s w st).heap p).SessionId = (s.heap p).SessionId) ∧
    (∀ p, ((setStatus s w st).heap p).canDo = (s.heap p).canDo) := by
  constructor <;> intro p <;> unfold setStatus heapSet <;> by_cases hp : p = w <;> simp [hp]

theorem handlePreSleep_cases (s s1 : Server) (e : Event) (env : Env) (out : Out)
    (hrun : handlePreSleep s e env = some (s1, out)) :
    (∃ w, s1 = { s with worker := s.worker.set (s.heap w).SessionId w }) ∨
    (∃ w, s1 = setStatus s w .wsSleep) := by
  unfold handlePreSleep at hrun
  cases hw : s.worker e.fromSessionId with
  | none =>
    simp only [hw] at hrun
    split at hrun
    · simp only [Option.some.injEq, Prod.mk.injEq] at hrun
      exact Or.inl ⟨_, hrun.1.symm⟩
    · cases hrun
  | some w =>
    simp only [hw, Option.some.injEq, Prod.mk.injEq] at hrun
    exact Or.inr ⟨w, hrun.1.symm⟩

theorem handleCloseSession_fst (s : Server) (e : Event) :
    (handleCloseSession s e).1 =
      match s.worker e.fromSessionId with
      | some w => removeWorkerBySessionId s (s.heap w).SessionId
      | none =>
        match s.client e.fromSessionId with
        | some c => { s with client := s.client.del c.SessionId }
        | none => s := rfl

theorem WInv_handleCloseSession (s : Server) (e : Event) (h : WInv s) :
    WInv (handleCloseSession s e).1 := by
  rw [handleCloseSession_fst]
  cases hw : s.worker e.fromSessionId with
  | some w => exact WInv_removeWorkerBySessionId s _ h
  | none =>
    cases hc : s.client e.fromSessionId with
    | none => exact h
    | some c =>
      apply WInv_client s _ _ h
      intro k x hk
      unfold GoMap.del at hk
      by_cases hkk : k = c.SessionId
      · simp [hkk] at hk
      · simp only [hkk, if_false] at hk
        exact h.clientKey k x hk

theorem handleCloseSession_jobs (s : Server) (e : Event) :
    (handleCloseSession s e).1.jobStores = s.jobStores ∧
    (handleCloseSession s e).1.workJobs = s.workJobs := by
  rw [handleCloseSession_fst]
  cases hw : s.worker e.fromSessionId with
  | some w => exact ⟨rfl, rfl⟩
  | none =>
    cases hc : s.client e.fromSessionId with
    | none => exact ⟨rfl, rfl⟩
    | some c => exact ⟨rfl, rfl⟩

theorem JInv_same (issued : List String) (s s1 : Server) (hjs : s1.jobStores = s.jobStores)
    (hwj : s1.workJobs = s.workJobs) (h : JInv issued s) : JInv issued s1 :=
  JInv_workJobs_sub issued s s1 hjs (fun k j hk => ⟨j, by rw [← hwj]; exact hk, rfl⟩) h

/-- Every handler run keeps both invariants; the handle offered to the run joins the
handles offered so far. -/
theorem step_inv (issued : List String) (s s1 : Server) (e : Event) (env : Env) (out : Out)
    (hfresh : env.handle ∉ issued) (hrun : handleProtoEvt s e env = some (s1, out))
    (hw : WInv s) (hj : JInv issued s) : WInv s1 ∧ JInv (env.handle :: issued) s1 := by
  have hmono : ∀ t, JInv issued t → JInv (env.handle :: issued) t :=
    fun t ht => JInv_mono issued _ t (fun h hh => List.mem_cons_of_mem _ hh) ht
  rcases handleProtoEvt_cases s s1 e env out hrun with
    ⟨w, f, t, h1⟩ | ⟨f, h1⟩ | ⟨id, w, h1⟩ | h1 | h1 | h1 | h1 | h1 | h1
  · obtain ⟨a1, a2, a3, a4, a5, _, _, _, _, _⟩ := addFuncJobStore_frame (handleCanDo s f w t) f
    obtain ⟨_, b2, b3, _, _⟩ := handleCanDo_frame s f w t
    rw [h1]
    constructor
    · exact WInv_frame _ _ a1 a2 a3 (fun p => by rw [a4]) (fun p => by rw [a4])
        (WInv_handleCanDo s f w t hw)
    · exact hmono _ (JInv_addFuncJobStore issued _ f (JInv_same issued s _ b2 b3 hj))
  · obtain ⟨w, _, _, _, a4, a5, _, _, _, _⟩ := removeCanDo_eq s s1 f _ h1
    exact ⟨WInv_removeCanDo s s1 f _ h1 hw, hmono _ (JInv_same issued s s1 a4 a5 hj)⟩
  · rw [h1]
    constructor
    · refine WInv_frame s _ rfl rfl rfl ?_ ?_ hw <;> intro p <;>
        unfold setClientId heapSet <;> by_cases hp : p = w <;> simp [hp]
    · exact hmono _ (JInv_same issued s _ rfl rfl hj)
  · obtain ⟨a1, a2, a3, a4, a5, a6⟩ := handleGrabJob_cases s s1 e env out h1
    refine ⟨WInv_frame s s1 a1 a2 a3 a4 a5 hw, hmono _ ?_⟩
    rcases a6 with ⟨c1, c2⟩ | ⟨f, j0, q, j1, hq, hh, c1, c2⟩
    · exact JInv_same issued s s1 c1 c2 hj
    · exact JInv_pop issued s s1 f j0 j1 q hq hh c1 c2 hj
  · rcases handlePreSleep_cases s s1 e env out h1 with ⟨w, h2⟩ | ⟨w, h2⟩
    · rw [h2]
      exact ⟨WInv_workerSet s w hw, hmono _ (JInv_same issued s _ rfl rfl hj)⟩
    · rw [h2]
      exact ⟨WInv_frame s _ rfl rfl rfl (setStatus_frame s w _).1 (setStatus_frame s w _).2 hw,
        hmono _ (JInv_same issued s _ rfl rfl hj)⟩
  · obtain ⟨c, f, id, data, h0, h1a, h2, h3⟩ := handleSubmitJob_args s s1 e env out h1
    rw [handleSubmitJob_eq s e env c f id data h0 h1a h2 h3] at h1
    simp only [Option.some.injEq, Prod.mk.injEq] at h1
    rw [← h1.1, doAddJob_state]
    have hcl : WInv { s with client := s.client.set c.SessionId c } := by
      apply WInv_client s _ _ hw
      intro k x hk
      unfold GoMap.set at hk
      by_cases hkk : k = c.SessionId
      · simp only [hkk, if_true, Option.some.injEq] at hk
        rw [← hk, hkk]
      · simp only [hkk, if_false] at hk
        exact hw.clientKey k x hk
    constructor
    · exact WInv_frame { s with client := s.client.set c.SessionId c } _ rfl rfl rfl
        (fun _ => rfl) (fun _ => rfl) hcl
    · exact JInv_push issued { s with client := s.client.set c.SessionId c }
        { submittedJob s e.tp env c f id data with ProcessBy := 0 } hfresh
        (JInv_same issued s _ rfl rfl hj)
  · obtain ⟨a1, a2, a3, a4, a5, _, _, a8⟩ := handleWorkReport_frame s s1 e out h1
    exact ⟨WInv_frame s s1 a1 a2 a3 (fun p => by rw [a4]) (fun p => by rw [a4]) hw,
      hmono _ (JInv_workJobs_sub issued s s1 a5 a8 hj)⟩
  · rw [h1]
    exact ⟨WInv_handleCloseSession s e hw,
      hmono _ (JInv_same issued s _ (handleCloseSession_jobs s e).1
        (handleCloseSession_jobs s e).2 hj)⟩
  · rw [h1]
    exact ⟨hw, hmono _ hj⟩

theorem NewServer_inv (tryTimes : Int) (heap : Nat → Worker) :
    WInv (NewServer tryTimes heap) ∧ JInv [] (NewServer tryTimes heap) := by
  constructor
  · constructor <;> intros <;> simp_all [NewServer, GoMap.empty]
  · constructor <;> intros <;> simp_all [NewServer, GoMap.empty]

/-- Both invariants hold in every state of the event loop. -/
theorem reachable_inv (issued : List String) (s : Server) (hr : Reachable issued s) :
    WInv s ∧ JInv issued s := by
  induction hr with
  | init tryTimes heap => exact NewServer_inv tryTimes heap
  | proto e env s1 out _ _ hfresh hstep ih =>
    exact step_inv _ _ s1 e env out hfresh hstep ih.1 ih.2
  | tick now order _ _ ih =>
    exact Inv_clearTimeoutJob _ _ now order ih.1 ih.2

/-! ## Concrete runs -/

theorem reach_srvCanDo : Reachable ["H:1"] srvCanDo :=
  Reachable.proto evCanDo { handle := "H:1" } srvCanDo {} (Reachable.init 0 heap0)
    (fun h => by cases h) (by simp) rfl

theorem reach_srvBoth : Reachable ["H:2", "H:1"] srvBoth :=
  Reachable.proto evSubmit { handle := "H:2", now := 100 } srvBoth
    { sends := [(1, wakeupReply)], replies := [Reply.handle "H:2"] } reach_srvCanDo
    (fun h => by cases h) (by decide) rfl

/-! ## Closing a session -/

/-- C3 as stated fails: in the reachable state `srvBoth` session 1 is recorded as a worker
and as a client, and after its `CloseSession` it is still a key of `client`. -/
theorem C3_close_keeps_client_of_worker :
    Reachable ["H:2", "H:1"] srvBoth ∧
    srvBoth.worker 1 = some 1 ∧ srvBoth.client 1 = some ⟨1⟩ ∧
    (handleProtoEvt srvBoth evClose {}).map (fun r => (r.1.client 1, r.2.replies)) =
      some (some ⟨1⟩, [Reply.bool true]) :=
  ⟨reach_srvBoth, rfl, rfl, rfl⟩

/-- C3 amended: after a `CloseSession` event from session `S` in a reachable state, `S` is
not a key of `worker`, no roster holds a worker whose session id is `S`, the reply is
`true` and nothing else is sent; `S` is not a key of `client` provided `S` was not a key
of `worker` before the event. -/
theorem C3_close_session (issued : List String) (s : Server) (hr : Reachable issued s)
    (e : Event) (env : Env) (htp : e.tp = .ctrlCloseSession) :
    ∃ s1 : Server,
      handleProtoEvt s e env = some (s1, { sends := [], replies := [Reply.bool true] }) ∧
      s1.worker e.fromSessionId = none ∧
      (∀ f l p, s1.funcWorker f = some l → p ∈ l → (s1.heap p).SessionId ≠ e.fromSessionId) ∧
      (s.worker e.fromSessionId = none → s1.client e.fromSessionId = none) := by
  have hw := (reachable_inv issued s hr).1
  have hrun : handleProtoEvt s e env =
      some ((handleCloseSession s e).1, { sends := [], replies := [Reply.bool true] }) := by
    unfold handleProtoEvt
    simp [htp, Cmd.isCtrl, handleCtrlEvt, handleCloseSession]
  refine ⟨(handleCloseSession s e).1, hrun, ?_⟩
  rw [handleCloseSession_fst]
  cases hwk : s.worker e.fromSessionId with
  | some w =>
    have hsid : (s.heap w).SessionId = e.fromSessionId := hw.workerKey _ w hwk
    simp only [hsid]
    refine ⟨?_, ?_, ?_⟩
    · simp [removeWorkerBySessionId, GoMap.del]
    · intro f l p hl hp
      unfold removeWorkerBySessionId at hl
      cases hf : s.funcWorker f with
      | none => simp [hf] at hl
      | some l0 =>
        simp only [hf, Option.map_some', Option.some.injEq] at hl
        rw [← hl] at hp
        exact removeWorker_not_mem s.heap _ l0 (hw.rosterNodup f l0 hf) p hp
    · intro hnone
      cases hnone
  | none =>
    have hroster : ∀ f l p, s.funcWorker f = some l → p ∈ l →
        (s.heap p).SessionId ≠ e.fromSessionId := by
      intro f l p hl hp heq
      obtain ⟨q, hq⟩ := hw.rosterReg f l p hl hp
      rw [heq, hwk] at hq
      cases hq
    cases hc : s.client e.fromSessionId with
    | none => exact ⟨hwk, hroster, fun _ => hc⟩
    | some c =>
      have hcs : c.SessionId = e.fromSessionId := hw.clientKey _ c hc
      refine ⟨hwk, hroster, fun _ => ?_⟩
      simp [GoMap.del, hcs]

/-- C3 amended at a concrete input: closing session 1 in `srvCanDo`, where it is a worker
on the roster of `"f"`, leaves the roster empty and the worker table without key 1. -/
theorem C3_close_session_witness :
    srvCanDo.funcWorker "f" = some [1] ∧
    ∃ s1 : Server,
      handleProtoEvt srvCanDo evClose {} =
        some (s1, { sends := [], replies := [Reply.bool true] }) ∧
      s1.worker 1 = none ∧
      (∀ l p, s1.funcWorker "f" = some l → p ∈ l → (s1.heap p).SessionId ≠ 1) := by
  obtain ⟨s1, hrun, hwk, hro, _⟩ :=
    C3_close_session ["H:1"] srvCanDo reach_srvCanDo evClose {} rfl
  exact ⟨rfl, s1, hrun, hwk, fun l p hl hp => hro "f" l p hl hp⟩

theorem reach_srvGrabbed : Reachable ["H:3", "H:2", "H:1"] srvGrabbed := by
  refine Reachable.proto evGrab { handle := "H:3", now := 101, order := ["f"] } srvGrabbed
    (outEvt srvBoth evGrab { handle := "H:3", now := 101, order := ["f"] }) reach_srvBoth
    ?_ (by decide) rfl
  intro _ w hw
  have h1 : srvBoth.worker 1 = some 1 := rfl
  have hw1 : w = 1 := by
    have hw2 : srvBoth.worker 1 = some w := hw
    rw [h1] at hw2
    exact (Option.some.inj hw2).symm
  subst hw1
  have hc : (srvBoth.heap 1).canDo = (GoMap.empty : GoMap String Bool).set "f" true := rfl
  refine ⟨by decide, ?_⟩
  intro k
  rw [hc]
  by_cases hk : k = "f" <;> simp [hk, GoMap.set, GoMap.empty]

theorem reach_srvTwoJobs : Reachable ["H:4", "H:3", "H:2", "H:1"] srvTwoJobs :=
  Reachable.proto evSubmit { handle := "H:4", now := 102 } srvTwoJobs
    (outEvt srvGrabbed evSubmit { handle := "H:4", now := 102 }) reach_srvGrabbed
    (fun h => by cases h) (by decide) rfl

/-! ## Invariants of the event loop -/

/-- C8: in every state of the event loop (all handlers of `handleProtoEvt` and the sweep
`clearTimeoutJob`, from `NewServer`, with a fresh handle offered to every run) no job
of a queue has its handle in `workJobs`, as a key or as the handle of a stored job, and
no handle occurs in two queues or twice in one queue. -/
theorem C8_queue_workJobs_disjoint (issued : List String) (s : Server)
    (hr : Reachable issued s) :
    (∀ f q j, s.jobStores f = some q → j ∈ q →
      s.workJobs j.Handle = none ∧ ∀ k j1, s.workJobs k = some j1 → j1.Handle ≠ j.Handle) ∧
    (∀ f g qf qg j1 j2, s.jobStores f = some qf → s.jobStores g = some qg →
      j1 ∈ qf → j2 ∈ qg → j1.Handle = j2.Handle → f = g) ∧
    (∀ f q, s.jobStores f = some q → (q.map Job.Handle).Nodup) := by
  have hj := (reachable_inv issued s hr).2
  refine ⟨?_, hj.queueCross, hj.queueNodup⟩
  intro f q j hq hjq
  have hnone := hj.queueWork f q j hq hjq
  refine ⟨hnone, ?_⟩
  intro k j1 hk heq
  have hkey := hj.workKey k j1 hk
  rw [← heq, hkey, hk] at hnone
  cases hnone

/-- C8 at a concrete run: with job `"H:2"` grabbed and job `"H:4"` queued for `"f"`, the
handle `"H:4"` is not a key of `workJobs`. -/
theorem C8_queue_workJobs_disjoint_witness :
    Reachable ["H:4", "H:3", "H:2", "H:1"] srvTwoJobs ∧
    (srvTwoJobs.workJobs "H:2").isSome = true ∧
    (∃ j, srvTwoJobs.jobStores "f" = some [j] ∧ j.Handle = "H:4") ∧
    srvTwoJobs.workJobs "H:4" = none := by
  refine ⟨reach_srvTwoJobs, rfl, ⟨_, rfl, rfl⟩, ?_⟩
  exact ((C8_queue_workJobs_disjoint _ srvTwoJobs reach_srvTwoJobs).1 "f" _
    { submittedJob srvGrabbed .SUBMIT_JOB { handle := "H:4", now := 102 } ⟨1⟩ "f" "u1" "hello"
      with ProcessBy := 0 } rfl (List.mem_singleton.mpr rfl)).1

/-- C9: in every state of the event loop, for every function name `F`, every worker on
the roster `funcWorker[F]` has `canDo[F] = true`. -/
theorem C9_roster_canDo (issued : List String) (s : Server) (hr : Reachable issued s)
    (F : String) (l : List Nat) (p : Nat) (hl : s.funcWorker F = some l) (hp : p ∈ l) :
    (s.heap p).canDo F = some true :=
  (reachable_inv issued s hr).1.rosterCanDo F l p hl hp

/-- C9 at a concrete run: after `CAN_DO "f"` the worker on the roster of `"f"` has
`canDo["f"] = true`. -/
theorem C9_roster_canDo_witness :
    srvCanDo.funcWorker "f" = some [1] ∧ (srvCanDo.heap 1).canDo "f" = some true :=
  ⟨rfl, C9_roster_canDo ["H:1"] srvCanDo reach_srvCanDo "f" [1] 1 rfl
    (List.mem_singleton.mpr rfl)⟩

/-- C10: in every state of the event loop, every worker on a roster has its session id as
a key of the worker table, and the object stored under that key has that session id. -/
theorem C10_roster_registered (issued : List String) (s : Server) (hr : Reachable issued s)
    (F : String) (l : List Nat) (p : Nat) (hl : s.funcWorker F = some l) (hp : p ∈ l) :
    ∃ q, s.worker (s.heap p).SessionId = some q ∧
      (s.heap q).SessionId = (s.heap p).SessionId := by
  have hw := (reachable_inv issued s hr).1
  obtain ⟨q, hq⟩ := hw.rosterReg F l p hl hp
  exact ⟨q, hq, hw.workerKey _ q hq⟩

/-- C10 at a concrete run: in `srvBoth` the roster entry of `"f"` is in the worker table. -/
theorem C10_roster_registered_witness :
    srvBoth.funcWorker "f" = some [1] ∧
    ∃ q, srvBoth.worker (srvBoth.heap 1).SessionId = some q ∧
      (srvBoth.heap q).SessionId = (srvBoth.heap 1).SessionId :=
  ⟨rfl, C10_roster_registered _ srvBoth reach_srvBoth "f" [1] 1 rfl
    (List.mem_singleton.mpr rfl)⟩

/-! ## Keys of the roster table -/

theorem ReachableFrom_reachable (tryTimes : Int) (heap : Nat → Worker) (issued : List String)
    (s : Server) (hr : ReachableFrom (NewServer tryTimes heap) issued s) :
    Reachable issued s := by
  induction hr with
  | start => exact Reachable.init tryTimes heap
  | proto e env s1 out _ henv hfresh hstep ih =>
    exact Reachable.proto e env s1 out ih henv hfresh hstep
  | tick now order _ hord ih => exact Reachable.tick now order ih hord

theorem handleGrabJob_config (s s1 : Server) (e : Event) (env : Env) (out : Out)
    (hrun : handleGrabJob s e env = some (s1, out)) :
    s1.funcTimeout = s.funcTimeout ∧ s1.tryTimes = s.tryTimes := by
  cases hw : s.worker e.fromSessionId with
  | none =>
    unfold handleGrabJob at hrun
    simp only [hw, Option.some.injEq, Prod.mk.injEq] at hrun
    rw [← hrun.1]
    exact ⟨rfl, rfl⟩
  | some w =>
    rw [handleGrabJob_eq s e env w hw] at hrun
    rcases popJobLoop_cases (setStatus s w .wsRunning) (s.heap w).canDo env.order with
      hnone | ⟨f, j0, q, _, _, hsome⟩
    · rw [hnone] at hrun
      simp only [Option.some.injEq, Prod.mk.injEq] at hrun
      rw [← hrun.1]
      exact ⟨rfl, rfl⟩
    · rw [hsome] at hrun
      simp only [Option.some.injEq, Prod.mk.injEq] at hrun
      rw [← hrun.1]
      exact ⟨rfl, rfl⟩

/-- Apart from `CAN_DO` / `CAN_DO_TIMEOUT`, no handler changes `funcTimeout` or the key
set of `funcWorker`, and none sets a `canDo` flag. -/
theorem step_keys (s s1 : Server) (e : Event) (env : Env) (out : Out)
    (hrun : handleProtoEvt s e env = some (s1, out)) :
    (∃ w f t, s1 = (addFuncJobStore (handleCanDo s f w t) f).1) ∨
    (s1.funcTimeout = s.funcTimeout ∧
      (∀ F, (s1.funcWorker F).isSome = (s.funcWorker F).isSome) ∧
      ∀ p F, (s1.heap p).canDo F = some true → (s.heap p).canDo F = some true) := by
  rcases handleProtoEvt_cases s s1 e env out hrun with
    h1 | ⟨f, h1⟩ | ⟨id, w, h1⟩ | h1 | h1 | h1 | h1 | h1 | h1
  · exact Or.inl h1
  · right
    obtain ⟨w, _, _, _, _, _, a6, _, a8, a9⟩ := removeCanDo_eq s s1 f _ h1
    refine ⟨a6, ?_, ?_⟩
    · intro F
      rw [a9]
      by_cases hF : F = f
      · simp [hF]
      · simp [hF]
    · intro p F hp
      rw [a8] at hp
      unfold heapSet at hp
      by_cases hpw : p = w
      · simp only [hpw, if_true] at hp
        unfold GoMap.del at hp
        by_cases hF : F = f
        · simp [hF] at hp
        · simp only [hF, if_false] at hp
          rw [hpw]
          exact hp
      · simpa only [hpw, if_false] using hp
  · right
    rw [h1]
    refine ⟨rfl, fun _ => rfl, ?_⟩
    intro p F hp
    unfold setClientId heapSet at hp
    by_cases hpw : p = w
    · simp only [hpw, if_true] at hp
      rw [hpw]
      exact hp
    · simpa only [hpw, if_false] using hp
  · right
    obtain ⟨a1, _, _, _, a5, _⟩ := handleGrabJob_cases s s1 e env out h1
    refine ⟨(handleGrabJob_config s s1 e env out h1).1, fun F => by rw [a1], ?_⟩
    intro p F hp
    rw [a5] at hp
    exact hp
  · right
    rcases handlePreSleep_cases s s1 e env out h1 with ⟨w, h2⟩ | ⟨w, h2⟩
    · rw [h2]
      exact ⟨rfl, fun _ => rfl, fun _ _ hp => hp⟩
    · rw [h2]
      refine ⟨rfl, fun _ => rfl, ?_⟩
      intro p F hp
      rw [(setStatus_frame s w _).2] at hp
      exact hp
  · right
    obtain ⟨c, f, id, data, h0, h1a, h2, h3⟩ := handleSubmitJob_args s s1 e env out h1
    rw [handleSubmitJob_eq s e env c f id data h0 h1a h2 h3] at h1
    simp only [Option.some.injEq, Prod.mk.injEq] at h1
    rw [← h1.1, doAddJob_state]
    exact ⟨rfl, fun _ => rfl, fun _ _ hp => hp⟩
  · right
    obtain ⟨a1, _, _, a4, _, a6, _, _⟩ := handleWorkReport_frame s s1 e out h1
    exact ⟨a6, fun F => by rw [a1], fun p F hp => by rw [a4] at hp; exact hp⟩
  · right
    rw [h1, handleCloseSession_fst]
    cases hw : s.worker e.fromSessionId with
    | some w =>
      refine ⟨rfl, ?_, fun _ _ hp => hp⟩
      intro F
      show ((s.funcWorker F).map _).isSome = _
      cases s.funcWorker F <;> rfl
    | none =>
      cases hc : s.client e.fromSessionId with
      | none => exact ⟨rfl, fun _ => rfl, fun _ _ hp => hp⟩
      | some c => exact ⟨rfl, fun _ => rfl, fun _ _ hp => hp⟩
  · right
    rw [h1]
    exact ⟨rfl, fun _ => rfl, fun _ _ hp => hp⟩

theorem KInv_step (s s1 : Server) (e : Event) (env : Env) (out : Out)
    (hrun : handleProtoEvt s e env = some (s1, out)) (h : KInv s) : KInv s1 := by
  rcases step_keys s s1 e env out hrun with ⟨w, f, t, h1⟩ | ⟨a1, a2, a3⟩
  · obtain ⟨b1, _, _, b4, _, b6, _, _, _, _⟩ := addFuncJobStore_frame (handleCanDo s f w t) f
    have hfw : ∀ F, (s1.funcWorker F).isSome = (decide (F = f) || (s.funcWorker F).isSome) := by
      intro F
      rw [h1, b1, handleCanDo_funcWorker]
      by_cases hF : F = f <;> simp [hF]
    constructor
    · intro F
      rw [hfw, h1, b6, (handleCanDo_frame s f w t).2.2.2.2]
      unfold GoMap.set
      by_cases hF : F = f
      · simp [hF]
      · simp [hF, h.keyTimeout F]
    · intro p F hp
      rw [hfw]
      rw [h1, b4, handleCanDo_heap] at hp
      unfold heapSet at hp
      by_cases hF : F = f
      · simp [hF]
      · have hold : (s.heap p).canDo F = some true := by
          by_cases hpw : p = w
          · simp only [hpw, if_true] at hp
            unfold GoMap.set at hp
            simp only [hF, if_false] at hp
            rw [hpw]
            exact hp
          · simpa only [hpw, if_false] using hp
        simp [hF, h.canDoKey p F hold]
  · constructor
    · intro F
      rw [a2, a1]
      exact h.keyTimeout F
    · intro p F hp
      rw [a2]
      exact h.canDoKey p F (a3 p F hp)

theorem KInv_reachable (tryTimes : Int) (heap : Nat → Worker)
    (hfresh : ∀ p, (heap p).canDo = GoMap.empty) (issued : List String) (s : Server)
    (hr : ReachableFrom (NewServer tryTimes heap) issued s) : KInv s := by
  induction hr with
  | start =>
    constructor
    · intro F
      rfl
    · intro p F hp
      rw [show (NewServer tryTimes heap).heap p = heap p from rfl, hfresh p] at hp
      cases hp
  | proto e env s1 out _ _ _ hstep ih => exact KInv_step _ s1 e env out hstep ih
  | tick now order _ _ ih =>
    obtain ⟨a1, _, _, a4, _, a6, _, _⟩ := clearTimeoutFold_frame now order (_, [])
    constructor
    · intro F
      unfold clearTimeoutJob
      rw [a1, a6]
      exact ih.keyTimeout F
    · intro p F hp
      unfold clearTimeoutJob at hp ⊢
      rw [a4] at hp
      rw [a1]
      exact ih.canDoKey p F hp

theorem reach_srvSubmitOnly : Reachable ["H:1"] srvSubmitOnly :=
  Reachable.proto evSubmit { handle := "H:1", now := 100 } srvSubmitOnly
    (outEvt (NewServer 0 heap0) evSubmit { handle := "H:1", now := 100 })
    (Reachable.init 0 heap0) (fun h => by cases h) (by simp) rfl

theorem reach_srvCantDo : Reachable ["H:2", "H:1"] srvCantDo :=
  Reachable.proto evCantDo { handle := "H:2" } srvCantDo
    (outEvt srvCanDo evCantDo { handle := "H:2" }) reach_srvCanDo
    (fun h => by cases h) (by decide) rfl

/-- C11 as stated fails in both directions. After a single `SUBMIT_JOB "f"` a job has
been submitted for `"f"` and `"f"` is not a key of `funcWorker`. After `CAN_DO "f"` and
`CANT_DO "f"` from the same session, `"f"` is a key of `funcWorker` although no worker
has `canDo["f"]` and no job was submitted for it. -/
theorem C11_keys_not_as_claimed :
    (Reachable ["H:1"] srvSubmitOnly ∧
      (∃ j, srvSubmitOnly.jobStores "f" = some [j] ∧ j.FuncName = "f") ∧
      srvSubmitOnly.funcWorker "f" = none) ∧
    (Reachable ["H:2", "H:1"] srvCantDo ∧
      srvCantDo.funcWorker "f" = some [] ∧
      (∀ p, (srvCantDo.heap p).canDo "f" = none) ∧
      srvCantDo.jobStores "f" = some [] ∧ srvCantDo.workJobs "f" = none) := by
  refine ⟨⟨reach_srvSubmitOnly, ⟨_, rfl, rfl⟩, rfl⟩, reach_srvCantDo, rfl, ?_, rfl, rfl⟩
  intro p
  by_cases hp : p = 1
  · subst hp
    rfl
  · show ((heapSet (heapSet heap0 1 _) 1 _) p).canDo "f" = none
    simp [heapSet, hp, heap0, GoMap.empty]

/-! ## How the key set of the roster table evolves -/

/-- A run of `handleProtoEvt` on an event that is neither `CAN_DO` nor `CAN_DO_TIMEOUT`. -/
theorem handleProtoEvt_other (s s1 : Server) (e : Event) (env : Env) (out : Out)
    (hne1 : e.tp ≠ .CAN_DO) (hne2 : e.tp ≠ .CAN_DO_TIMEOUT)
    (hrun : handleProtoEvt s e env = some (s1, out)) :
    (∃ f, removeCanDo s f e.fromSessionId = some s1) ∨
    (∃ id w, s1 = setClientId s id w) ∨
    handleGrabJob s e env = some (s1, out) ∨
    handlePreSleep s e env = some (s1, out) ∨
    handleSubmitJob s e env = some (s1, out) ∨
    handleWorkReport s e = some (s1, out) ∨
    s1 = (handleCloseSession s e).1 ∨
    s1 = s := by
  unfold handleProtoEvt at hrun
  cases htp : e.tp <;> simp only [htp, Cmd.isCtrl, if_true, if_false, Bool.false_eq_true,
    Option.some.injEq, Prod.mk.injEq, handleCtrlEvt] at hrun
  case CAN_DO => exact absurd htp hne1
  case CAN_DO_TIMEOUT => exact absurd htp hne2
  case CANT_DO =>
    left
    split at hrun
    · rename_i f _
      cases hr : removeCanDo s f e.fromSessionId with
      | none => simp [hr] at hrun
      | some s2 =>
        simp only [hr, Option.map_some', Option.some.injEq, Prod.mk.injEq] at hrun
        exact ⟨f, by rw [hr, hrun.1]⟩
    · cases hrun
  case SET_CLIENT_ID =>
    right; left
    split at hrun
    · simp only [Option.some.injEq, Prod.mk.injEq] at hrun
      exact ⟨_, _, hrun.1.symm⟩
    · cases hrun
  case GRAB_JOB => exact Or.inr (Or.inr (Or.inl hrun))
  case GRAB_JOB_UNIQ => exact Or.inr (Or.inr (Or.inl hrun))
  case PRE_SLEEP => exact Or.inr (Or.inr (Or.inr (Or.inl hrun)))
  case SUBMIT_JOB => exact Or.inr (Or.inr (Or.inr (Or.inr (Or.inl hrun))))
  case SUBMIT_JOB_LOW => exact Or.inr (Or.inr (Or.inr (Or.inr (Or.inl hrun))))
  case SUBMIT_JOB_LOW_BG => exact Or.inr (Or.inr (Or.inr (Or.inr (Or.inl hrun))))
  case WORK_DATA => exact Or.inr (Or.inr (Or.inr (Or.inr (Or.inr (Or.inl hrun)))))
  case WORK_WARNING => exact Or.inr (Or.inr (Or.inr (Or.inr (Or.inr (Or.inl hrun)))))
  case WORK_STATUS => exact Or.inr (Or.inr (Or.inr (Or.inr (Or.inr (Or.inl hrun)))))
  case WORK_COMPLETE => exact Or.inr (Or.inr (Or.inr (Or.inr (Or.inr (Or.inl hrun)))))
  case WORK_FAIL => exact Or.inr (Or.inr (Or.inr (Or.inr (Or.inr (Or.inl hrun)))))
  case WORK_EXCEPTION => exact Or.inr (Or.inr (Or.inr (Or.inr (Or.inr (Or.inl hrun)))))
  case ctrlCloseSession =>
    exact Or.inr (Or.inr (Or.inr (Or.inr (Or.inr (Or.inr (Or.inl (by rw [hrun])))))))
  all_goals
    exact Or.inr (Or.inr (Or.inr (Or.inr (Or.inr (Or.inr (Or.inr hrun.1.symm))))))

/-- No handler other than `handleCanDo` changes the key set of `funcWorker`. -/
theorem funcWorker_keys_other (s s1 : Server) (e : Event) (env : Env) (out : Out)
    (h : (∃ f, removeCanDo s f e.fromSessionId = some s1) ∨
      (∃ id w, s1 = setClientId s id w) ∨
      handleGrabJob s e env = some (s1, out) ∨
      handlePreSleep s e env = some (s1, out) ∨
      handleSubmitJob s e env = some (s1, out) ∨
      handleWorkReport s e = some (s1, out) ∨
      s1 = (handleCloseSession s e).1 ∨
      s1 = s) (F : String) :
    (s1.funcWorker F).isSome = (s.funcWorker F).isSome := by
  rcases h with ⟨f, h1⟩ | ⟨id, w, h1⟩ | h1 | h1 | h1 | h1 | h1 | h1
  · obtain ⟨w, _, _, _, _, _, _, _, _, a9⟩ := removeCanDo_eq s s1 f _ h1
    rw [a9]
    by_cases hF : F = f
    · simp [hF]
    · simp [hF]
  · rw [h1]
    rfl
  · rw [(handleGrabJob_cases s s1 e env out h1).1]
  · rcases handlePreSleep_cases s s1 e env out h1 with ⟨w, h2⟩ | ⟨w, h2⟩
    · rw [h2]
    · rw [h2]
      rfl
  · obtain ⟨c, f, id, data, h0, h1a, h2, h3⟩ := handleSubmitJob_args s s1 e env out h1
    rw [handleSubmitJob_eq s e env c f id data h0 h1a h2 h3] at h1
    simp only [Option.some.injEq, Prod.mk.injEq] at h1
    rw [← h1.1, doAddJob_state]
  · rw [(handleWorkReport_frame s s1 e out h1).1]
  · rw [h1, handleCloseSession_fst]
    cases hw : s.worker e.fromSessionId with
    | some w =>
      show ((s.funcWorker F).map _).isSome = _
      cases s.funcWorker F <;> rfl
    | none =>
      cases hc : s.client e.fromSessionId <;> rfl
  · rw [h1]

/-- After a handler run a function is a key of `funcWorker` exactly if it was one before
or the event was a `CAN_DO` / `CAN_DO_TIMEOUT` for it. -/
theorem step_funcWorker (s s1 : Server) (e : Event) (env : Env) (out : Out)
    (hrun : handleProtoEvt s e env = some (s1, out)) (F : String) :
    (s1.funcWorker F).isSome = ((s.funcWorker F).isSome || declares e F) := by
  have hcan : ∀ w f t, e.args.t1 = .str f →
      s1 = (addFuncJobStore (handleCanDo s f w t) f).1 →
      (e.tp = .CAN_DO ∨ e.tp = .CAN_DO_TIMEOUT) →
      (s1.funcWorker F).isSome = ((s.funcWorker F).isSome || declares e F) := by
    intro w f t h1 hs htp
    rw [hs, (addFuncJobStore_frame (handleCanDo s f w t) f).1, handleCanDo_funcWorker]
    have hd : declares e F = decide (f = F) := by
      unfold declares
      rcases htp with h | h <;> simp [h, h1]
    rw [hd]
    by_cases hF : F = f
    · simp [hF]
    · simp [hF, Ne.symm hF]
  by_cases hc1 : e.tp = .CAN_DO
  · unfold handleProtoEvt at hrun
    simp only [hc1, Cmd.isCtrl, if_false, Bool.false_eq_true] at hrun
    split at hrun
    · rename_i w f h0 h1
      simp only [Option.some.injEq, Prod.mk.injEq] at hrun
      exact hcan w f 0 h1 hrun.1.symm (Or.inl hc1)
    · cases hrun
  · by_cases hc2 : e.tp = .CAN_DO_TIMEOUT
    · unfold handleProtoEvt at hrun
      simp only [hc2, Cmd.isCtrl, if_false, Bool.false_eq_true] at hrun
      split at hrun
      · rename_i w f t h0 h1 h2
        simp only [Option.some.injEq, Prod.mk.injEq] at hrun
        exact hcan w f _ h1 hrun.1.symm (Or.inr hc2)
      · cases hrun
    · have hd : declares e F = false := by
        unfold declares
        simp [hc1, hc2]
      rw [hd, Bool.or_false]
      exact funcWorker_keys_other s s1 e env out
        (handleProtoEvt_other s s1 e env out hc1 hc2 hrun) F

theorem RunLog_reachableFrom (s0 : Server) (log : List Event) (issued : List String)
    (s : Server) (hr : RunLog s0 log issued s) : ReachableFrom s0 issued s := by
  induction hr with
  | start => exact ReachableFrom.start
  | proto e env s1 out _ henv hfresh hstep ih =>
    exact ReachableFrom.proto e env s1 out ih henv hfresh hstep
  | tick now order _ hord ih => exact ReachableFrom.tick now order ih hord

theorem clearTimeoutJob_funcWorker (s : Server) (now : Int) (order : List String) :
    (clearTimeoutJob s now order).1.funcWorker = s.funcWorker :=
  (clearTimeoutFold_frame now order (s, [])).1

/-- The keys of `funcWorker` are the functions declared by a logged `CAN_DO` or
`CAN_DO_TIMEOUT`. -/
theorem RunLog_keys (tryTimes : Int) (heap : Nat → Worker) (log : List Event)
    (issued : List String) (s : Server)
    (hr : RunLog (NewServer tryTimes heap) log issued s) (F : String) :
    (s.funcWorker F).isSome = log.any (fun e => declares e F) := by
  induction hr with
  | start => rfl
  | proto e env s1 out _ _ _ hstep ih =>
    rw [step_funcWorker _ s1 e env out hstep F, ih, List.any_cons, Bool.or_comm]
  | tick now order _ _ ih =>
    rw [clearTimeoutJob_funcWorker]
    exact ih

/-- C11 amended: in every state of a run from `NewServer` whose worker objects start with
an empty `canDo` map, with `log` the events handled so far: `F` is a key of
`funcWorker` if and only if a `CAN_DO` or `CAN_DO_TIMEOUT` for `F` is in the log, and if
and only if `F` is a key of `funcTimeout`; a function that some worker has with
`canDo[F] = true` is a key of `funcWorker`. After any further handler run `F` is a key
exactly if it was a key before or the event is a `CAN_DO` / `CAN_DO_TIMEOUT` for `F`:
no handler run and no timeout sweep removes a key, and a submit does not create one. -/
theorem C11_roster_keys (tryTimes : Int) (heap : Nat → Worker)
    (hfresh : ∀ p, (heap p).canDo = GoMap.empty) (log : List Event) (issued : List String)
    (s : Server) (hr : RunLog (NewServer tryTimes heap) log issued s) (F : String) :
    ((s.funcWorker F).isSome = log.any (fun e => declares e F)) ∧
    ((s.funcWorker F).isSome = (s.funcTimeout F).isSome) ∧
    ((∃ p, (s.heap p).canDo F = some true) → (s.funcWorker F).isSome = true) ∧
    (∀ e env s1 out, handleProtoEvt s e env = some (s1, out) →
      (s1.funcWorker F).isSome = ((s.funcWorker F).isSome || declares e F)) ∧
    (∀ e env s1 out, handleProtoEvt s e env = some (s1, out) →
      (s.funcWorker F).isSome = true → (s1.funcWorker F).isSome = true) ∧
    (∀ now order,
      ((clearTimeoutJob s now order).1.funcWorker F).isSome = (s.funcWorker F).isSome) ∧
    (∀ e env s1 out, isHandledSubmit e.tp = true →
      handleProtoEvt s e env = some (s1, out) →
      (s1.funcWorker F).isSome = (s.funcWorker F).isSome) := by
  have hk := KInv_reachable tryTimes heap hfresh issued s
    (RunLog_reachableFrom _ log issued s hr)
  refine ⟨RunLog_keys tryTimes heap log issued s hr F, hk.keyTimeout F,
    fun ⟨p, hp⟩ => hk.canDoKey p F hp, ?_, ?_, ?_, ?_⟩
  · intro e env s1 out hrun
    exact step_funcWorker s s1 e env out hrun F
  · intro e env s1 out hrun hkey
    rw [step_funcWorker s s1 e env out hrun F, hkey]
    rfl
  · intro now order
    rw [clearTimeoutJob_funcWorker]
  · intro e env s1 out htp hrun
    have hd : declares e F = false := by
      unfold declares
      cases h : e.tp <;> simp [h, isHandledSubmit] at htp ⊢
    rw [step_funcWorker s s1 e env out hrun F, hd, Bool.or_false]

/-- C11 amended at a concrete run: the log of `srvCanDo` holds `CAN_DO "f"`, worker 1 has
`canDo["f"] = true`, and `"f"` is a key of `funcWorker` and of `funcTimeout`. -/
theorem C11_roster_keys_witness :
    (srvCanDo.heap 1).canDo "f" = some true ∧ (srvCanDo.funcWorker "f").isSome = true ∧
    (srvCanDo.funcTimeout "f").isSome = true ∧
    (srvCanDo.funcWorker "g").isSome = false := by
  have hr : RunLog (NewServer 0 heap0) [evCanDo] ["H:1"] srvCanDo :=
    RunLog.proto evCanDo { handle := "H:1" } srvCanDo {} RunLog.start
      (fun h => by cases h) (by simp) rfl
  have hf := C11_roster_keys 0 heap0 (fun _ => rfl) [evCanDo] ["H:1"] srvCanDo hr "f"
  have hg := C11_roster_keys 0 heap0 (fun _ => rfl) [evCanDo] ["H:1"] srvCanDo hr "g"
  refine ⟨rfl, hf.2.2.1 ⟨1, rfl⟩, ?_, ?_⟩
  · rw [← hf.2.1]
    exact hf.2.2.1 ⟨1, rfl⟩
  · rw [hg.1]
    decide

/-! ## Declaring and dropping abilities -/

/-- C12 as stated fails: in `srvCanDo` worker 1 is on the roster of `"f"`, and after its
`RESET_ABILITIES` it is still on that roster with `canDo["f"] = true`. -/
theorem C12_reset_keeps_abilities :
    Reachable ["H:1"] srvCanDo ∧ srvCanDo.worker 1 = some 1 ∧
    (handleProtoEvt srvCanDo evReset {}).map
        (fun r => (r.1.funcWorker "f", (r.1.heap 1).canDo "f")) =
      some (some [1], some true) :=
  ⟨reach_srvCanDo, rfl, rfl⟩

/-- C12 amended: `RESET_ABILITIES` is accepted and ignored. For every broker state, every
argument tuple and sending session, the handler returns the state unchanged (every
roster and every `canDo` map as before) and sends nothing. -/
theorem C12_reset_abilities_ignored (s : Server) (args : Tuple) (sessionId : Int) (env : Env) :
    handleProtoEvt s { tp := .RESET_ABILITIES, args := args, fromSessionId := sessionId } env =
      some (s, { sends := [], replies := [] }) := rfl

theorem addWorker_eq (heap : Nat → Worker) (w : Nat) :
    ∀ l : List Nat, addWorker heap l w =
      if l.any (fun p => decide ((heap p).SessionId = (heap w).SessionId)) = true then l
      else l ++ [w] := by
  intro l
  induction l with
  | nil => simp [addWorker]
  | cons a l ih =>
    unfold addWorker
    by_cases h : (heap a).SessionId = (heap w).SessionId
    · simp [h]
    · simp only [h, if_false, List.any_cons, decide_False, Bool.false_or, ih]
      split <;> simp

theorem handleCanDo_post (s : Server) (f : String) (w : Nat) (t : Int)
    (hnd : (((s.funcWorker f).getD []).map (fun p => (s.heap p).SessionId)).Nodup) :
    ∃ l1, (addFuncJobStore (handleCanDo s f w t) f).1.funcWorker f = some l1 ∧
      l1 = (if ((s.funcWorker f).getD []).any
              (fun p => decide ((s.heap p).SessionId = (s.heap w).SessionId)) = true
            then (s.funcWorker f).getD [] else (s.funcWorker f).getD [] ++ [w]) ∧
      (l1.map (fun p => (s.heap p).SessionId)).count (s.heap w).SessionId = 1 ∧
      (addFuncJobStore (handleCanDo s f w t) f).1.worker (s.heap w).SessionId = some w ∧
      ((addFuncJobStore (handleCanDo s f w t) f).1.heap w).canDo f = some true ∧
      (addFuncJobStore (handleCanDo s f w t) f).1.funcTimeout f = some t ∧
      (addFuncJobStore (handleCanDo s f w t) f).1.jobStores f =
        some ((s.jobStores f).getD []) := by
  obtain ⟨b1, b2, _, b4, _, b6, _, b8, _, _⟩ := addFuncJobStore_frame (handleCanDo s f w t) f
  obtain ⟨_, c2, _, _, c5⟩ := handleCanDo_frame s f w t
  refine ⟨addWorker s.heap ((s.funcWorker f).getD []) w, ?_, addWorker_eq s.heap w _, ?_,
    ?_, ?_, ?_, ?_⟩
  · rw [b1, handleCanDo_funcWorker]
    simp
  · apply List.count_eq_one_of_mem (addWorker_nodup s.heap w _ hnd)
    rw [addWorker_eq]
    by_cases hany : ((s.funcWorker f).getD []).any
        (fun p => decide ((s.heap p).SessionId = (s.heap w).SessionId)) = true
    · rw [if_pos hany]
      obtain ⟨p, hp, hps⟩ := List.any_eq_true.mp hany
      exact List.mem_map.mpr ⟨p, hp, by simpa using hps⟩
    · rw [if_neg hany]
      exact List.mem_map.mpr ⟨w, by simp, rfl⟩
  · rw [b2, handleCanDo_worker]
    simp [GoMap.set]
  · rw [b4, handleCanDo_heap]
    simp [heapSet, GoMap.set]
  · rw [b6, c5]
    simp [GoMap.set]
  · rw [b8, c2]

/-- C13: `CAN_DO` / `CAN_DO_TIMEOUT` carrying worker `w` for function `f`, in a state of
the event loop. Afterwards (1) the roster of `f` holds exactly one entry with `w`'s
session id: it is the old roster if that already had one, and the old roster with `w`
appended otherwise; (2) `worker[w.SessionId] = w`; (3) `w.canDo[f] = true`;
(4) `funcTimeout[f]` is 0 for `CAN_DO` and for `CAN_DO_TIMEOUT` the value `Atoi` parses
(0 when it reports an error); (5) `jobStores[f]` is the old queue, or an empty queue if
there was none. Nothing is sent. -/
theorem C13_can_do (issued : List String) (s : Server) (hr : Reachable issued s)
    (e : Event) (env : Env) (w : Nat) (f : String) (timeout : Int)
    (h0 : e.args.t0 = .worker w) (h1 : e.args.t1 = .str f)
    (hcmd : (e.tp = .CAN_DO ∧ timeout = 0) ∨
      (e.tp = .CAN_DO_TIMEOUT ∧ ∃ t, e.args.t2 = .str t ∧
        timeout = if (atoi t).2 = true then (atoi t).1 else 0)) :
    ∃ (s1 : Server) (l1 : List Nat),
      handleProtoEvt s e env = some (s1, { sends := [], replies := [] }) ∧
      s1.funcWorker f = some l1 ∧
      l1 = (if ((s.funcWorker f).getD []).any
              (fun p => decide ((s.heap p).SessionId = (s.heap w).SessionId)) = true
            then (s.funcWorker f).getD [] else (s.funcWorker f).getD [] ++ [w]) ∧
      (l1.map (fun p => (s.heap p).SessionId)).count (s.heap w).SessionId = 1 ∧
      s1.worker (s.heap w).SessionId = some w ∧
      (s1.heap w).canDo f = some true ∧
      s1.funcTimeout f = some timeout ∧
      s1.jobStores f = some ((s.jobStores f).getD []) := by
  have hw := (reachable_inv issued s hr).1
  have hnd : (((s.funcWorker f).getD []).map (fun p => (s.heap p).SessionId)).Nodup := by
    cases hf : s.funcWorker f with
    | none => simp
    | some l => simpa using hw.rosterNodup f l hf
  have hrun : handleProtoEvt s e env =
      some ((addFuncJobStore (handleCanDo s f w timeout) f).1, { sends := [], replies := [] }) := by
    unfold handleProtoEvt
    rcases hcmd with ⟨htp, ht⟩ | ⟨htp, t, h2, ht⟩
    · simp [htp, Cmd.isCtrl, h0, h1, ht]
    · simp [htp, Cmd.isCtrl, h0, h1, h2, ht]
  obtain ⟨l1, a1, a2, a3, a4, a5, a6, a7⟩ := handleCanDo_post s f w timeout hnd
  exact ⟨_, l1, hrun, a1, a2, a3, a4, a5, a6, a7⟩

/-- C13 at a concrete run: a `CAN_DO_TIMEOUT "f" "1"` repeated by worker 1 in `srvCanDo`
leaves the roster `[1]` and sets `funcTimeout["f"] = 1`. -/
theorem C13_can_do_witness :
    srvCanDo.funcWorker "f" = some [1] ∧
    (handleProtoEvt srvCanDo evCanDoTimeout {}).map
        (fun r => (r.1.funcWorker "f", r.1.funcTimeout "f")) = some (some [1], some 1) := by
  obtain ⟨s1, l1, hrun, a1, a2, _, _, _, a6, _⟩ :=
    C13_can_do ["H:1"] srvCanDo reach_srvCanDo evCanDoTimeout {} 1 "f" 1 rfl rfl
      (Or.inr ⟨rfl, "1", rfl, by decide⟩)
  refine ⟨rfl, ?_⟩
  rw [hrun]
  simp only [Option.map_some', a1, a6, a2]
  rfl

theorem removeWorker_eq_filter (heap : Nat → Worker) (sid : Int) :
    ∀ l : List Nat, (l.map (fun p => (heap p).SessionId)).Nodup →
      removeWorker heap l sid = l.filter (fun p => decide ((heap p).SessionId ≠ sid)) := by
  intro l
  induction l with
  | nil => intro _; rfl
  | cons a l ih =>
    intro hnd
    rw [List.map_cons, List.nodup_cons] at hnd
    unfold removeWorker
    by_cases h : (heap a).SessionId = sid
    · simp only [h, if_true, ne_eq, not_true_eq_false, decide_False, Bool.false_eq_true,
        not_false_eq_true, List.filter_cons_of_neg]
      symm
      apply List.filter_eq_self.mpr
      intro p hp
      have hne : (heap p).SessionId ≠ sid := by
        intro hps
        apply hnd.1
        rw [h, ← hps]
        exact List.mem_map_of_mem _ hp
      simpa using hne
    · simp only [h, if_false]
      rw [ih hnd.2]
      simp [List.filter_cons, h]

/-- C14: `CANT_DO` for function `f` from a session `S` registered in `worker`, in a state
of the event loop. Afterwards the roster of `f` is the old roster without the entries of
session `S`, the others in their order; the worker object `worker[S]` has no `canDo[f]`
and all its other fields and `canDo` entries as before; every other worker object, every
other roster, and `worker` (so `S` is still a key), `client`, `jobStores`, `workJobs`
and `funcTimeout` are unchanged. Nothing is sent. -/
theorem C14_cant_do (issued : List String) (s : Server) (hr : Reachable issued s)
    (e : Event) (env : Env) (w : Nat) (f : String)
    (htp : e.tp = .CANT_DO) (h0 : e.args.t0 = .str f)
    (hw : s.worker e.fromSessionId = some w) :
    ∃ s1 : Server,
      handleProtoEvt s e env = some (s1, { sends := [], replies := [] }) ∧
      s1.funcWorker f = (s.funcWorker f).map
        (fun l => l.filter (fun p => decide ((s.heap p).SessionId ≠ e.fromSessionId))) ∧
      (∀ g, g ≠ f → s1.funcWorker g = s.funcWorker g) ∧
      s1.heap w = { s.heap w with canDo := (s.heap w).canDo.del f } ∧
      (s1.heap w).canDo f = none ∧
      (∀ g, g ≠ f → (s1.heap w).canDo g = (s.heap w).canDo g) ∧
      (∀ p, p ≠ w → s1.heap p = s.heap p) ∧
      s1.worker = s.worker ∧ s1.worker e.fromSessionId = some w ∧
      s1.client = s.client ∧ s1.jobStores = s.jobStores ∧ s1.workJobs = s.workJobs ∧
      s1.funcTimeout = s.funcTimeout := by
  have hinv := (reachable_inv issued s hr).1
  cases hrc : removeCanDo s f e.fromSessionId with
  | none =>
    unfold removeCanDo at hrc
    cases hf : s.funcWorker f <;> simp [hf, hw] at hrc
  | some s1 =>
    obtain ⟨w1, hw1, a2, a3, a4, a5, a6, _, a8, a9⟩ := removeCanDo_eq s s1 f _ hrc
    have hww : w1 = w := by
      rw [hw] at hw1
      exact (Option.some.inj hw1).symm
    subst hww
    have hrun : handleProtoEvt s e env = some (s1, { sends := [], replies := [] }) := by
      unfold handleProtoEvt
      simp [htp, Cmd.isCtrl, h0, hrc]
    refine ⟨s1, hrun, ?_, ?_, ?_, ?_, ?_, ?_, a2, by rw [a2]; exact hw, a3, a4, a5, a6⟩
    · rw [a9]
      simp only [if_true]
      cases hf : s.funcWorker f with
      | none => rfl
      | some l =>
        simp only [Option.map_some']
        rw [removeWorker_eq_filter s.heap _ l (hinv.rosterNodup f l hf)]
    · intro g hg
      rw [a9]
      simp [hg]
    · rw [a8]
      simp [heapSet]
    · rw [a8]
      simp [heapSet, GoMap.del]
    · intro g hg
      rw [a8]
      simp [heapSet, GoMap.del, hg]
    · intro p hp
      rw [a8]
      simp [heapSet, hp]

/-- C14 at a concrete run: `CANT_DO "f"` from session 1 in `srvCanDo` empties the roster
of `"f"` and leaves session 1 in the worker table. -/
theorem C14_cant_do_witness :
    srvCanDo.funcWorker "f" = some [1] ∧
    (handleProtoEvt srvCanDo evCantDo {}).map
        (fun r => (r.1.funcWorker "f", r.1.worker 1, (r.1.heap 1).canDo "f")) =
      some (some [], some 1, none) := by
  obtain ⟨s1, hrun, a1, _, _, a4, _, _, _, a8, _⟩ :=
    C14_cant_do ["H:1"] srvCanDo reach_srvCanDo evCantDo {} 1 "f" rfl rfl rfl
  refine ⟨rfl, ?_⟩
  rw [hrun]
  simp only [Option.map_some', a1, a4]
  rw [show s1.worker 1 = some 1 from a8]
  rfl

/-! ## Going to sleep -/

theorem preSleepLoop_none (s : Server) (w : Nat) (canDo : GoMap String Bool) :
    ∀ order : List String,
      (∀ f ∈ order, canDo f = some true → ∀ q, s.jobStores f = some q → q = []) →
      preSleepLoop s w canDo order = [] := by
  intro order
  induction order with
  | nil => intro _; rfl
  | cons f rest ih =>
    intro hall
    have ihr := ih (fun g hg => hall g (List.mem_cons_of_mem f hg))
    unfold preSleepLoop
    cases hc : canDo f with
    | none => simpa using ihr
    | some b =>
      cases b with
      | false => simpa using ihr
      | true =>
        cases hq : s.jobStores f with
        | none => simpa [wakeupWorker, hq] using ihr
        | some q =>
          have hnil : q = [] := hall f (List.mem_cons_self f rest) hc q hq
          subst hnil
          simpa [wakeupWorker, hq] using ihr

theorem preSleepLoop_some (s : Server) (w : Nat) (canDo : GoMap String Bool) :
    ∀ order : List String,
      (∃ f ∈ order, canDo f = some true ∧ ∃ q, s.jobStores f = some q ∧ q ≠ []) →
      preSleepLoop s w canDo order = [noopTo s w] := by
  intro order
  induction order with
  | nil =>
    rintro ⟨f, hf, _⟩
    cases hf
  | cons f rest ih =>
    intro hex
    have hrest : (¬ (canDo f = some true ∧ ∃ q, s.jobStores f = some q ∧ q ≠ [])) →
        ∃ g ∈ rest, canDo g = some true ∧ ∃ q, s.jobStores g = some q ∧ q ≠ [] := by
      intro hno
      obtain ⟨g, hg, hgc⟩ := hex
      rcases List.mem_cons.mp hg with rfl | hg1
      · exact absurd hgc hno
      · exact ⟨g, hg1, hgc⟩
    unfold preSleepLoop
    cases hc : canDo f with
    | none => simpa using ih (hrest (by simp [hc]))
    | some b =>
      cases b with
      | false => simpa using ih (hrest (by simp [hc]))
      | true =>
        cases hq : s.jobStores f with
        | none => simpa [wakeupWorker, hq] using ih (hrest (by simp [hq]))
        | some q =>
          cases q with
          | nil => simpa [wakeupWorker, hq] using ih (hrest (by simp [hq]))
          | cons j0 q1 => simp [wakeupWorker, hq, noopTo]

/-- C15: `PRE_SLEEP` from a session registered in `worker`, for any order in which the
range visits the worker's `canDo` map. The worker's status becomes `Sleep` and nothing
else in the broker changes; exactly one NOOP is pushed, to that worker, if some
function with `canDo[f] = true` has a non-empty queue, and no packet at all otherwise;
nothing is sent on the reply channel. -/
theorem C15_pre_sleep (s : Server) (e : Event) (env : Env) (w : Nat)
    (htp : e.tp = .PRE_SLEEP) (hw : s.worker e.fromSessionId = some w)
    (hord : RangeOf (s.heap w).canDo env.order) :
    ∃ (s1 : Server) (out : Out), handleProtoEvt s e env = some (s1, out) ∧
      out.replies = [] ∧
      (Servable s w → out.sends = [((s.heap w).SessionId, wakeupReply)]) ∧
      (¬ Servable s w → out.sends = []) ∧
      out.sends.length ≤ 1 ∧
      s1.heap w = { s.heap w with status := .wsSleep } ∧
      (∀ p, p ≠ w → s1.heap p = s.heap p) ∧
      s1.funcWorker = s.funcWorker ∧ s1.worker = s.worker ∧ s1.client = s.client ∧
      s1.workJobs = s.workJobs ∧ s1.funcTimeout = s.funcTimeout ∧
      s1.jobStores = s.jobStores ∧ s1.tryTimes = s.tryTimes := by
  have hrun : handleProtoEvt s e env = some (setStatus s w .wsSleep,
      { sends := preSleepLoop (setStatus s w .wsSleep) w (s.heap w).canDo env.order,
        replies := [] }) := by
    unfold handleProtoEvt handlePreSleep
    simp [htp, Cmd.isCtrl, hw, setStatus, heapSet]
  have hframe : (setStatus s w .wsSleep).heap w = { s.heap w with status := .wsSleep } ∧
      (∀ p, p ≠ w → (setStatus s w .wsSleep).heap p = s.heap p) := by
    constructor
    · simp [setStatus, heapSet]
    · intro p hp
      simp [setStatus, heapSet, hp]
  have hnoop : noopTo (setStatus s w .wsSleep) w = ((s.heap w).SessionId, wakeupReply) := by
    simp [noopTo, setStatus, heapSet]
  by_cases hserv : Servable s w
  · obtain ⟨f, q, hc, hq, hne⟩ := hserv
    have hmem : f ∈ env.order := (hord.2 f).mpr (by simp [hc])
    have hloop := preSleepLoop_some (setStatus s w .wsSleep) w (s.heap w).canDo env.order
      ⟨f, hmem, hc, q, hq, hne⟩
    rw [hnoop] at hloop
    refine ⟨_, _, hrun, rfl, ?_, ?_, ?_, hframe.1, hframe.2, rfl, rfl, rfl, rfl, rfl, rfl, rfl⟩
    · intro _
      exact hloop
    · intro hno
      exact absurd ⟨f, q, hc, hq, hne⟩ hno
    · show (preSleepLoop _ w _ env.order).length ≤ 1
      rw [hloop]
      simp
  · have hloop := preSleepLoop_none (setStatus s w .wsSleep) w (s.heap w).canDo env.order (by
      intro f _ hc q hq
      by_contra hne
      exact hserv ⟨f, q, hc, hq, hne⟩)
    refine ⟨_, _, hrun, rfl, ?_, ?_, ?_, hframe.1, hframe.2, rfl, rfl, rfl, rfl, rfl, rfl, rfl⟩
    · intro h
      exact absurd h hserv
    · intro _
      exact hloop
    · show (preSleepLoop _ w _ env.order).length ≤ 1
      rw [hloop]
      simp

/-- C15 at a concrete input: worker 1 declared `"f"`, whose queue holds a job; its
`PRE_SLEEP` sends one NOOP to session 1. -/
theorem C15_pre_sleep_witness :
    (handleProtoEvt srvOneQueued evPreSleep { order := ["f"] }).map (fun r => r.2.sends) =
      some [(1, wakeupReply)] := by
  have hserv : Servable srvOneQueued 1 :=
    ⟨"f", [mkJob "H:1" "f" 7 100 0 false], by decide, by decide, by decide⟩
  obtain ⟨s1, out, hrun, _, hsome, _⟩ :=
    C15_pre_sleep srvOneQueued evPreSleep { order := ["f"] } 1 rfl rfl
      ⟨by decide, by
        intro k
        simp only [srvOneQueued, NewServer, heapSet, heap0]
        by_cases hk : k = "f" <;> simp [hk, GoMap.set, GoMap.empty]⟩
  rw [hrun]
  simp only [Option.map_some', hsome hserv]
  rfl

/-! ## Submitting a job -/

theorem handleProtoEvt_submit (s : Server) (e : Event) (env : Env)
    (htp : isHandledSubmit e.tp = true) : handleProtoEvt s e env = handleSubmitJob s e env := by
  unfold handleProtoEvt
  cases h : e.tp <;> simp [h, isHandledSubmit, Cmd.isCtrl] at htp ⊢

/-- What a dispatched submit does to the tables, and what it replies. -/
theorem handleSubmitJob_post (s : Server) (e : Event) (env : Env) (c : Client)
    (f id data : String) (h0 : e.args.t0 = .client c) (h1 : e.args.t1 = .str f)
    (h2 : e.args.t2 = .str id) (h3 : e.args.t3 = .bytes data) :
    ∃ (s1 : Server) (out : Out) (q1 : List Job),
      handleSubmitJob s e env = some (s1, out) ∧
      s1.client c.SessionId = some c ∧
      s1.jobStores f = some q1 ∧
      q1.Perm ({ submittedJob s e.tp env c f id data with ProcessBy := 0 } ::
        (s.jobStores f).getD []) ∧
      q1.length = ((s.jobStores f).getD []).length + 1 ∧
      { submittedJob s e.tp env c f id data with ProcessBy := 0 } ∈ q1 ∧
      out.replies = [Reply.handle env.handle] ∧
      s1.workJobs = s.workJobs := by
  rw [handleSubmitJob_eq s e env c f id data h0 h1 h2 h3, doAddJob_state]
  have hperm := PushJob_perm ((s.jobStores f).getD [])
    { submittedJob s e.tp env c f id data with ProcessBy := 0 }
  refine ⟨_, _, PushJob ((s.jobStores f).getD [])
    { submittedJob s e.tp env c f id data with ProcessBy := 0 }, rfl, ?_, ?_, hperm, ?_, ?_,
    rfl, rfl⟩
  · simp [GoMap.set]
  · simp [GoMap.set, submittedJob]
  · rw [hperm.length_eq]
    simp
  · rw [hperm.mem_iff]
    exact List.mem_cons_self _ _

/-- C16: `SUBMIT_JOB` / `SUBMIT_JOB_LOW` / `SUBMIT_JOB_LOW_BG` from client `c` for
function `f`, in every broker state. Afterwards `client[c.SessionId] = c`; `jobStores`
has a queue for `f` that holds the new job next to the jobs it held before, one job
longer than before (an absent queue counting as empty); the new job has `FuncName = f`,
`CreateBy = c.SessionId`, `ProcessBy = 0`, and `TimeoutSec = funcTimeout[f]` if present
and 0 otherwise; the reply is the new job's handle; `workJobs` is unchanged. -/
theorem C16_submit_job (s : Server) (e : Event) (env : Env) (c : Client)
    (f id data : String) (htp : isHandledSubmit e.tp = true)
    (h0 : e.args.t0 = .client c) (h1 : e.args.t1 = .str f)
    (h2 : e.args.t2 = .str id) (h3 : e.args.t3 = .bytes data) :
    ∃ (s1 : Server) (out : Out) (q1 : List Job) (J : Job),
      handleProtoEvt s e env = some (s1, out) ∧
      s1.client c.SessionId = some c ∧
      s1.jobStores f = some q1 ∧ J ∈ q1 ∧ q1.Perm (J :: (s.jobStores f).getD []) ∧
      q1.length = ((s.jobStores f).getD []).length + 1 ∧
      J.FuncName = f ∧ J.CreateBy = c.SessionId ∧ J.ProcessBy = 0 ∧
      J.TimeoutSec = (s.funcTimeout f).getD 0 ∧
      out.replies = [Reply.handle J.Handle] ∧
      s1.workJobs = s.workJobs := by
  obtain ⟨s1, out, q1, hrun, a1, a2, a3, a4, a5, a6, a7⟩ :=
    handleSubmitJob_post s e env c f id data h0 h1 h2 h3
  rw [handleProtoEvt_submit s e env htp]
  exact ⟨s1, out, q1, _, hrun, a1, a2, a5, a3, a4, rfl, rfl, rfl, rfl, a6, a7⟩

/-- C16 at a concrete input: `SUBMIT_JOB "f"` from client 1 in `srvCanDo` is answered
with the offered handle. -/
theorem C16_submit_job_witness :
    ∃ (s1 : Server) (out : Out) (q1 : List Job),
      handleProtoEvt srvCanDo evSubmit { handle := "H:2", now := 100 } = some (s1, out) ∧
      s1.client 1 = some ⟨1⟩ ∧ s1.jobStores "f" = some q1 ∧ q1.length = 1 ∧
      s1.workJobs = srvCanDo.workJobs := by
  obtain ⟨s1, out, q1, J, hrun, a1, a2, _, _, a5, _, _, _, _, _, a11⟩ :=
    C16_submit_job srvCanDo evSubmit { handle := "H:2", now := 100 } ⟨1⟩ "f" "u1" "hello"
      rfl rfl rfl rfl rfl
  exact ⟨s1, out, q1, hrun, a1, a2, a5, a11⟩

/-- C17 as stated fails: `SUBMIT_JOB_HIGH` falls into the `default` case of
`handleProtoEvt`: no queue is created, no job is queued and nothing is replied. -/
theorem C17_submit_high_not_handled :
    (handleProtoEvt (NewServer 0 heap0) evSubmitHigh { handle := "H:1" }).map
      (fun r => (r.1.jobStores "f", r.2.replies)) = some (none, []) := rfl

/-- C17 amended: `SUBMIT_JOB`, `SUBMIT_JOB_LOW` and `SUBMIT_JOB_LOW_BG` queue a new job in
`jobStores[funcName]` and reply with its handle; `SUBMIT_JOB_BG`, `SUBMIT_JOB_HIGH` and
`SUBMIT_JOB_HIGH_BG` are not supported: the state is unchanged and nothing is replied
or sent. -/
theorem C17_submit_commands (s : Server) (e : Event) (env : Env) (c : Client)
    (f id data : String)
    (h0 : e.args.t0 = .client c) (h1 : e.args.t1 = .str f)
    (h2 : e.args.t2 = .str id) (h3 : e.args.t3 = .bytes data) :
    (isHandledSubmit e.tp = true →
      ∃ (s1 : Server) (out : Out) (q1 : List Job) (J : Job),
        handleProtoEvt s e env = some (s1, out) ∧
        s1.jobStores f = some q1 ∧ J ∈ q1 ∧ q1.Perm (J :: (s.jobStores f).getD []) ∧
        J.Handle = env.handle ∧ out.replies = [Reply.handle J.Handle]) ∧
    (isUnhandledSubmit e.tp = true →
      handleProtoEvt s e env = some (s, { sends := [], replies := [] })) := by
  constructor
  · intro htp
    obtain ⟨s1, out, q1, hrun, _, a2, a3, _, a5, a6, _⟩ :=
      handleSubmitJob_post s e env c f id data h0 h1 h2 h3
    rw [handleProtoEvt_submit s e env htp]
    exact ⟨s1, out, q1, _, hrun, a2, a5, a3, rfl, a6⟩
  · intro htp
    unfold handleProtoEvt
    cases h : e.tp <;> simp [h, isUnhandledSubmit, Cmd.isCtrl] at htp ⊢

/-- C17 amended at a concrete input: `SUBMIT_JOB "f"` on the empty broker queues one job
and replies with its handle. -/
theorem C17_submit_commands_witness :
    ∃ (s1 : Server) (out : Out) (q1 : List Job) (J : Job),
      handleProtoEvt (NewServer 0 heap0) evSubmit { handle := "H:1", now := 100 } =
        some (s1, out) ∧
      s1.jobStores "f" = some q1 ∧ J ∈ q1 ∧ J.Handle = "H:1" ∧
      out.replies = [Reply.handle "H:1"] := by
  obtain ⟨s1, out, q1, J, hrun, a2, a3, _, a5, a6⟩ :=
    (C17_submit_commands (NewServer 0 heap0) evSubmit { handle := "H:1", now := 100 } ⟨1⟩
      "f" "u1" "hello" rfl rfl rfl rfl).1 rfl
  exact ⟨s1, out, q1, J, hrun, a2, a3, a5, by rw [a6, a5]⟩

/-! ## What the sweep leaves alone -/

theorem clearTimeoutStep_skip (now : Int) (acc : Server × List (Int × Packet)) (k : String)
    (j : Job) (hk : acc.1.workJobs k = some j) (h0 : j.TimeoutSec = 0) :
    clearTimeoutStep now acc k = acc := by
  unfold clearTimeoutStep
  simp [hk, h0]

theorem clearTimeoutStep_other (now : Int) (acc : Server × List (Int × Packet))
    (x k : String) (hx : x ≠ k) :
    (clearTimeoutStep now acc x).1.workJobs k = acc.1.workJobs k := by
  rcases clearTimeoutStep_cases now acc x with heq | heq
  · rw [heq]
  · rw [heq]
    show (acc.1.workJobs.del x) k = acc.1.workJobs k
    simp [GoMap.del, Ne.symm hx]

theorem clearTimeoutFold_skip (now : Int) (k : String) (j : Job) (h0 : j.TimeoutSec = 0) :
    ∀ (order : List String) (acc : Server × List (Int × Packet)),
      acc.1.workJobs k = some j →
      (order.foldl (clearTimeoutStep now) acc).1.workJobs k = some j ∧
      order.foldl (clearTimeoutStep now) acc =
        (order.filter (fun x => decide (x ≠ k))).foldl (clearTimeoutStep now) acc := by
  intro order
  induction order with
  | nil => intro acc hk; exact ⟨hk, rfl⟩
  | cons x rest ih =>
    intro acc hk
    by_cases hx : x = k
    · subst hx
      simp only [List.foldl_cons, clearTimeoutStep_skip now acc x j hk h0]
      have hf : List.filter (fun y => decide (y ≠ x)) (x :: rest) =
          List.filter (fun y => decide (y ≠ x)) rest := by
        simp [List.filter_cons]
      rw [hf]
      exact ih acc hk
    · have hk1 : (clearTimeoutStep now acc x).1.workJobs k = some j := by
        rw [clearTimeoutStep_other now acc x k hx]
        exact hk
      have hf : List.filter (fun y => decide (y ≠ k)) (x :: rest) =
          x :: List.filter (fun y => decide (y ≠ k)) rest := by
        simp [List.filter_cons, hx]
      rw [hf]
      simp only [List.foldl_cons]
      exact ih _ hk1

/-- One sweep step reads only `workJobs` and `client`. -/
theorem clearTimeoutStep_congr (now : Int) (a b : Server × List (Int × Packet)) (k : String)
    (hw : a.1.workJobs = b.1.workJobs) (hc : a.1.client = b.1.client) (hs : a.2 = b.2) :
    (clearTimeoutStep now a k).1.workJobs = (clearTimeoutStep now b k).1.workJobs ∧
    (clearTimeoutStep now a k).1.client = (clearTimeoutStep now b k).1.client ∧
    (clearTimeoutStep now a k).2 = (clearTimeoutStep now b k).2 := by
  unfold clearTimeoutStep
  rw [hw, hc, hs]
  cases hj : b.1.workJobs k with
  | none => exact ⟨hw, hc, hs⟩
  | some j =>
    by_cases ht : j.TimeoutSec > 0
    · by_cases hd : wrap64 (j.CreateAt + j.TimeoutSec) > now
      · simp [ht, hd, hw, hc]
      · simp [ht, hd, hw, hc, hs]
    · simp [ht, hw, hc, hs]

theorem clearTimeoutFold_congr (now : Int) :
    ∀ (order : List String) (a b : Server × List (Int × Packet)),
      a.1.workJobs = b.1.workJobs → a.1.client = b.1.client → a.2 = b.2 →
      (order.foldl (clearTimeoutStep now) a).2 = (order.foldl (clearTimeoutStep now) b).2 := by
  intro order
  induction order with
  | nil => intro a b _ _ hs; exact hs
  | cons k rest ih =>
    intro a b hw hc hs
    obtain ⟨h1, h2, h3⟩ := clearTimeoutStep_congr now a b k hw hc hs
    simp only [List.foldl_cons]
    exact ih _ _ h1 h2 h3

theorem reach_srvSlow : Reachable ["H:2", "H:1"] srvSlow :=
  Reachable.proto evSubmit { handle := "H:2", now := 100 } srvSlow
    (outEvt (runEvt (NewServer 0 heap0) evCanDoTimeout { handle := "H:1" }) evSubmit
      { handle := "H:2", now := 100 })
    (Reachable.proto evCanDoTimeout { handle := "H:1" }
      (runEvt (NewServer 0 heap0) evCanDoTimeout { handle := "H:1" }) {}
      (Reachable.init 0 heap0) (fun h => by cases h) (by simp) rfl)
    (fun h => by cases h) (by decide) rfl

/-- C18 as stated fails: after `CAN_DO_TIMEOUT "f" "1"` and a `SUBMIT_JOB "f"` at time 100
nobody grabs the job; it waits in the queue of `"f"` with `TimeoutSec = 1` and its
client is connected. A sweep at time 200 (and one at time 100) visits no job, sends no
packet and leaves the job in its queue. -/
theorem C18_queued_job_not_swept :
    Reachable ["H:2", "H:1"] srvSlow ∧
    (∃ j, srvSlow.jobStores "f" = some [j] ∧ j.TimeoutSec = 1 ∧ j.CreateAt = 100 ∧
      srvSlow.client j.CreateBy = some ⟨1⟩) ∧
    RangeOf srvSlow.workJobs [] ∧
    (clearTimeoutJob srvSlow 200 []).2 = [] ∧
    (clearTimeoutJob srvSlow 100 []).2 = [] ∧
    (clearTimeoutJob srvSlow 200 []).1.jobStores "f" = srvSlow.jobStores "f" :=
  ⟨reach_srvSlow, ⟨_, rfl, rfl, rfl, rfl⟩, ⟨List.nodup_nil, fun k => by
    constructor
    · intro h
      cases h
    · intro h
      cases h⟩, rfl, rfl, rfl⟩

/-- C18 amended: a submitted job that no worker grabs waits in its queue and is outside
the sweep. In every state of the event loop, for a job `j` in a queue and a sweep at any
wall-clock time in any visiting order: `j` is not in `workJobs` before or after, every
queue is unchanged (so `j` is still queued), and the packets of the sweep are those of
the same sweep on the broker without any queue, so none is sent on account of `j`. -/
theorem C18_queued_job_outside_sweep (issued : List String) (s : Server)
    (hr : Reachable issued s) (f : String) (q : List Job) (j : Job)
    (hq : s.jobStores f = some q) (hj : j ∈ q) (now : Int) (order : List String) :
    s.workJobs j.Handle = none ∧
    (clearTimeoutJob s now order).1.workJobs j.Handle = none ∧
    (clearTimeoutJob s now order).1.jobStores = s.jobStores ∧
    (clearTimeoutJob s now order).2 =
      (clearTimeoutJob { s with jobStores := GoMap.empty } now order).2 := by
  have hnone := (reachable_inv issued s hr).2.queueWork f q j hq hj
  obtain ⟨_, _, _, _, a5, _, _, a8⟩ := clearTimeoutFold_frame now order (s, [])
  refine ⟨hnone, ?_, a5, ?_⟩
  · cases hc : (clearTimeoutJob s now order).1.workJobs j.Handle with
    | none => rfl
    | some x =>
      have hold := a8 j.Handle x hc
      rw [show (s, ([] : List (Int × Packet))).1.workJobs j.Handle = s.workJobs j.Handle
        from rfl, hnone] at hold
      cases hold
  · exact clearTimeoutFold_congr now order (s, []) ({ s with jobStores := GoMap.empty }, [])
      rfl rfl rfl

/-- C18 amended at a concrete run: in `srvTwoJobs` job `"H:4"` is queued; a sweep at time
105 leaves it queued and outside `workJobs`. -/
theorem C18_queued_job_outside_sweep_witness :
    ∃ J : Job, srvTwoJobs.jobStores "f" = some [J] ∧ J.Handle = "H:4" ∧
      (clearTimeoutJob srvTwoJobs 105 ["H:2"]).1.workJobs "H:4" = none ∧
      (clearTimeoutJob srvTwoJobs 105 ["H:2"]).1.jobStores "f" = some [J] := by
  have h := C18_queued_job_outside_sweep _ srvTwoJobs reach_srvTwoJobs "f" _
    { submittedJob srvGrabbed .SUBMIT_JOB { handle := "H:4", now := 102 } ⟨1⟩ "f" "u1" "hello"
      with ProcessBy := 0 } rfl (List.mem_singleton.mpr rfl) 105 ["H:2"]
  exact ⟨_, rfl, rfl, h.2.1, by rw [h.2.2.1]; rfl⟩

/-- C19: a job in `workJobs` with `TimeoutSec = 0` is still in `workJobs` after
`clearTimeoutJob`, for every broker state, wall-clock time and visiting order, and the
sweep sends and does exactly what it would when it skips that job's key: no packet is
sent on its account. -/
theorem C19_no_timeout_never_swept (s : Server) (now : Int) (order : List String)
    (k : String) (j : Job) (hk : s.workJobs k = some j) (h0 : j.TimeoutSec = 0) :
    (clearTimeoutJob s now order).1.workJobs k = some j ∧
    clearTimeoutJob s now order =
      clearTimeoutJob s now (order.filter (fun x => decide (x ≠ k))) :=
  clearTimeoutFold_skip now k j h0 order (s, []) hk

/-- C19 at a concrete input: in a sweep at time 105 that removes job `"H:2"`, job `"H:1"`
with `TimeoutSec = 0` stays in `workJobs`. -/
theorem C19_no_timeout_never_swept_witness :
    (clearTimeoutJob srvTwoWorking 105 ["H:1", "H:2"]).1.workJobs "H:2" = none ∧
    (clearTimeoutJob srvTwoWorking 105 ["H:1", "H:2"]).1.workJobs "H:1" =
      some (mkJob "H:1" "f" 7 100 0 false) :=
  ⟨by decide, (C19_no_timeout_never_swept srvTwoWorking 105 ["H:1", "H:2"] "H:1"
    (mkJob "H:1" "f" 7 100 0 false) (by decide) rfl).1⟩

/-! ## The two-function scenario -/

theorem grab_found (s : Server) (e : Event) (env : Env) (w : Nat)
    (htp : e.tp = .GRAB_JOB ∨ e.tp = .GRAB_JOB_UNIQ)
    (hw : s.worker e.fromSessionId = some w)
    (hord : RangeOf (s.heap w).canDo env.order) (hserv : Servable s w) :
    ∃ (s1 : Server) (f : String) (j0 : Job) (q : List Job),
      (s.heap w).canDo f = some true ∧ s.jobStores f = some (j0 :: q) ∧
      handleProtoEvt s e env = some (s1,
        { sends := [], replies := [Reply.job (stampJob j0 env.now e.fromSessionId)] }) ∧
      s1.jobStores = s.jobStores.set f q ∧
      s1.workJobs = s.workJobs.set j0.Handle (stampJob j0 env.now e.fromSessionId) ∧
      s1.worker = s.worker ∧ (s1.heap w).canDo = (s.heap w).canDo := by
  have hdisp : handleProtoEvt s e env = handleGrabJob s e env := by
    unfold handleProtoEvt
    rcases htp with h | h <;> simp [h, Cmd.isCtrl]
  obtain ⟨f, q, hc, hq, hne⟩ := hserv
  have hmem : f ∈ env.order := (hord.2 f).mpr (by simp [hc])
  obtain ⟨g, j0, q1, hgc, hgq, hpop⟩ :=
    popJobLoop_some (setStatus s w .wsRunning) (s.heap w).canDo env.order
      ⟨f, hmem, hc, q, hq, hne⟩
  rw [hdisp, handleGrabJob_eq s e env w hw, hpop]
  exact ⟨_, g, j0, q1, hgc, hgq, rfl, rfl, rfl, rfl, (setStatus_frame s w _).2 w⟩

theorem grab_nothing (s : Server) (e : Event) (env : Env) (w : Nat)
    (htp : e.tp = .GRAB_JOB ∨ e.tp = .GRAB_JOB_UNIQ)
    (hw : s.worker e.fromSessionId = some w) (hserv : ¬ Servable s w) :
    ∃ s1 : Server,
      handleProtoEvt s e env = some (s1, { sends := [], replies := [Reply.nil] }) ∧
      (s1.heap w).status = .wsPrepareForSleep ∧ s1.workJobs = s.workJobs ∧
      s1.jobStores = s.jobStores := by
  have hdisp : handleProtoEvt s e env = handleGrabJob s e env := by
    unfold handleProtoEvt
    rcases htp with h | h <;> simp [h, Cmd.isCtrl]
  have hnone := popJobLoop_none (setStatus s w .wsRunning) (s.heap w).canDo env.order (by
    intro f _ hc q hq
    by_contra hne
    exact hserv ⟨f, q, hc, hq, hne⟩)
  rw [hdisp, handleGrabJob_eq s e env w hw, hnone]
  exact ⟨_, rfl, by simp [setStatus, heapSet], rfl, rfl⟩

/-- A grab in the two-queue situation takes the head of one of the two queues, or finds
both empty. -/
theorem grab_two (s : Server) (env : Env) (w : Nat) (sid : Int) (qa qb : List Job)
    (h : TwoQueues s w sid qa qb) (hord : RangeOf (s.heap w).canDo env.order) :
    (qa = [] → qb = [] →
      ∃ s1 : Server,
        handleProtoEvt s (evGrabFrom sid) env =
          some (s1, { sends := [], replies := [Reply.nil] }) ∧
        (s1.heap w).status = .wsPrepareForSleep ∧ s1.workJobs = s.workJobs) ∧
    ((qa ≠ [] ∨ qb ≠ []) →
      ∃ (s1 : Server) (j0 : Job),
        handleProtoEvt s (evGrabFrom sid) env =
          some (s1, { sends := [], replies := [Reply.job (stampJob j0 env.now sid)] }) ∧
        s1.workJobs = s.workJobs.set j0.Handle (stampJob j0 env.now sid) ∧
        (s1.heap w).canDo = (s.heap w).canDo ∧
        ((∃ qa1, qa = j0 :: qa1 ∧ TwoQueues s1 w sid qa1 qb) ∨
          (∃ qb1, qb = j0 :: qb1 ∧ TwoQueues s1 w sid qa qb1))) := by
  constructor
  · intro ha hb
    have hno : ¬ Servable s w := by
      rintro ⟨f, q, _, hq, hne⟩
      by_cases hfa : f = "a"
      · rw [hfa, h.hqa, ha] at hq
        exact hne (Option.some.inj hq).symm
      · by_cases hfb : f = "b"
        · rw [hfb, h.hqb, hb] at hq
          exact hne (Option.some.inj hq).symm
        · rw [h.others f hfa hfb] at hq
          cases hq
    obtain ⟨s1, hrun, hst, hwj, _⟩ :=
      grab_nothing s (evGrabFrom sid) env w (Or.inl rfl) h.hworker hno
    exact ⟨s1, hrun, hst, hwj⟩
  · intro hne
    have hserv : Servable s w := by
      rcases hne with hne | hne
      · exact ⟨"a", qa, h.ha, h.hqa, hne⟩
      · exact ⟨"b", qb, h.hb, h.hqb, hne⟩
    obtain ⟨s1, f, j0, q, _, hq, hrun, hjs, hwj, hwk, hcd⟩ :=
      grab_found s (evGrabFrom sid) env w (Or.inl rfl) h.hworker hord hserv
    refine ⟨s1, j0, hrun, hwj, hcd, ?_⟩
    by_cases hfa : f = "a"
    · left
      rw [hfa, h.hqa] at hq
      refine ⟨q, Option.some.inj hq, ?_⟩
      constructor
      · rw [hwk]; exact h.hworker
      · rw [hcd]; exact h.ha
      · rw [hcd]; exact h.hb
      · rw [hjs, hfa]; simp [GoMap.set]
      · rw [hjs, hfa]; simp [GoMap.set, h.hqb]
      · intro g hga hgb
        rw [hjs, hfa]
        simp [GoMap.set, hga, h.others g hga hgb]
    · by_cases hfb : f = "b"
      · right
        rw [hfb, h.hqb] at hq
        refine ⟨q, Option.some.inj hq, ?_⟩
        constructor
        · rw [hwk]; exact h.hworker
        · rw [hcd]; exact h.ha
        · rw [hcd]; exact h.hb
        · rw [hjs, hfb]; simp [GoMap.set, h.hqa]
        · rw [hjs, hfb]; simp [GoMap.set]
        · intro g hga hgb
          rw [hjs, hfb]
          simp [GoMap.set, hgb, h.others g hga hgb]
      · rw [h.others f hfa hfb] at hq
        cases hq

theorem scenarioAB_state (tryTimes : Int) (heap : Nat → Worker) (w : Nat) (c1 c2 : Client)
    (envA envB : Env) :
      TwoQueues (scenarioAB tryTimes heap w c1 c2 envA envB) w (heap w).SessionId
        [scenarioJob envA c1 "a"] [scenarioJob envB c2 "b"] ∧
      (scenarioAB tryTimes heap w c1 c2 envA envB).workJobs = GoMap.empty ∧
      ((scenarioAB tryTimes heap w c1 c2 envA envB).heap w).canDo =
        ((heap w).canDo.set "a" true).set "b" true := by
  have hs1 : runEvt (NewServer tryTimes heap) (evCanDoFor w "a") {} =
      (addFuncJobStore (handleCanDo (NewServer tryTimes heap) "a" w 0) "a").1 := rfl
  have hs2 : ∀ s, runEvt s (evCanDoFor w "b") {} =
      (addFuncJobStore (handleCanDo s "b" w 0) "b").1 := fun _ => rfl
  have hs3 : ∀ (s : Server) (c : Client) (f : String) (env : Env),
      runEvt s (evSubmitFor c f) env =
        (doAddJob { s with client := s.client.set c.SessionId c }
          (submittedJob s .SUBMIT_JOB env c f "u" "")).1 := by
    intro s c f env
    unfold runEvt
    rw [handleProtoEvt_submit s (evSubmitFor c f) env rfl,
      handleSubmitJob_eq s (evSubmitFor c f) env c f "u" "" rfl rfl rfl rfl]
    rfl
  unfold scenarioAB
  rw [hs1, hs2, hs3, hs3, doAddJob_state, doAddJob_state]
  refine ⟨?_, ?_, ?_⟩
  · constructor
    · simp [addFuncJobStore, handleCanDo, getJobWorkPair, NewServer, GoMap.set, GoMap.empty,
        heapSet]
    · simp [addFuncJobStore, handleCanDo, getJobWorkPair, NewServer, GoMap.set, GoMap.empty,
        heapSet]
    · simp [addFuncJobStore, handleCanDo, getJobWorkPair, NewServer, GoMap.set, GoMap.empty,
        heapSet]
    · simp [addFuncJobStore, handleCanDo, getJobWorkPair, NewServer, GoMap.set, GoMap.empty,
        heapSet, submittedJob, PushJob, scenarioJob, cmd2Priority, isBackGround]
    · simp [addFuncJobStore, handleCanDo, getJobWorkPair, NewServer, GoMap.set, GoMap.empty,
        heapSet, submittedJob, PushJob, scenarioJob, cmd2Priority, isBackGround]
    · intro g hga hgb
      simp [addFuncJobStore, handleCanDo, getJobWorkPair, NewServer, GoMap.set, GoMap.empty,
        heapSet, submittedJob, hga, hgb]
  · simp [addFuncJobStore, handleCanDo, getJobWorkPair, NewServer, GoMap.set, GoMap.empty,
      heapSet]
  · funext g
    simp [addFuncJobStore, handleCanDo, getJobWorkPair, NewServer, GoMap.set, GoMap.empty,
      heapSet]

/-- A grab when exactly one job is left in the two queues takes that job. -/
theorem grab_last (s : Server) (env : Env) (w : Nat) (sid : Int) (qa qb : List Job) (x : Job)
    (h : TwoQueues s w sid qa qb) (hord : RangeOf (s.heap w).canDo env.order)
    (hone : (qa = [x] ∧ qb = []) ∨ (qa = [] ∧ qb = [x])) :
    ∃ s1 : Server,
      handleProtoEvt s (evGrabFrom sid) env =
        some (s1, { sends := [], replies := [Reply.job (stampJob x env.now sid)] }) ∧
      s1.workJobs = s.workJobs.set x.Handle (stampJob x env.now sid) ∧
      (s1.heap w).canDo = (s.heap w).canDo ∧ TwoQueues s1 w sid [] [] := by
  have hne : qa ≠ [] ∨ qb ≠ [] := by
    rcases hone with ⟨ha, _⟩ | ⟨_, hb⟩
    · exact Or.inl (by rw [ha]; simp)
    · exact Or.inr (by rw [hb]; simp)
  obtain ⟨s1, j0, hrun, hwj, hcd, hcase⟩ := (grab_two s env w sid qa qb h hord).2 hne
  rcases hone with ⟨ha, hb⟩ | ⟨ha, hb⟩
  · rcases hcase with ⟨qa1, hqa, htq⟩ | ⟨qb1, hqb, _⟩
    · rw [ha] at hqa
      have hx : x = j0 ∧ [] = qa1 := by simpa using hqa
      rw [← hx.1] at hrun hwj
      rw [← hx.2, hb] at htq
      exact ⟨s1, hrun, hwj, hcd, htq⟩
    · rw [hb] at hqb
      cases hqb
  · rcases hcase with ⟨qa1, hqa, _⟩ | ⟨qb1, hqb, htq⟩
    · rw [ha] at hqa
      cases hqa
    · rw [hb] at hqb
      have hx : x = j0 ∧ [] = qb1 := by simpa using hqb
      rw [← hx.1] at hrun hwj
      rw [← hx.2, ha] at htq
      exact ⟨s1, hrun, hwj, hcd, htq⟩

/-- C20: the two-function scenario, for every order in which the ranges of the three
grabs visit the worker's `canDo` map. From the empty broker, after worker `w` sent
`CAN_DO "a"` and `CAN_DO "b"` and one job was submitted for `"a"` and one for `"b"`
(with distinct handles), the first two `GRAB_JOB` events of the worker's session are
each answered with a job, the two jobs have different handles and both are in
`workJobs` afterwards, and a third `GRAB_JOB` is answered with nil and leaves the worker
in status `PrepareForSleep`. -/
theorem C20_two_functions (tryTimes : Int) (heap : Nat → Worker) (w : Nat) (c1 c2 : Client)
    (envA envB env1 env2 env3 : Env) (hh : envA.handle ≠ envB.handle)
    (ho1 : RangeOf (((heap w).canDo.set "a" true).set "b" true) env1.order)
    (ho2 : RangeOf (((heap w).canDo.set "a" true).set "b" true) env2.order)
    (ho3 : RangeOf (((heap w).canDo.set "a" true).set "b" true) env3.order) :
    ∃ (s5 s6 s7 : Server) (J1 J2 : Job),
      handleProtoEvt (scenarioAB tryTimes heap w c1 c2 envA envB)
          (evGrabFrom (heap w).SessionId) env1 =
        some (s5, { sends := [], replies := [Reply.job J1] }) ∧
      handleProtoEvt s5 (evGrabFrom (heap w).SessionId) env2 =
        some (s6, { sends := [], replies := [Reply.job J2] }) ∧
      J1.Handle ≠ J2.Handle ∧
      s6.workJobs J1.Handle = some J1 ∧ s6.workJobs J2.Handle = some J2 ∧
      handleProtoEvt s6 (evGrabFrom (heap w).SessionId) env3 =
        some (s7, { sends := [], replies := [Reply.nil] }) ∧
      (s7.heap w).status = .wsPrepareForSleep ∧
      s7.workJobs J1.Handle = some J1 ∧ s7.workJobs J2.Handle = some J2 := by
  obtain ⟨htq, _, hcd⟩ := scenarioAB_state tryTimes heap w c1 c2 envA envB
  have hne : [scenarioJob envA c1 "a"] ≠ [] ∨ [scenarioJob envB c2 "b"] ≠ [] :=
    Or.inl (by simp)
  obtain ⟨s5, j0, hrun1, hwj1, hcd1, hcase⟩ :=
    (grab_two _ env1 w _ _ _ htq (by rw [hcd]; exact ho1)).2 hne
  have hfin : ∀ (x y : Job) (qa qb : List Job), x.Handle ≠ y.Handle → j0 = x →
      TwoQueues s5 w (heap w).SessionId qa qb →
      ((qa = [y] ∧ qb = []) ∨ (qa = [] ∧ qb = [y])) →
      ∃ (s6 s7 : Server) (J2 : Job),
        handleProtoEvt s5 (evGrabFrom (heap w).SessionId) env2 =
          some (s6, { sends := [], replies := [Reply.job J2] }) ∧
        (stampJob j0 env1.now (heap w).SessionId).Handle ≠ J2.Handle ∧
        s6.workJobs (stampJob j0 env1.now (heap w).SessionId).Handle =
          some (stampJob j0 env1.now (heap w).SessionId) ∧
        s6.workJobs J2.Handle = some J2 ∧
        handleProtoEvt s6 (evGrabFrom (heap w).SessionId) env3 =
          some (s7, { sends := [], replies := [Reply.nil] }) ∧
        (s7.heap w).status = .wsPrepareForSleep ∧
        s7.workJobs (stampJob j0 env1.now (heap w).SessionId).Handle =
          some (stampJob j0 env1.now (heap w).SessionId) ∧
        s7.workJobs J2.Handle = some J2 := by
    intro x y qa qb hxy hj0 htq5 hone
    obtain ⟨s6, hrun2, hwj2, hcd2, htq6⟩ :=
      grab_last s5 env2 w _ qa qb y htq5 (by rw [hcd1, hcd]; exact ho2) hone
    obtain ⟨s7, hrun3, hst, hwj3⟩ :=
      (grab_two s6 env3 w _ [] [] htq6 (by rw [hcd2, hcd1, hcd]; exact ho3)).1 rfl rfl
    have hxy1 : (stampJob j0 env1.now (heap w).SessionId).Handle ≠
        (stampJob y env2.now (heap w).SessionId).Handle := by
      rw [hj0]
      exact hxy
    have h61 : s6.workJobs (stampJob j0 env1.now (heap w).SessionId).Handle =
        some (stampJob j0 env1.now (heap w).SessionId) := by
      rw [hwj2, hwj1]
      have hne1 : j0.Handle ≠ y.Handle := by
        rw [hj0]
        exact hxy
      simp [GoMap.set, stampJob, hne1]
    have h62 : s6.workJobs (stampJob y env2.now (heap w).SessionId).Handle =
        some (stampJob y env2.now (heap w).SessionId) := by
      rw [hwj2]
      simp [GoMap.set, stampJob]
    exact ⟨s6, s7, _, hrun2, hxy1, h61, h62, hrun3, hst, by rw [hwj3]; exact h61,
      by rw [hwj3]; exact h62⟩
  rcases hcase with ⟨qa1, hqa, htq5⟩ | ⟨qb1, hqb, htq5⟩
  · have hx : scenarioJob envA c1 "a" = j0 ∧ [] = qa1 := by simpa using hqa
    rw [← hx.2] at htq5
    obtain ⟨s6, s7, J2, a1, a2, a3, a4, a5, a6, a7, a8⟩ :=
      hfin (scenarioJob envA c1 "a") (scenarioJob envB c2 "b") [] _ hh hx.1.symm htq5
        (Or.inr ⟨rfl, rfl⟩)
    exact ⟨s5, s6, s7, _, J2, hrun1, a1, a2, a3, a4, a5, a6, a7, a8⟩
  · have hx : scenarioJob envB c2 "b" = j0 ∧ [] = qb1 := by simpa using hqb
    rw [← hx.2] at htq5
    obtain ⟨s6, s7, J2, a1, a2, a3, a4, a5, a6, a7, a8⟩ :=
      hfin (scenarioJob envB c2 "b") (scenarioJob envA c1 "a") _ [] (Ne.symm hh) hx.1.symm htq5
        (Or.inl ⟨rfl, rfl⟩)
    exact ⟨s5, s6, s7, _, J2, hrun1, a1, a2, a3, a4, a5, a6, a7, a8⟩

theorem rangeOf_ab (order : List String) (hnd : order.Nodup)
    (hmem : ∀ k, k ∈ order ↔ (k = "a" ∨ k = "b")) :
    RangeOf ((((heap0 1).canDo).set "a" true).set "b" true) order := by
  refine ⟨hnd, ?_⟩
  intro k
  rw [hmem]
  by_cases ha : k = "a"
  · simp [ha, GoMap.set]
  · by_cases hb : k = "b"
    · simp [hb, GoMap.set]
    · simp [ha, hb, GoMap.set, heap0, GoMap.empty]

/-- C20 at a concrete run: worker 1, jobs `"H:1"` for `"a"` and `"H:2"` for `"b"`; the
first grab visits `"b"` first, the later ones `"a"` first. -/
theorem C20_two_functions_witness :
    ∃ (s5 s6 s7 : Server) (J1 J2 : Job),
      handleProtoEvt (scenarioAB 0 heap0 1 ⟨7⟩ ⟨8⟩ { handle := "H:1" } { handle := "H:2" })
          (evGrabFrom 1) { order := ["b", "a"] } =
        some (s5, { sends := [], replies := [Reply.job J1] }) ∧
      handleProtoEvt s5 (evGrabFrom 1) { order := ["a", "b"] } =
        some (s6, { sends := [], replies := [Reply.job J2] }) ∧
      J1.Handle ≠ J2.Handle ∧
      handleProtoEvt s6 (evGrabFrom 1) { order := ["a", "b"] } =
        some (s7, { sends := [], replies := [Reply.nil] }) ∧
      (s7.heap 1).status = .wsPrepareForSleep := by
  obtain ⟨s5, s6, s7, J1, J2, a1, a2, a3, _, _, a6, a7, _, _⟩ :=
    C20_two_functions 0 heap0 1 ⟨7⟩ ⟨8⟩ { handle := "H:1" } { handle := "H:2" }
      { order := ["b", "a"] } { order := ["a", "b"] } { order := ["a", "b"] } (by decide)
      (rangeOf_ab ["b", "a"] (by decide) (fun k => by simp [or_comm]))
      (rangeOf_ab ["a", "b"] (by decide) (fun k => by simp))
      (rangeOf_ab ["a", "b"] (by decide) (fun k => by simp))
  exact ⟨s5, s6, s7, J1, J2, a1, a2, a3, a6, a7⟩

/-! ## Events that refer to something unknown -/

theorem handleGrabJobOld_unregistered (s : Server) (e : Event) (env : Env)
    (hw : s.worker e.fromSessionId = none) :
    handleGrabJobOld s e env = some (s, { sends := [], replies := [] }) := by
  unfold handleGrabJobOld
  simp [hw]

/-- C21: `GRAB_JOB` / `GRAB_JOB_UNIQ` from a session that is not a key of `worker`:
exactly one value is sent on the reply channel, it is nil, no packet is pushed, and the
broker state (every table and every queue) is unchanged. -/
theorem C21_grab_unregistered (s : Server) (e : Event) (env : Env)
    (htp : e.tp = .GRAB_JOB ∨ e.tp = .GRAB_JOB_UNIQ)
    (hw : s.worker e.fromSessionId = none) :
    handleProtoEvt s e env = some (s, { sends := [], replies := [Reply.nil] }) := by
  unfold handleProtoEvt handleGrabJob
  rcases htp with h | h <;> simp [h, Cmd.isCtrl, hw]

/-- C21 at a concrete input: on the broker `srvOneWorking`, whose worker table is empty,
`GRAB_JOB` from session 1 is answered with one nil and the job table is as before. -/
theorem C21_grab_unregistered_witness :
    (handleProtoEvt srvOneWorking evGrab {}).map
        (fun r => (r.2.replies, r.2.sends, r.1.workJobs "H:1")) =
      some ([Reply.nil], [], some (mkJob "H:1" "f" 7 100 10 false)) := by
  rw [C21_grab_unregistered srvOneWorking evGrab {} (Or.inl rfl) rfl]
  rfl

/-- C22: a work report (any of the six `WORK_*` commands) whose handle is not a key of
`workJobs` is dropped: no packet is pushed, nothing is replied, and the broker state is
unchanged. A `WORK_STATUS` report is dropped before its numerator and denominator are
read. -/
theorem C22_report_unknown_handle (s : Server) (e : Event) (env : Env) (h : String)
    (rest : List String) (htp : isWorkReport e.tp = true)
    (harg : e.args.t0 = .slice (h :: rest)) (hj : s.workJobs h = none) :
    handleProtoEvt s e env = some (s, { sends := [], replies := [] }) := by
  rw [handleProtoEvt_workReport s e env htp]
  unfold handleWorkReport
  simp [harg, hj]

/-- C22 at concrete inputs: the handle `"H:1"` is removed from `srvOneWorking` by the
terminal report `evComplete`, respectively by the sweep at time 105; a late
`WORK_STATUS` report on it is dropped in both states. -/
theorem C22_report_unknown_handle_witness :
    srvOneWorking.workJobs "H:1" = some (mkJob "H:1" "f" 7 100 10 false) ∧
    (handleProtoEvt srvReported evStatusShort {}).map (fun r => (r.2.sends, r.1.workJobs "H:1")) =
      some ([], none) ∧
    (handleProtoEvt (clearTimeoutJob srvOneWorking 105 ["H:1"]).1 evComplete {}).map
        (fun r => r.2.sends) = some [] := by
  refine ⟨rfl, ?_, ?_⟩
  · rw [C22_report_unknown_handle srvReported evStatusShort {} "H:1" [] rfl rfl rfl]
    rfl
  · rw [C22_report_unknown_handle (clearTimeoutJob srvOneWorking 105 ["H:1"]).1 evComplete {}
      "H:1" ["olleh"] rfl rfl (by decide)]
    rfl

/-- C23: handling `CANT_DO` completes without a runtime fault if and only if the sending
session is a key of `worker`. For every broker state, function name and session,
`removeCanDo` returns normally exactly when `worker[sessionId]` is present (whether or
not the worker declared the function or the function has a roster), and otherwise the
access to the `canDo` map of the nil worker faults; the same holds for the `CANT_DO`
case of `handleProtoEvt`. -/
theorem C23_cant_do_faults_iff_unregistered (s : Server) (f : String) (sessionId : Int)
    (args : Tuple) (env : Env) :
    (removeCanDo s f sessionId).isSome = (s.worker sessionId).isSome ∧
    (handleProtoEvt s
      { tp := .CANT_DO, args := { args with t0 := .str f }, fromSessionId := sessionId }
      env).isSome = (s.worker sessionId).isSome := by
  have hrc : (removeCanDo s f sessionId).isSome = (s.worker sessionId).isSome := by
    unfold removeCanDo
    cases hf : s.funcWorker f <;> cases hw : s.worker sessionId <;> simp [hw]
  refine ⟨hrc, ?_⟩
  unfold handleProtoEvt
  simp [Cmd.isCtrl, hrc]

end Gearman
